import Mathlib

/-!
# Input validation of the tensor operators

A shallow embedding of `src/lib/validate-input.js` (function `validateInput` with its helper
`check1DTensorWithSize`) and theorems about the rule-set of each operation.

Conventions of the embedding.

* Each `case` of the `switch` of `validateInput` is a function `validateInput<Case>` over the
  argument tuple that the case destructures; an options record is a structure whose omitted
  fields are `none`, the defaults of the destructuring being applied in the function.
  `validateInput` itself compares the operation identifier with the fourteen labels in turn
  and hands the arguments to the function of the case.
* The numeric arguments the rules are stated for (axes, starts, sizes, splits, steps,
  hiddenSize, groups) are integers, typed `Int`.  The guards `Number.isInteger(x)` of the
  source are kept in place through `isInteger`, which holds of every number of the model.
* What the source reads out of a shape array is a `Val`: a number, or `undefined` when the
  index is out of bounds; arithmetic on `undefined` gives `NaN`, and a sum or product past
  the largest finite number is an infinity.  The comparison and arithmetic operators on `Val`
  follow the host language.
* `throw new Error(...)` is `Except.error` with one constructor of `Error` per message
  template, carrying the values interpolated into the message.  A failure raised by the host
  itself (reading a property of `undefined`, reducing an empty array without initial value)
  is `Error.typeError`.
* The numbers of the host are binary64.  The integers of a request are `Int`, which also
  holds the integers that are no binary64 number; a sum or a product the source computes is
  the exact result rounded to binary64 (`Val.ofExact`, used by `Val.add64` and `Val.mul64`):
  the exact result below `2 ^ 53` in magnitude, the nearest number with 53 significant binary
  digits beyond, an infinity past the largest finite number.  Comparisons and `%` are exact
  on binary64 and need no rounding.
* Arrays are lists.  `new Array(n)` refuses a length of `2 ^ 32` or more with a `RangeError`;
  the time and the memory an allocation takes are outside the model.
* Where a rule-set is also given with its sums taken exactly (`sliceCheckAt`,
  `validateInputSlice`, the product `3 * hiddenSize` of `validateInputGruCell`), this is said
  at the definition, together with the requests on which the exact form is the binary64 one.
-/

namespace ValidateInput

/-! ## Values -/

/-- A value met in arithmetic and comparisons: a number, `undefined`, `NaN`, or one of the two
infinities that a sum or a product overflows to. -/
inductive Val where
  | num (n : Int)
  | undefined
  | nan
  | posInf
  | negInf
  deriving DecidableEq, Repr

/-- The number of binary digits of `m` beyond the 53 that a binary64 significand holds, found
in at most `fuel` halvings. -/
def excessBits : Nat → Nat → Nat
  | 0, _ => 0
  | fuel + 1, m => if m < 2 ^ 53 then 0 else excessBits fuel (m / 2) + 1

/-- The significand of `m` at the exponent `e`: the quotient of `m` by `2 ^ e`, rounded to
nearest, a tie going to the even quotient. -/
def significand (m e : Nat) : Nat :=
  let q := m / 2 ^ e
  let r := m % 2 ^ e
  if 2 * r < 2 ^ e ∨ (2 * r = 2 ^ e ∧ q % 2 = 0) then q else q + 1

namespace Val

/-- The binary64 value of the exact integer `x`: `x` rounded to 53 significant binary digits
(to nearest, ties to even), and an infinity when the rounded magnitude reaches
`2 ^ 1024 = 2 ^ 53 * 2 ^ 971`.  Below `2 ^ 53` in magnitude this is `x` itself. -/
def ofExact (x : Int) : Val :=
  let e := excessBits 1024 x.natAbs
  let q := significand x.natAbs e
  if 971 ≤ e ∧ 2 ^ 53 ≤ q * 2 ^ (e - 971) then
    if 0 ≤ x then posInf else negInf
  else if 0 ≤ x then num ((q * 2 ^ e : Nat) : Int)
  else num (-((q * 2 ^ e : Nat) : Int))

/-- The operator `===` on numbers and `undefined`: `NaN` is not equal to itself. -/
def strictEq : Val → Val → Bool
  | num a, num b => decide (a = b)
  | undefined, undefined => true
  | posInf, posInf => true
  | negInf, negInf => true
  | _, _ => false

/-- The operator `!==`. -/
def strictNe (a b : Val) : Bool := !(strictEq a b)

/-- The operator `<` after conversion to number: false as soon as an operand is not a number. -/
def lt : Val → Val → Bool
  | num a, num b => decide (a < b)
  | num _, posInf => true
  | negInf, num _ => true
  | negInf, posInf => true
  | _, _ => false

/-- The operator `>`. -/
def gt (a b : Val) : Bool := lt b a

/-- The operator `>=` after conversion to number. -/
def ge : Val → Val → Bool
  | num a, num b => decide (b ≤ a)
  | posInf, num _ => true
  | posInf, posInf => true
  | posInf, negInf => true
  | num _, negInf => true
  | negInf, negInf => true
  | _, _ => false

/-- Unary minus: `-undefined` is `NaN`. -/
def neg : Val → Val
  | num a => num (-a)
  | posInf => negInf
  | negInf => posInf
  | _ => nan

/-- The operator `+` with the sum of two numbers taken exactly: `Val.add64` without the
rounding, used by `sliceCheckAt` only. -/
def add : Val → Val → Val
  | num a, num b => num (a + b)
  | posInf, num _ => posInf
  | num _, posInf => posInf
  | posInf, posInf => posInf
  | negInf, num _ => negInf
  | num _, negInf => negInf
  | negInf, negInf => negInf
  | _, _ => nan

/-- The operator `+` of the host: the sum of two numbers is rounded to binary64; `undefined`
gives `NaN`, as do two infinities of opposite sign. -/
def add64 : Val → Val → Val
  | num a, num b => ofExact (a + b)
  | posInf, num _ => posInf
  | num _, posInf => posInf
  | posInf, posInf => posInf
  | negInf, num _ => negInf
  | num _, negInf => negInf
  | negInf, negInf => negInf
  | _, _ => nan

/-- The operator `*` of the host: the product of two numbers is rounded to binary64;
`undefined` gives `NaN`, as does an infinity times zero. -/
def mul64 : Val → Val → Val
  | num a, num b => ofExact (a * b)
  | posInf, num b => if b = 0 then nan else if 0 < b then posInf else negInf
  | num a, posInf => if a = 0 then nan else if 0 < a then posInf else negInf
  | negInf, num b => if b = 0 then nan else if 0 < b then negInf else posInf
  | num a, negInf => if a = 0 then nan else if 0 < a then negInf else posInf
  | posInf, posInf => posInf
  | negInf, negInf => posInf
  | posInf, negInf => negInf
  | negInf, posInf => negInf
  | _, _ => nan

/-- The operator `%`: the remainder takes the sign of the dividend, `x % 0` is `NaN`, and a
number is its own remainder by an infinity. -/
def rem : Val → Val → Val
  | num a, num b => if b = 0 then nan else num (Int.tmod a b)
  | num a, posInf => num a
  | num a, negInf => num a
  | _, _ => nan

end Val

/-- A value of at least `2 ^ 53`: such a number, or the positive infinity. -/
def Val.IsBig (v : Val) : Prop := v = Val.posInf ∨ ∃ r : Int, 2 ^ 53 ≤ r ∧ v = Val.num r

/-- A value of at most `-2 ^ 53`: such a number, or the negative infinity. -/
def Val.IsBigNeg (v : Val) : Prop := v = Val.negInf ∨ ∃ r : Int, r ≤ -2 ^ 53 ∧ v = Val.num r

/-- The guard `Number.isInteger(x)`: `undefined`, `NaN` and the infinities are not
integers. -/
def isInteger : Val → Bool
  | Val.num _ => true
  | _ => false

/-- The expression `xs[i]` on an array of integers: `undefined` past the end. -/
def elemAt (xs : List Int) (i : Nat) : Val :=
  match xs[i]? with
  | some x => Val.num x
  | none => Val.undefined

/-- An optional numeric field read out of an options record: `undefined` when omitted. -/
def fieldVal : Option Int → Val
  | some x => Val.num x
  | none => Val.undefined

/-! ## Tensor descriptor -/

/-- A tensor descriptor: the shape (non-negative dimension sizes) and the flat data buffer.
The validator reads `rank` and `shape` only. -/
structure Tensor where
  shape : List Nat
  data : List Int
  deriving DecidableEq, Repr

namespace Tensor

/-- The getter `rank`: the length of the shape. -/
def rank (t : Tensor) : Nat := t.shape.length

/-- The expression `t.shape[i]` for an integer `i`: `undefined` when `i` is not an index of
the shape. -/
def shapeAt (t : Tensor) (i : Int) : Val :=
  if i < 0 then Val.undefined
  else match t.shape[i.toNat]? with
    | some d => Val.num (d : Int)
    | none => Val.undefined

/-- The expression `t.shape[v]` for a computed index: `undefined` when `v` is not a number. -/
def shapeAtVal (t : Tensor) : Val → Val
  | Val.num i => shapeAt t i
  | _ => Val.undefined

end Tensor

/-! ## Errors -/

/-- The failures of `validateInput`, one constructor per message template. -/
inductive Error where
  /-- Message `The parameter ${name} is not a 1-D tensor.` -/
  | notOneD (name : String)
  /-- Message `The length ${a.shape[0]} of the ${name} values is not equal to the size
  ${expectedSize} of the input dimension denoted by options.axis.` -/
  | lengthNotEqual (len expectedSize : Val) (name : String)
  /-- Message `Invalid axis ${axis}, axis should be an integer.` -/
  | axisNotInteger (axis : Int)
  /-- Message `Invalid axis ${axis}, axis should be in the interval [0, ${rank}).` -/
  | axisInterval (axis : Int) (rank : Nat)
  /-- Message `All input tensors should have the same rank.` -/
  | sameRank
  /-- Message `All input tensors should have the same shape, except for the size of the dimension to
  concatenate on.` -/
  | sameShape
  /-- Message `The input should be a 4-D tensor.` -/
  | inputNot4D
  /-- Message `The filter should be a 4-D tensor.` -/
  | filterNot4D
  /-- Message `The input channels of filter is invalid.` -/
  | inputChannelsInvalid
  /-- Message `the bias should be a 1-D tensor with the shape of [output_channels].` -/
  | biasNotOutputChannels
  /-- Message `The steps ${steps} is invalid.` -/
  | stepsInvalid (steps : Int)
  /-- Message `The hiddenSize ${hiddenSize} is invalid.` -/
  | hiddenSizeInvalid (hiddenSize : Int)
  /-- Message `The ${name} (rank ${reported}) is not a ${expected}-D tensor.` -/
  | notRank (name : String) (reported : Nat) (expected : Nat)
  /-- Message `The shape of ${name} [${dims}] is invalid.` -/
  | shapeInvalid (name : String) (dims : List Val)
  /-- Message `The input.shape[0] ${d} is not equal to steps ${steps}.` -/
  | inputShape0NotSteps (d : Val) (steps : Int)
  /-- Message `The direction ${direction} is invalid.` -/
  | directionInvalid (direction : Option String)
  /-- Message `The layout ${layout} is invalid.` -/
  | layoutInvalid (layout : Option String)
  /-- Message `The columns (${aCols}) of input a is not equal to rows (${bRows}) of input b.` -/
  | colsNotRows (aCols bRows : Val)
  /-- Message `The length of axes ${len} is greater than rank ${rank}.` -/
  | sliceAxesLength (len rank : Nat)
  /-- Message `Invalid axes value ${axis}, it should be an integer.` -/
  | sliceAxisNotInteger (axis : Int)
  /-- Message `Invalid axes value ${axis}, it should be in the interval [${-rank}, ${rank}).` -/
  | sliceAxisInterval (axis : Int) (rank : Nat)
  /-- Message `The length ${len} of starts is not equal to the length ${axesLen} of axes.` -/
  | startsLength (len axesLen : Nat)
  /-- Message `The length ${len} of sizes is not equal to the length ${axesLen} of axes.` -/
  | sizesLength (len axesLen : Nat)
  /-- Message `Invalid starts value ${start}, it should be an integer.` -/
  | startNotInteger (start : Val)
  /-- Message `Invalid starts value ${start}, it shoule be in the interval [${-size}, ${size}).` -/
  | startInterval (start : Val) (size : Val)
  /-- Message `Invalid sizes value ${sliceSize}, it should be an integer.` -/
  | sizeNotInteger (sliceSize : Val)
  /-- Message `Invalid sizes value ${sliceSize}, the sum of the start ${start} plus the size
  ${sliceSize} is greater than the dimensional size ${size}` -/
  | sizeSum (sliceSize start : Val) (size : Val)
  /-- Message `The value ${sliceSize} of sizes is invalid, it is required to be -1 when it is
  negative.` -/
  | sizeNegative (sliceSize : Val)
  /-- Message `The axis ${axis} should be an integer.` -/
  | splitAxisNotInteger (axis : Int)
  /-- Message `The axis ${axis} should be in the interval [${-rank}, ${rank}).` -/
  | splitAxisInterval (axis : Int) (rank : Nat)
  /-- Message `Invalid splits ${splits}, it should be a positive integer.` -/
  | splitsNotPositive (splits : Int)
  /-- Message `The splits ${splits} must evenly divide the dimension size ${dim} of input along
  options.axis ${inpAxis}.` -/
  | splitsNotDivide (splits : Int) (dim : Val) (inpAxis : Int)
  /-- Message `Invalid splits ${splits}, it should be an Array of positive integers.` -/
  | splitsNotPositiveArray (splits : List Int)
  /-- Message `Invalid [${splits}], the sum of sizes ${sum} must equal to the dimension size
  ${dim} of input along options.axis ${inpAxis}` -/
  | splitsSum (splits : List Int) (sum : Val) (dim : Val) (inpAxis : Int)
  /-- Message `The input a is not a 2-D tensor.` -/
  | gemmANot2D
  /-- Message `The input b is not a 2-D tensor.` -/
  | gemmBNot2D
  /-- Message `The length ${len} of axes is bigger than input rank ${rank}.` -/
  | reduceAxesLength (len rank : Nat)
  /-- Message `The value ${axes[i]} at axis ${i} of axes is invalid.` -/
  | reduceAxisValue (value : Val) (i : Nat)
  /-- Message `The length of axes ${len} is bigger than input rank ${rank}.` -/
  | squeezeAxesLength (len rank : Nat)
  /-- Message `The value of axes ${axis} is invalid.` -/
  | squeezeAxisValue (axis : Int)
  /-- Message `The value ${input.shape[axis]} at axis ${axis} of input shape is not 1.` -/
  | squeezeDimNotOne (dim : Val) (axis : Int)
  /-- Message `The rounding type is invalid.` -/
  | roundingTypeInvalid
  /-- Message `The input is not a 2-D tensor.` -/
  | softmaxInputNot2D
  /-- Message `The permutation length ${len} is not equal to rank ${rank}.` -/
  | permutationLength (len rank : Nat)
  /-- A `TypeError` raised by the host (property of `undefined`, `reduce` of an empty array). -/
  | typeError
  /-- A `RangeError` raised by the host (`new Array(n)` with `n` not a valid length). -/
  | rangeError
  /-- The failure of the tensor constructor: the data length is not the size of the shape. -/
  | dataLength (len : Nat) (size : Val)
  deriving DecidableEq, Repr

deriving instance DecidableEq for Except

/-! ## Control -/

/-- A `for` loop whose body may throw: the first failure ends the loop. -/
def forEach {α : Type} (xs : List α) (body : α → Except Error Unit) : Except Error Unit :=
  match xs with
  | [] => .ok ()
  | x :: rest =>
    match body x with
    | .error e => .error e
    | .ok _ => forEach rest body

/-! ## The rule-sets -/

/-- The helper `check1DTensorWithSize(a, expectedSize, name)`; an absent tensor is `none`. -/
def check1DTensorWithSize (a : Option Tensor) (expectedSize : Val) (name : String) :
    Except Error Unit :=
  match a with
  | none => .ok ()
  | some a =>
    if a.rank ≠ 1 then
      .error (.notOneD name)
    else if Val.strictNe (a.shapeAt 0) expectedSize then
      .error (.lengthNotEqual (a.shapeAt 0) expectedSize name)
    else
      .ok ()

/-- The options record of `batchNormalization`, as far as the validator destructures and
reads it: `{axis = 1, scale, bias}`. -/
structure BatchNormalizationOptions where
  axis : Option Int := none
  scale : Option Tensor := none
  bias : Option Tensor := none

/-- The case `"batchNormalization"`: arguments `[input, mean, variance, options]`. -/
def validateInputBatchNormalization (input : Tensor) (mean variance : Option Tensor)
    (options : BatchNormalizationOptions) : Except Error Unit :=
  let axis := options.axis.getD 1
  if !isInteger (Val.num axis) then
    .error (.axisNotInteger axis)
  else
    let dim := input.shapeAt axis
    (check1DTensorWithSize mean dim "mean").bind fun _ =>
    (check1DTensorWithSize variance dim "variance").bind fun _ =>
    (check1DTensorWithSize options.scale dim "scale").bind fun _ =>
    check1DTensorWithSize options.bias dim "bias"

/-- The case `"concat"`: arguments `[inputs, axis]`.  Reading `inputs[0].rank` of an empty
array is a `TypeError`. -/
def validateInputConcat (inputs : List Tensor) (axis : Int) : Except Error Unit :=
  match inputs with
  | [] => .error .typeError
  | first :: _ =>
    let rank := first.rank
    if !isInteger (Val.num axis) then
      .error (.axisNotInteger axis)
    else if axis < 0 ∨ axis ≥ rank then
      .error (.axisInterval axis rank)
    else
      let inputShape := first.shape
      -- for (let i = 1; i < inputs.length; ++i)
      forEach (inputs.drop 1) fun t =>
        if t.rank ≠ rank then
          .error .sameRank
        else
          -- for (let j = 0; j < inputShape.length; ++j)
          forEach (List.range inputShape.length) fun j =>
            if (j : Int) ≠ axis then
              if Val.strictNe (first.shapeAt j) (t.shapeAt j) then
                .error .sameShape
              else .ok ()
            else .ok ()

/-- The options record of `conv2`, as far as the validator destructures it: `{bias, groups}`,
neither with a default. -/
structure Conv2Options where
  bias : Option Tensor := none
  groups : Option Int := none

/-- The case `"conv2"`: arguments `[input, filter, options]`. -/
def validateInputConv2 (input filter : Tensor) (options : Conv2Options) : Except Error Unit :=
  let inputChannels := input.shapeAt 1
  let outputChannels := filter.shapeAt 0
  let filterInputChannels := filter.shapeAt 1
  if input.rank ≠ 4 then
    .error .inputNot4D
  else if filter.rank ≠ 4 then
    .error .filterNot4D
  else if Val.strictNe inputChannels (Val.mul64 filterInputChannels (fieldVal options.groups)) then
    .error .inputChannelsInvalid
  else
    match options.bias with
    | some bias =>
      -- on numbers and undefined the loose `!=` agrees with `!==`
      if bias.rank ≠ 1 ∨ Val.strictNe (bias.shapeAt 0) outputChannels = true then
        .error .biasNotOutputChannels
      else .ok ()
    | none => .ok ()

/-- The case `"matmul"`: arguments `[a, b]`. -/
def validateInputMatmul (a b : Tensor) : Except Error Unit :=
  let aCols := a.shapeAt ((a.rank : Int) - 1)
  let bRows := b.shapeAt ((b.rank : Int) - 2)
  if Val.strictNe aCols bRows then
    .error (.colsNotRows aCols bRows)
  else .ok ()

/-- The options record of `slice`: `{axes}`. -/
structure SliceOptions where
  axes : Option (List Int) := none

/-- The first part of the case `"slice"`: the resolution of `inpAxes`.  An explicit `axes`
(an array, hence truthy even when empty) is checked for length and range; an omitted one is
replaced by `[0, ..., rank - 1]`. -/
def sliceResolveAxes (rank : Nat) (axes : Option (List Int)) : Except Error (List Int) :=
  match axes with
  | some axes =>
    if axes.length > rank then
      .error (.sliceAxesLength axes.length rank)
    else
      match forEach axes (fun axis =>
        if !isInteger (Val.num axis) then
          .error (.sliceAxisNotInteger axis)
        else if axis ≥ rank ∨ axis < -(rank : Int) then
          .error (.sliceAxisInterval axis rank)
        else .ok ()) with
      | .error e => .error e
      | .ok _ => .ok axes
  | none => .ok ((List.range rank).map Int.ofNat)

/-- The body of the loop `for (let i = 0; i < axesLen; ++i)` of the case `"slice"`.  The
array `startsForAllAxes` the source writes to here is local and never read. -/
def sliceCheckAt64 (input : Tensor) (inpAxes starts sizes : List Int) (i : Nat) :
    Except Error Unit :=
  let rank : Val := Val.num input.rank
  let axis := if Val.ge (elemAt inpAxes i) (Val.num 0) then elemAt inpAxes i
    else Val.add64 (elemAt inpAxes i) rank
  let size := input.shapeAtVal axis
  let start := elemAt starts i
  if !isInteger start then
    .error (.startNotInteger start)
  else if Val.ge start size ∨ Val.lt start (Val.neg size) then
    .error (.startInterval start size)
  else
    let sliceSize := elemAt sizes i
    if !isInteger sliceSize then
      .error (.sizeNotInteger sliceSize)
    else if Val.ge sliceSize (Val.num 0) then
      if Val.ge start (Val.num 0) then
        if Val.gt (Val.add64 start sliceSize) size then
          .error (.sizeSum sliceSize start size)
        else .ok ()
      else
        if Val.gt (Val.add64 start sliceSize) (Val.num 0) then
          .error (.sizeSum sliceSize start size)
        else .ok ()
    else
      if Val.strictNe sliceSize (Val.num (-1)) then
        .error (.sizeNegative sliceSize)
      else .ok ()

/-- The case `"slice"`: arguments `[input, starts, sizes, options]`. -/
def validateInputSlice64 (input : Tensor) (starts sizes : List Int) (options : SliceOptions) :
    Except Error Unit :=
  let rank := input.rank
  match sliceResolveAxes rank options.axes with
  | .error e => .error e
  | .ok inpAxes =>
    let axesLen := inpAxes.length
    if starts.length ≠ axesLen then
      .error (.startsLength starts.length axesLen)
    else if sizes.length ≠ axesLen then
      .error (.sizesLength sizes.length axesLen)
    else
      forEach (List.range axesLen) (sliceCheckAt64 input inpAxes starts sizes)

/-- The body of the loop of the case `"slice"` with its sums taken exactly (`Val.add` in the
place of `Val.add64`).  It is `sliceCheckAt64` on every tensor of rank below `2 ^ 53` whose
dimensions are below `2 ^ 53` (`sliceCheckAt64_eq`). -/
def sliceCheckAt (input : Tensor) (inpAxes starts sizes : List Int) (i : Nat) :
    Except Error Unit :=
  let rank : Val := Val.num input.rank
  let axis := if Val.ge (elemAt inpAxes i) (Val.num 0) then elemAt inpAxes i
    else Val.add (elemAt inpAxes i) rank
  let size := input.shapeAtVal axis
  let start := elemAt starts i
  if !isInteger start then
    .error (.startNotInteger start)
  else if Val.ge start size ∨ Val.lt start (Val.neg size) then
    .error (.startInterval start size)
  else
    let sliceSize := elemAt sizes i
    if !isInteger sliceSize then
      .error (.sizeNotInteger sliceSize)
    else if Val.ge sliceSize (Val.num 0) then
      if Val.ge start (Val.num 0) then
        if Val.gt (Val.add start sliceSize) size then
          .error (.sizeSum sliceSize start size)
        else .ok ()
      else
        if Val.gt (Val.add start sliceSize) (Val.num 0) then
          .error (.sizeSum sliceSize start size)
        else .ok ()
    else
      if Val.strictNe sliceSize (Val.num (-1)) then
        .error (.sizeNegative sliceSize)
      else .ok ()

/-- The case `"slice"` with its sums taken exactly.  It is `validateInputSlice64` on every
tensor of rank below `2 ^ 53` whose dimensions are below `2 ^ 53` (`validateInputSlice64_eq`);
with `axes` omitted it succeeds on the requests `validateInputSlice64` succeeds on, for every
tensor with fewer than `2 ^ 53` elements (`slice64_default_ok_iff`), as every buffer of the
host has. -/
def validateInputSlice (input : Tensor) (starts sizes : List Int) (options : SliceOptions) :
    Except Error Unit :=
  let rank := input.rank
  match sliceResolveAxes rank options.axes with
  | .error e => .error e
  | .ok inpAxes =>
    let axesLen := inpAxes.length
    if starts.length ≠ axesLen then
      .error (.startsLength starts.length axesLen)
    else if sizes.length ≠ axesLen then
      .error (.sizesLength sizes.length axesLen)
    else
      forEach (List.range axesLen) (sliceCheckAt input inpAxes starts sizes)

/-- The `splits` argument of `split`: a number, an array, or a value of another type (for
which the source checks nothing). -/
inductive Splits where
  | number (n : Int)
  | array (xs : List Int)
  | other

/-- The options record of `split`: `{axis = 0}`. -/
structure SplitOptions where
  axis : Option Int := none

/-- The call `splits.reduce((a, b) => a + b)`, without initial value: a `TypeError` on the
empty array; otherwise the entries are added from the left, each sum rounded to binary64. -/
def reduceSum : List Int → Except Error Val
  | [] => .error .typeError
  | x :: rest => .ok (rest.foldl (fun a b => Val.add64 a (Val.num b)) (Val.num x))

/-- The case `"split"`: arguments `[input, splits, options]`.  The test `axis !== undefined`
of the source always holds, the default `0` having been applied by the destructuring. -/
def validateInputSplit (input : Tensor) (splits : Splits) (options : SplitOptions) :
    Except Error Unit :=
  let axis := options.axis.getD 0
  let rank := input.rank
  if !isInteger (Val.num axis) then
    .error (.splitAxisNotInteger axis)
  else if axis ≥ rank ∨ axis < -(rank : Int) then
    .error (.splitAxisInterval axis rank)
  else
    let inpAxis : Int := if axis ≥ 0 then axis else rank + axis
    match splits with
    | .number splits =>
      if !isInteger (Val.num splits) ∨ splits ≤ 0 then
        .error (.splitsNotPositive splits)
      else if Val.strictNe (Val.rem (input.shapeAt inpAxis) (Val.num splits)) (Val.num 0) then
        .error (.splitsNotDivide splits (input.shapeAt inpAxis) inpAxis)
      else .ok ()
    | .array splits =>
      if !(splits.all fun v => isInteger (Val.num v) && decide (v > 0)) then
        .error (.splitsNotPositiveArray splits)
      else
        match reduceSum splits with
        | .error e => .error e
        | .ok sum =>
          if Val.strictNe sum (input.shapeAt inpAxis) then
            .error (.splitsSum splits sum (input.shapeAt inpAxis) inpAxis)
          else .ok ()
    | .other => .ok ()

/-- Modelled from the spec: `sizeOfShape` of the tensor module (`src/lib/tensor.js`, not among
the sources): the product of the entries of a shape, multiplied from the left in binary64. -/
def sizeOfShape (shape : List Val) : Val :=
  shape.foldl Val.mul64 (Val.num 1)

/-- The expression `new Array(n).fill(v)`: a `RangeError` unless the number `n` is an integer
of `[0, 2 ^ 32)`, the lengths an array of the host can have; a non-number `n` becomes the
single element of the array. -/
def newArrayFill (n : Val) (v : Int) : Except Error (List Int) :=
  match n with
  | Val.num k =>
    if 0 ≤ k ∧ k < 2 ^ 32 then .ok (List.replicate k.toNat v) else .error .rangeError
  | Val.undefined => .ok [v]
  | _ => .error .rangeError

/-- The dimension kept for a shape entry handed to the tensor constructor. -/
def Val.toDim : Val → Nat
  | Val.num n => n.toNat
  | _ => 0

/-- Modelled from the spec: the constructor `new Tensor(shape, data)` of the tensor module
(`src/lib/tensor.js`, not among the sources), which fails if the length of `data` is not the
product of `shape`. -/
def Tensor.new (shape : List Val) (data : List Int) : Except Error Tensor :=
  if Val.strictNe (Val.num data.length) (sizeOfShape shape) then
    .error (.dataLength data.length (sizeOfShape shape))
  else
    .ok { shape := shape.map Val.toDim, data := data }

/-- The options record of `gruCell`, as far as the validator reads it:
`{bias, recurrentBias, layout = 'zrn'}`. -/
structure GruCellOptions where
  bias : Option Tensor := none
  recurrentBias : Option Tensor := none
  layout : Option String := none

/-- The case `"gruCell"`: arguments
`[input, weight, recurrentWeight, hiddenState, hiddenSize, options]`.  The message of the
rank check of `recurrentBias` interpolates `bias.rank`, a `TypeError` when `bias` is
absent.  The product `3 * hiddenSize` is taken exactly: it is the binary64 product whenever
a `recurrentWeight` of shape `[3 * hiddenSize, hiddenSize]` has fewer than `2 ^ 53` elements
(`gruCell_product_exact`), as every buffer of the host has. -/
def validateInputGruCell (input weight recurrentWeight hiddenState : Tensor)
    (hiddenSize : Int) (options : GruCellOptions) : Except Error Unit :=
  let layout := options.layout.getD "zrn"
  if !isInteger (Val.num hiddenSize) ∨ hiddenSize ≤ 0 then
    .error (.hiddenSizeInvalid hiddenSize)
  else if input.rank ≠ 2 then
    .error (.notRank "input" input.rank 2)
  else
    let batchSize := input.shapeAt 0
    let inputSize := input.shapeAt 1
    if weight.rank ≠ 2 then
      .error (.notRank "weight" weight.rank 2)
    else if Val.strictNe (weight.shapeAt 0) (Val.num (3 * hiddenSize)) ∨
        Val.strictNe (weight.shapeAt 1) inputSize then
      .error (.shapeInvalid "weight" [weight.shapeAt 0, weight.shapeAt 1])
    else if recurrentWeight.rank ≠ 2 then
      .error (.notRank "recurrentWeight" recurrentWeight.rank 2)
    else if Val.strictNe (recurrentWeight.shapeAt 0) (Val.num (3 * hiddenSize)) ∨
        Val.strictNe (recurrentWeight.shapeAt 1) (Val.num hiddenSize) then
      .error (.shapeInvalid "recurrentWeight"
        [recurrentWeight.shapeAt 0, recurrentWeight.shapeAt 1])
    else if hiddenState.rank ≠ 2 then
      .error (.notRank "hiddenState" hiddenState.rank 2)
    else if Val.strictNe (hiddenState.shapeAt 0) batchSize ∨
        Val.strictNe (hiddenState.shapeAt 1) (Val.num hiddenSize) then
      .error (.shapeInvalid "hiddenState" [hiddenState.shapeAt 0, hiddenState.shapeAt 1])
    else
      -- if (bias) { ... }
      (match options.bias with
        | some bias =>
          if bias.rank ≠ 1 then
            .error (.notRank "bias" bias.rank 1)
          else if Val.strictNe (bias.shapeAt 0) (Val.num (3 * hiddenSize)) then
            .error (.shapeInvalid "bias" [bias.shapeAt 0])
          else .ok ()
        | none => .ok () : Except Error Unit).bind fun _ =>
      -- if (recurrentBias) { ... }
      (match options.recurrentBias with
        | some recurrentBias =>
          if recurrentBias.rank ≠ 1 then
            match options.bias with
            | some bias => .error (.notRank "recurrentBias" bias.rank 1)
            | none => .error .typeError
          else if Val.strictNe (recurrentBias.shapeAt 0) (Val.num (3 * hiddenSize)) then
            .error (.shapeInvalid "recurrentBias" [recurrentBias.shapeAt 0])
          else .ok ()
        | none => .ok () : Except Error Unit).bind fun _ =>
      if layout ≠ "zrn" ∧ layout ≠ "rzn" then
        .error (.layoutInvalid (some layout))
      else .ok ()

/-- The options record of `gru`, as far as the validator reads it:
`{bias, recurrentBias, initialHiddenState, direction, layout}`, none with a default. -/
structure GruOptions where
  bias : Option Tensor := none
  recurrentBias : Option Tensor := none
  initialHiddenState : Option Tensor := none
  direction : Option String := none
  layout : Option String := none

/-- The `else` branch of `if (initialHiddenState)` in the case `"gru"`: the tensor
`new Tensor(shape, new Array(sizeOfShape(shape)).fill(0))` of the shape
`[numDirections, batchSize, hiddenSize]`. -/
def gruDefaultHiddenState (numDirections batchSize hiddenSize : Val) : Except Error Tensor :=
  let initialHiddenStateShape := [numDirections, batchSize, hiddenSize]
  (newArrayFill (sizeOfShape initialHiddenStateShape) 0).bind fun zeros =>
    Tensor.new initialHiddenStateShape zeros

/-- The case `"gru"` up to the binding of its local `hiddenState`: arguments
`[input, weight, recurrentWeight, steps, hiddenSize, options]`; the value is the tensor the
local is bound to. -/
def gruHiddenState (input weight recurrentWeight : Tensor) (steps hiddenSize : Int)
    (options : GruOptions) : Except Error Tensor :=
  let direction := options.direction
  if !isInteger (Val.num steps) ∨ steps ≤ 0 then
    .error (.stepsInvalid steps)
  else if !isInteger (Val.num hiddenSize) ∨ hiddenSize ≤ 0 then
    .error (.hiddenSizeInvalid hiddenSize)
  else if input.rank ≠ 3 then
    .error (.notRank "input" input.rank 3)
  else if Val.strictNe (input.shapeAt 0) (Val.num steps) then
    .error (.inputShape0NotSteps (input.shapeAt 0) steps)
  else
    let batchSize := input.shapeAt 1
    let inputSize := input.shapeAt 2
    if direction ≠ some "forward" ∧ direction ≠ some "backward" ∧
        direction ≠ some "both" then
      .error (.directionInvalid direction)
    else
      let numDirections : Int := if direction = some "both" then 2 else 1
      if weight.rank ≠ 3 then
        .error (.notRank "weight" weight.rank 3)
      else if Val.strictNe (weight.shapeAt 0) (Val.num numDirections) ∨
          Val.strictNe (weight.shapeAt 1) (Val.mul64 (Val.num 3) (Val.num hiddenSize)) ∨
          Val.strictNe (weight.shapeAt 2) inputSize then
        .error (.shapeInvalid "weight" [weight.shapeAt 0, weight.shapeAt 1, weight.shapeAt 2])
      else if recurrentWeight.rank ≠ 3 then
        .error (.notRank "recurrentWeight" recurrentWeight.rank 3)
      else if Val.strictNe (recurrentWeight.shapeAt 0) (Val.num numDirections) ∨
          Val.strictNe (recurrentWeight.shapeAt 1)
            (Val.mul64 (Val.num 3) (Val.num hiddenSize)) ∨
          Val.strictNe (recurrentWeight.shapeAt 2) (Val.num hiddenSize) then
        .error (.shapeInvalid "recurrentWeight"
          [recurrentWeight.shapeAt 0, recurrentWeight.shapeAt 1, recurrentWeight.shapeAt 2])
      else
        -- if (bias) { ... }
        (match options.bias with
          | some bias =>
            if bias.rank ≠ 2 then
              .error (.notRank "bias" bias.rank 2)
            else if Val.strictNe (bias.shapeAt 0) (Val.num numDirections) ∨
                Val.strictNe (bias.shapeAt 1) (Val.mul64 (Val.num 3) (Val.num hiddenSize)) then
              .error (.shapeInvalid "bias" [bias.shapeAt 0, bias.shapeAt 1])
            else .ok ()
          | none => .ok () : Except Error Unit).bind fun _ =>
        -- if (recurrentBias) { ... }
        (match options.recurrentBias with
          | some recurrentBias =>
            if recurrentBias.rank ≠ 2 then
              .error (.notRank "recurrentBias" recurrentBias.rank 2)
            else if Val.strictNe (recurrentBias.shapeAt 0) (Val.num numDirections) ∨
                Val.strictNe (recurrentBias.shapeAt 1)
                  (Val.mul64 (Val.num 3) (Val.num hiddenSize)) then
              .error (.shapeInvalid "recurrentBias"
                [recurrentBias.shapeAt 0, recurrentBias.shapeAt 1])
            else .ok ()
          | none => .ok () : Except Error Unit).bind fun _ =>
        -- let hiddenState; if (initialHiddenState) { ... } else { ... }
        match options.initialHiddenState with
        | some initialHiddenState =>
          if initialHiddenState.rank ≠ 3 then
            .error (.notRank "initialHiddenState" initialHiddenState.rank 3)
          else if Val.strictNe (initialHiddenState.shapeAt 0) (Val.num numDirections) ∨
              Val.strictNe (initialHiddenState.shapeAt 1) batchSize ∨
              Val.strictNe (initialHiddenState.shapeAt 2) (Val.num hiddenSize) then
            .error (.shapeInvalid "initialHiddenState" [initialHiddenState.shapeAt 0,
              initialHiddenState.shapeAt 1, initialHiddenState.shapeAt 2])
          else .ok initialHiddenState
        | none => gruDefaultHiddenState (Val.num numDirections) batchSize (Val.num hiddenSize)

/-- The case `"gru"`: the binding of `hiddenState` and, after it, the check of the layout.
The local `hiddenState` is not read after its binding, and the case ends without a `return`:
the value of a call that does not throw is the unit value, whatever the local holds. -/
def validateInputGru (input weight recurrentWeight : Tensor) (steps hiddenSize : Int)
    (options : GruOptions) : Except Error Unit :=
  let layout := options.layout
  (gruHiddenState input weight recurrentWeight steps hiddenSize options).bind
    fun _hiddenState =>
  if layout ≠ some "zrn" ∧ layout ≠ some "rzn" then
    .error (.layoutInvalid layout)
  else .ok ()

/-- The case `"gemm"`: arguments `[a, b]`. -/
def validateInputGemm (a b : Tensor) : Except Error Unit :=
  if a.rank ≠ 2 then
    .error .gemmANot2D
  else if b.rank ≠ 2 then
    .error .gemmBNot2D
  else .ok ()

/-- The options record of `reduce`, as far as the validator reads it: `{axes}`, without
default. -/
structure ReduceOptions where
  axes : Option (List Int) := none

/-- The case `"reduce"`: arguments `[input, reduceFunc, options]`; `reduceFunc` is not read.
Reading `axes.length` of an omitted `axes` is a `TypeError`. -/
def validateInputReduce (input : Tensor) (options : ReduceOptions) : Except Error Unit :=
  match options.axes with
  | none => .error .typeError
  | some axes =>
    if axes.length > input.rank then
      .error (.reduceAxesLength axes.length input.rank)
    else
      -- for (let i = 0; i < axes.length; ++i)
      forEach (List.range axes.length) fun i =>
        if Val.lt (elemAt axes i) (Val.num 0) ∨
            Val.ge (elemAt axes i) (Val.num input.rank) then
          .error (.reduceAxisValue (elemAt axes i) i)
        else .ok ()

/-- The options record of `squeeze`: `{axes}`. -/
structure SqueezeOptions where
  axes : Option (List Int) := none

/-- The body of the loop `for (const axis of axes)` of the case `"squeeze"`.  The test
`axes &&` of the source holds there, `axes` being an array. -/
def squeezeCheckAxis (input : Tensor) (axis : Int) : Except Error Unit :=
  if axis < 0 ∨ axis ≥ input.rank then
    .error (.squeezeAxisValue axis)
  else if Val.strictNe (input.shapeAt axis) (Val.num 1) then
    .error (.squeezeDimNotOne (input.shapeAt axis) axis)
  else .ok ()

/-- The case `"squeeze"`: arguments `[input, options]`. -/
def validateInputSqueeze (input : Tensor) (options : SqueezeOptions) : Except Error Unit :=
  match options.axes with
  | some axes =>
    if axes.length > input.rank then
      .error (.squeezeAxesLength axes.length input.rank)
    else
      forEach axes (squeezeCheckAxis input)
  | none => .ok ()

/-- The options record of `pool2d`, as far as the validator reads it:
`{roundingType = 'floor'}`. -/
structure Pool2dOptions where
  roundingType : Option String := none

/-- The case `"pool2d"`: arguments `[input, _, options]`; the second argument is not read. -/
def validateInputPool2d (input : Tensor) (options : Pool2dOptions) : Except Error Unit :=
  let roundingType := options.roundingType.getD "floor"
  if input.rank ≠ 4 then
    .error .inputNot4D
  else if roundingType ≠ "floor" ∧ roundingType ≠ "ceil" then
    .error .roundingTypeInvalid
  else .ok ()

/-- The case `"softmax"`: arguments `[x]`. -/
def validateInputSoftmax (x : Tensor) : Except Error Unit :=
  if x.rank ≠ 2 then
    .error .softmaxInputNot2D
  else .ok ()

/-- The options record of `tanh`, as far as the validator reads it: `{permutation}`, without
default. -/
structure TanhOptions where
  permutation : Option (List Int) := none

/-- The case `"tanh"`: arguments `[input, options]`.  Reading `permutation.length` of an
omitted `permutation` is a `TypeError`. -/
def validateInputTanh (input : Tensor) (options : TanhOptions) : Except Error Unit :=
  match options.permutation with
  | none => .error .typeError
  | some permutation =>
    if permutation.length ≠ input.rank then
      .error (.permutationLength permutation.length input.rank)
    else .ok ()

/-- The argument list of a call of `validateInput`: the tuple one of the fourteen cases
destructures, or any other list of tensors and integers. -/
inductive Args where
  | batchNormalization (input : Tensor) (mean variance : Option Tensor)
      (options : BatchNormalizationOptions)
  | concat (inputs : List Tensor) (axis : Int)
  | conv2 (input filter : Tensor) (options : Conv2Options)
  | gemm (a b : Tensor)
  | gruCell (input weight recurrentWeight hiddenState : Tensor) (hiddenSize : Int)
      (options : GruCellOptions)
  | gru (input weight recurrentWeight : Tensor) (steps hiddenSize : Int) (options : GruOptions)
  | matmul (a b : Tensor)
  | pool2d (input : Tensor) (options : Pool2dOptions)
  | reduce (input : Tensor) (options : ReduceOptions)
  | slice (input : Tensor) (starts sizes : List Int) (options : SliceOptions)
  | softmax (x : Tensor)
  | split (input : Tensor) (splits : Splits) (options : SplitOptions)
  | squeeze (input : Tensor) (options : SqueezeOptions)
  | tanh (input : Tensor) (options : TanhOptions)
  | other (tensors : List Tensor) (integers : List Int)

/-- The function `validateInput(op, args)`: the `switch` compares `op` with the label of each
case in turn and has no `default`, so an identifier that matches no label leaves the `switch`
with nothing done.  The result is `none` when `op` selects a case and `args` is not a tuple of
the form this case is embedded for: such a call is outside the model. -/
def validateInput (op : String) (args : Args) : Option (Except Error Unit) :=
  if op = "batchNormalization" then
    match args with
    | .batchNormalization input mean variance options =>
      some (validateInputBatchNormalization input mean variance options)
    | _ => none
  else if op = "concat" then
    match args with
    | .concat inputs axis => some (validateInputConcat inputs axis)
    | _ => none
  else if op = "conv2" then
    match args with
    | .conv2 input filter options => some (validateInputConv2 input filter options)
    | _ => none
  else if op = "gemm" then
    match args with
    | .gemm a b => some (validateInputGemm a b)
    | _ => none
  else if op = "gruCell" then
    match args with
    | .gruCell input weight recurrentWeight hiddenState hiddenSize options =>
      some (validateInputGruCell input weight recurrentWeight hiddenState hiddenSize options)
    | _ => none
  else if op = "gru" then
    match args with
    | .gru input weight recurrentWeight steps hiddenSize options =>
      some (validateInputGru input weight recurrentWeight steps hiddenSize options)
    | _ => none
  else if op = "matmul" then
    match args with
    | .matmul a b => some (validateInputMatmul a b)
    | _ => none
  else if op = "pool2d" then
    match args with
    | .pool2d input options => some (validateInputPool2d input options)
    | _ => none
  else if op = "reduce" then
    match args with
    | .reduce input options => some (validateInputReduce input options)
    | _ => none
  else if op = "slice" then
    match args with
    | .slice input starts sizes options =>
      some (validateInputSlice64 input starts sizes options)
    | _ => none
  else if op = "softmax" then
    match args with
    | .softmax x => some (validateInputSoftmax x)
    | _ => none
  else if op = "split" then
    match args with
    | .split input splits options => some (validateInputSplit input splits options)
    | _ => none
  else if op = "squeeze" then
    match args with
    | .squeeze input options => some (validateInputSqueeze input options)
    | _ => none
  else if op = "tanh" then
    match args with
    | .tanh input options => some (validateInputTanh input options)
    | _ => none
  else
    some (.ok ())

/-! ## The rules in the words of the specification -/

/-- The fourteen operation identifiers that `validateInput` handles. -/
def handledOperations : List String :=
  ["batchNormalization", "concat", "conv2", "gemm", "gruCell", "gru", "matmul", "pool2d",
    "reduce", "slice", "softmax", "split", "squeeze", "tanh"]

/-- The per-axis condition of `slice` in the words of the specification: the start lies in
`[-d, d)`, and the size is the sentinel `-1` or a non-negative count that, added to the
wrapped start, does not exceed `d`. -/
def SliceOk (d start size : Int) : Prop :=
  -d ≤ start ∧ start < d ∧
    (size = -1 ∨ (0 ≤ size ∧ (if 0 ≤ start then start else start + d) + size ≤ d))

/-- The axis an entry `a` of `axes` addresses in a tensor of rank `r`. -/
def normAxis (r : Nat) (a : Int) : Int := if 0 ≤ a then a else a + r

/-- The tensor has exactly the shape `dims`, in the words of the specification. -/
def hasShape (t : Tensor) (dims : List Int) : Prop :=
  t.shape.map Int.ofNat = dims

/-- The number of directions of a gru request, in the words of the specification: 2 when the
direction is `both`, 1 otherwise. -/
def numDirections (direction : Option String) : Int :=
  if direction = some "both" then 2 else 1

/-- The optional tensor of a batchNormalization request that a message names. -/
def batchNormalizationNamed (mean variance : Option Tensor)
    (options : BatchNormalizationOptions) (name : String) : Option Tensor :=
  if name = "mean" then mean
  else if name = "variance" then variance
  else if name = "scale" then options.scale
  else if name = "bias" then options.bias
  else none

/-- The zero-filled descriptor of a shape: the buffer has the product of the shape as its
length. -/
def zeroTensor (shape : List Nat) : Tensor :=
  { shape := shape, data := List.replicate shape.prod 0 }

instance (t : Tensor) (dims : List Int) : Decidable (hasShape t dims) := by
  unfold hasShape
  infer_instance

/-- A check of a rule-set: the error it raises if it is violated. -/
def check (violated : Prop) [Decidable violated] (e : Error) : Option Error :=
  if violated then some e else none

/-- The outcome of checks evaluated in a fixed order: the error of the earliest violated
check, whatever the later ones say; success when no check is violated. -/
def firstViolation : List (Option Error) → Except Error Unit
  | [] => .ok ()
  | some e :: _ => .error e
  | none :: rest => firstViolation rest

/-- The tensor has exactly the shape `dims`, the entries of `dims` being values as the host
computes them. -/
def hasShapeVal (t : Tensor) (dims : List Val) : Prop :=
  t.shape.map (fun d : Nat => Val.num (d : Int)) = dims

instance (t : Tensor) (dims : List Val) : Decidable (hasShapeVal t dims) := by
  unfold hasShapeVal
  infer_instance

/-- The first fifteen checks of a gru request in the order of the specification, each stated
on the request alone: steps, hiddenSize, input rank, `input.shape[0] = steps`, direction,
weight rank, weight shape, recurrentWeight rank, recurrentWeight shape, bias rank, bias shape,
recurrentBias rank, recurrentBias shape, initialHiddenState rank, initialHiddenState shape.
A check on an absent optional tensor is not violated.  The product `3 * hiddenSize` of the
shapes is the binary64 product. -/
def gruChecksBefore (input weight recurrentWeight : Tensor) (steps h : Int)
    (options : GruOptions) : List (Option Error) :=
  let n := numDirections options.direction
  let batchSize : Int := ((input.shape[1]?).getD 0 : Nat)
  let inputSize : Int := ((input.shape[2]?).getD 0 : Nat)
  let h3 := Val.mul64 (Val.num 3) (Val.num h)
  [ check (¬ 0 < steps) (.stepsInvalid steps),
    check (¬ 0 < h) (.hiddenSizeInvalid h),
    check (input.rank ≠ 3) (.notRank "input" input.rank 3),
    check ((input.shape[0]?).map Int.ofNat ≠ some steps)
      (.inputShape0NotSteps (input.shapeAt 0) steps),
    check (¬ (options.direction = some "forward" ∨ options.direction = some "backward" ∨
      options.direction = some "both")) (.directionInvalid options.direction),
    check (weight.rank ≠ 3) (.notRank "weight" weight.rank 3),
    check (¬ hasShapeVal weight [Val.num n, h3, Val.num inputSize])
      (.shapeInvalid "weight" [weight.shapeAt 0, weight.shapeAt 1, weight.shapeAt 2]),
    check (recurrentWeight.rank ≠ 3) (.notRank "recurrentWeight" recurrentWeight.rank 3),
    check (¬ hasShapeVal recurrentWeight [Val.num n, h3, Val.num h])
      (.shapeInvalid "recurrentWeight"
        [recurrentWeight.shapeAt 0, recurrentWeight.shapeAt 1, recurrentWeight.shapeAt 2]),
    options.bias.bind fun bias =>
      check (bias.rank ≠ 2) (.notRank "bias" bias.rank 2),
    options.bias.bind fun bias =>
      check (¬ hasShapeVal bias [Val.num n, h3])
        (.shapeInvalid "bias" [bias.shapeAt 0, bias.shapeAt 1]),
    options.recurrentBias.bind fun recurrentBias =>
      check (recurrentBias.rank ≠ 2) (.notRank "recurrentBias" recurrentBias.rank 2),
    options.recurrentBias.bind fun recurrentBias =>
      check (¬ hasShapeVal recurrentBias [Val.num n, h3])
        (.shapeInvalid "recurrentBias" [recurrentBias.shapeAt 0, recurrentBias.shapeAt 1]),
    options.initialHiddenState.bind fun initialHiddenState =>
      check (initialHiddenState.rank ≠ 3)
        (.notRank "initialHiddenState" initialHiddenState.rank 3),
    options.initialHiddenState.bind fun initialHiddenState =>
      check (¬ hasShape initialHiddenState [n, batchSize, h])
        (.shapeInvalid "initialHiddenState" [initialHiddenState.shapeAt 0,
          initialHiddenState.shapeAt 1, initialHiddenState.shapeAt 2]) ]

/-- The check of the layout of a gru request, the last of the specification. -/
def gruLayoutCheck (options : GruOptions) : Option Error :=
  check (¬ (options.layout = some "zrn" ∨ options.layout = some "rzn"))
    (.layoutInvalid options.layout)

/-- The sixteen checks of a gru request in the order of the specification. -/
def gruChecks (input weight recurrentWeight : Tensor) (steps h : Int) (options : GruOptions) :
    List (Option Error) :=
  gruChecksBefore input weight recurrentWeight steps h options ++ [gruLayoutCheck options]

/-- The allocation of the default hidden state, stated on the request alone: with
`initialHiddenState` omitted, a buffer of `numDirections * batchSize * hiddenSize` zeros is
asked for, and a length of `2 ^ 32` or more is refused with a `RangeError`. -/
def gruDefaultCheck (input : Tensor) (h : Int) (options : GruOptions) : Option Error :=
  check (options.initialHiddenState = none ∧
    2 ^ 32 ≤ numDirections options.direction * (((input.shape[1]?).getD 0 : Nat) : Int) * h)
    .rangeError

/-- The steps of a gru request that can fail, in the order the rule-set takes them: the first
fifteen checks, the allocation of the default hidden state, the check of the layout. -/
def gruSteps (input weight recurrentWeight : Tensor) (steps h : Int) (options : GruOptions) :
    List (Option Error) :=
  gruChecksBefore input weight recurrentWeight steps h options ++
    [gruDefaultCheck input h options, gruLayoutCheck options]

/-! ## Lemmas on values and loops -/

theorem forEach_eq_ok_iff {α : Type} (xs : List α) (body : α → Except Error Unit) :
    forEach xs body = .ok () ↔ ∀ x ∈ xs, body x = .ok () := by
  induction xs with
  | nil => simp [forEach]
  | cons x rest ih =>
    rw [forEach]
    cases hb : body x with
    | error e => simp [hb]
    | ok u => simp [hb, ih]

theorem ite_error_eq_ok_iff {α : Type} (c : Prop) [Decidable c] (e : Error)
    (r : Except Error α) (a : α) :
    (if c then Except.error e else r) = Except.ok a ↔ ¬ c ∧ r = Except.ok a := by
  by_cases h : c <;> simp [h]

theorem bind_eq_ok_iff {α : Type} (x : Except Error Unit) (f : Unit → Except Error α) (a : α) :
    x.bind f = Except.ok a ↔ x = Except.ok () ∧ f () = Except.ok a := by
  cases x with
  | error e => simp [Except.bind]
  | ok u => simp [Except.bind]

theorem shapeAt_natCast (t : Tensor) (j : Nat) :
    t.shapeAt (j : Int) = match t.shape[j]? with
      | some d => Val.num (d : Int)
      | none => Val.undefined := by
  simp [Tensor.shapeAt]

theorem shapeAt_of_lt (t : Tensor) (j : Nat) (h : j < t.shape.length) :
    t.shapeAt (j : Int) = Val.num ((t.shape.get ⟨j, h⟩ : Nat) : Int) := by
  rw [shapeAt_natCast]
  simp [List.getElem?_eq_getElem h]

theorem strictNe_shapeAt_iff (s t : Tensor) (j : Nat) (hs : j < s.rank) (ht : j < t.rank) :
    Val.strictNe (s.shapeAt (j : Int)) (t.shapeAt (j : Int)) = true ↔
      s.shape[j]? ≠ t.shape[j]? := by
  unfold Tensor.rank at hs ht
  simp [shapeAt_natCast, List.getElem?_eq_getElem hs, List.getElem?_eq_getElem ht,
    Val.strictNe, Val.strictEq]

/-- The body of the outer loop of the concat case, for one further input `t`. -/
theorem concat_body_ok_iff (first t : Tensor) (axis : Int) :
    (if t.rank ≠ first.rank then Except.error Error.sameRank
      else forEach (List.range first.shape.length) fun j =>
        if (j : Int) ≠ axis then
          if Val.strictNe (first.shapeAt (j : Int)) (t.shapeAt (j : Int)) = true then
            Except.error Error.sameShape
          else Except.ok ()
        else Except.ok ()) = Except.ok () ↔
    t.rank = first.rank ∧
      ∀ j : Nat, j < first.rank → (j : Int) ≠ axis → t.shape[j]? = first.shape[j]? := by
  by_cases hr : t.rank = first.rank
  · simp only [hr, ne_eq, not_true_eq_false, if_false, true_and, forEach_eq_ok_iff,
      List.mem_range]
    refine forall_congr' fun j => ?_
    by_cases hj : j < first.rank
    · have hjt : j < t.rank := hr ▸ hj
      have hj' : j < first.shape.length := hj
      by_cases hja : (j : Int) = axis
      · simp [hja]
      · have := strictNe_shapeAt_iff first t j hj hjt
        simp only [hj', hj, hja, not_false_eq_true, if_true, true_implies]
        by_cases hne : Val.strictNe (first.shapeAt (j : Int)) (t.shapeAt (j : Int)) = true
        · simp only [hne, if_true]
          have h2 := this.mp hne
          constructor
          · intro h; cases h
          · intro h; exact absurd h.symm h2
        · simp only [hne]
          have h2 : ¬ (first.shape[j]? ≠ t.shape[j]?) := fun h => hne (this.mpr h)
          simp only [ne_eq, not_not] at h2
          simp [h2]
    · have hj' : ¬ j < first.shape.length := hj
      simp [hj, hj']
  · simp [hr]

theorem sliceCheckAt_ok_iff (input : Tensor) (inpAxes starts sizes : List Int) (i : Nat)
    (a s z : Int) (d : Nat) (ha : inpAxes[i]? = some a) (hs : starts[i]? = some s)
    (hz : sizes[i]? = some z) (hk : 0 ≤ normAxis input.rank a)
    (hd : input.shape[(normAxis input.rank a).toNat]? = some d) :
    sliceCheckAt input inpAxes starts sizes i = .ok () ↔ SliceOk d s z := by
  have hsz : input.shapeAtVal (if Val.ge (Val.num a) (Val.num 0) = true then Val.num a
      else Val.add (Val.num a) (Val.num input.rank)) = Val.num d := by
    unfold normAxis at hk hd
    by_cases h0 : 0 ≤ a
    · simp only [Val.ge, h0, decide_True, if_true, Tensor.shapeAtVal, Tensor.shapeAt] at hk hd ⊢
      simp [hd, not_lt.mpr h0]
    · simp only [Val.ge, h0, decide_False, if_false, Tensor.shapeAtVal, Tensor.shapeAt,
        Val.add, Bool.false_eq_true] at hk hd ⊢
      simp [hd, not_lt.mpr hk]
  unfold sliceCheckAt SliceOk
  simp only [elemAt, ha, hs, hz]
  simp only [hsz]
  simp only [isInteger, Bool.not_true, Bool.false_eq_true, if_false,
    Val.ge, Val.lt, Val.gt, Val.neg, Val.add, Val.strictNe, Val.strictEq, decide_eq_true_eq]
  clear hsz hd hk ha hs hz
  split_ifs <;> simp at * <;> omega

theorem normAxis_range (r : Nat) (a : Int) (h : -(r : Int) ≤ a ∧ a < r) :
    0 ≤ normAxis r a ∧ (normAxis r a).toNat < r := by
  unfold normAxis
  split_ifs <;> omega

/-- The loop of the case `"slice"` over resolved axes that lie in `[-rank, rank)`. -/
theorem slice_loop_ok_iff (input : Tensor) (inpAxes starts sizes : List Int)
    (hst : starts.length = inpAxes.length) (hsz : sizes.length = inpAxes.length)
    (hax : ∀ a ∈ inpAxes, -(input.rank : Int) ≤ a ∧ a < input.rank) :
    forEach (List.range inpAxes.length) (sliceCheckAt input inpAxes starts sizes) = .ok () ↔
      ∀ (i : Nat) (a s z : Int) (d : Nat), inpAxes[i]? = some a → starts[i]? = some s →
        sizes[i]? = some z → input.shape[(normAxis input.rank a).toNat]? = some d →
        SliceOk d s z := by
  rw [forEach_eq_ok_iff]
  simp only [List.mem_range]
  constructor
  · intro h i a s z d ha hs hz hd
    have hi : i < inpAxes.length := by
      obtain ⟨hi, -⟩ := List.getElem?_eq_some.mp ha
      exact hi
    have hk := (normAxis_range input.rank a (hax a (List.getElem?_mem ha))).1
    exact (sliceCheckAt_ok_iff input inpAxes starts sizes i a s z d ha hs hz hk hd).mp (h i hi)
  · intro h i hi
    have ha : inpAxes[i]? = some (inpAxes.get ⟨i, hi⟩) := List.getElem?_eq_getElem hi
    have hs : starts[i]? = some (starts.get ⟨i, hst ▸ hi⟩) :=
      List.getElem?_eq_getElem (hst ▸ hi)
    have hz : sizes[i]? = some (sizes.get ⟨i, hsz ▸ hi⟩) :=
      List.getElem?_eq_getElem (hsz ▸ hi)
    have hr := normAxis_range input.rank _ (hax _ (List.getElem?_mem ha))
    have hd : input.shape[(normAxis input.rank (inpAxes.get ⟨i, hi⟩)).toNat]? =
        some (input.shape.get ⟨_, hr.2⟩) := List.getElem?_eq_getElem hr.2
    exact (sliceCheckAt_ok_iff input inpAxes starts sizes i _ _ _ _ ha hs hz hr.1 hd).mpr
      (h i _ _ _ _ ha hs hz hd)

/-- The dimension a normalized axis addresses is a number. -/
theorem shapeAt_normAxis (input : Tensor) (a : Int)
    (h : -(input.rank : Int) ≤ a ∧ a < input.rank) :
    ∃ d : Nat, input.shape[(normAxis input.rank a).toNat]? = some d ∧
      input.shapeAt (normAxis input.rank a) = Val.num (d : Int) := by
  have hr := normAxis_range input.rank a h
  refine ⟨input.shape.get ⟨_, hr.2⟩, List.getElem?_eq_getElem hr.2, ?_⟩
  unfold Tensor.shapeAt
  rw [if_neg (not_lt.mpr hr.1), List.getElem?_eq_getElem hr.2]
  rfl

/-- The dimension `k` places before the end of the shape is a number. -/
theorem shapeAt_rank_sub (t : Tensor) (k : Nat) (hk : 1 ≤ k) (h : k ≤ t.rank) :
    ∃ d : Nat, t.shape[t.rank - k]? = some d ∧
      t.shapeAt ((t.rank : Int) - (k : Int)) = Val.num (d : Int) := by
  have hlt : t.rank - k < t.shape.length := by
    unfold Tensor.rank at *
    omega
  have hcast : (t.rank : Int) - (k : Int) = ((t.rank - k : Nat) : Int) := by omega
  refine ⟨t.shape.get ⟨_, hlt⟩, List.getElem?_eq_getElem hlt, ?_⟩
  rw [hcast, shapeAt_of_lt t _ hlt]

theorem strictNe_num_iff (v : Val) (x : Int) :
    Val.strictNe v (Val.num x) = true ↔ v ≠ Val.num x := by
  cases v <;> simp [Val.strictNe, Val.strictEq]

theorem hasShape_one_iff (t : Tensor) (x : Int) :
    hasShape t [x] ↔ t.rank = 1 ∧ t.shapeAt 0 = Val.num x := by
  obtain ⟨shape, data⟩ := t
  rcases shape with _ | ⟨a, _ | ⟨b, rest⟩⟩ <;>
    simp [hasShape, Tensor.rank, Tensor.shapeAt]

theorem hasShape_two_iff (t : Tensor) (x y : Int) :
    hasShape t [x, y] ↔ t.rank = 2 ∧ t.shapeAt 0 = Val.num x ∧ t.shapeAt 1 = Val.num y := by
  obtain ⟨shape, data⟩ := t
  rcases shape with _ | ⟨a, _ | ⟨b, _ | ⟨c, rest⟩⟩⟩ <;>
    simp [hasShape, Tensor.rank, Tensor.shapeAt]

theorem hasShape_three_iff (t : Tensor) (x y z : Int) :
    hasShape t [x, y, z] ↔
      t.rank = 3 ∧ t.shapeAt 0 = Val.num x ∧ t.shapeAt 1 = Val.num y ∧
        t.shapeAt 2 = Val.num z := by
  obtain ⟨shape, data⟩ := t
  rcases shape with _ | ⟨a, _ | ⟨b, _ | ⟨c, _ | ⟨d, rest⟩⟩⟩⟩ <;>
    simp [hasShape, Tensor.rank, Tensor.shapeAt]

theorem shape_of_rank_two (t : Tensor) (h : t.rank = 2) :
    ∃ b i : Nat, t.shape = [b, i] ∧ t.shapeAt 0 = Val.num (b : Int) ∧
      t.shapeAt 1 = Val.num (i : Int) := by
  obtain ⟨shape, data⟩ := t
  rcases shape with _ | ⟨a, _ | ⟨b, _ | ⟨c, rest⟩⟩⟩ <;>
    simp [Tensor.rank, Tensor.shapeAt] at h ⊢

theorem shape_of_rank_three (t : Tensor) (h : t.rank = 3) :
    ∃ s b i : Nat, t.shape = [s, b, i] ∧ t.shapeAt 0 = Val.num (s : Int) ∧
      t.shapeAt 1 = Val.num (b : Int) ∧ t.shapeAt 2 = Val.num (i : Int) := by
  obtain ⟨shape, data⟩ := t
  rcases shape with _ | ⟨a, _ | ⟨b, _ | ⟨c, _ | ⟨d, rest⟩⟩⟩⟩ <;>
    simp [Tensor.rank, Tensor.shapeAt] at h ⊢

theorem shape_of_rank_four (t : Tensor) (h : t.rank = 4) :
    ∃ a b c d : Nat, t.shape = [a, b, c, d] := by
  obtain ⟨shape, data⟩ := t
  rcases shape with _ | ⟨a, _ | ⟨b, _ | ⟨c, _ | ⟨d, _ | ⟨e, rest⟩⟩⟩⟩⟩ <;>
    simp [Tensor.rank] at h ⊢

theorem shape_of_rank_one (t : Tensor) (h : t.rank = 1) : ∃ a : Nat, t.shape = [a] := by
  obtain ⟨shape, data⟩ := t
  rcases shape with _ | ⟨a, _ | ⟨b, rest⟩⟩ <;> simp [Tensor.rank] at h ⊢

theorem bind_eq_error_iff {α : Type} (x : Except Error Unit) (f : Unit → Except Error α)
    (e : Error) :
    x.bind f = Except.error e ↔
      x = Except.error e ∨ (x = Except.ok () ∧ f () = Except.error e) := by
  cases x with
  | error e' => simp [Except.bind]
  | ok u => simp [Except.bind]

theorem check1DTensorWithSize_ok_iff (a : Option Tensor) (C : Nat) (name : String) :
    check1DTensorWithSize a (Val.num (C : Int)) name = .ok () ↔
      ∀ t, a = some t → t.shape = [C] := by
  cases a with
  | none => simp [check1DTensorWithSize]
  | some t =>
    simp only [check1DTensorWithSize, Option.some.injEq, forall_eq', ite_error_eq_ok_iff,
      strictNe_num_iff, not_not, and_true, ne_eq]
    by_cases hr : t.rank = 1
    · obtain ⟨a0, hs⟩ := shape_of_rank_one t hr
      have e0 : t.shapeAt 0 = Val.num (a0 : Int) := by simp [Tensor.shapeAt, hs]
      simp [hr, e0, hs]
    · have : t.shape ≠ [C] := fun h => hr (by simp [Tensor.rank, h])
      simp [hr, this]

/-- How `check1DTensorWithSize` reports: a tensor of rank other than 1 as not 1-D, a rank-1
tensor of another length as a length mismatch. -/
theorem check1DTensorWithSize_error (a : Option Tensor) (C : Nat) (name : String) (e : Error)
    (h : check1DTensorWithSize a (Val.num (C : Int)) name = .error e) :
    ∃ t, a = some t ∧
      ((t.rank ≠ 1 ∧ e = .notOneD name) ∨
        (∃ len : Nat, t.shape = [len] ∧ len ≠ C ∧
          e = .lengthNotEqual (Val.num (len : Int)) (Val.num (C : Int)) name)) := by
  cases a with
  | none => simp [check1DTensorWithSize] at h
  | some t =>
    refine ⟨t, rfl, ?_⟩
    unfold check1DTensorWithSize at h
    by_cases hr : t.rank = 1
    · obtain ⟨a0, hs⟩ := shape_of_rank_one t hr
      have e0 : t.shapeAt 0 = Val.num (a0 : Int) := by simp [Tensor.shapeAt, hs]
      simp only [hr, ne_eq, not_true_eq_false, if_false, e0, strictNe_num_iff,
        Val.num.injEq, Nat.cast_inj] at h
      right
      by_cases hc : a0 = C
      · simp [hc] at h
      · simp only [hc, not_false_eq_true, if_true, Except.error.injEq] at h
        exact ⟨a0, hs, hc, h.symm⟩
    · simp only [ne_eq, hr, not_false_eq_true, if_true, Except.error.injEq] at h
      exact Or.inl ⟨hr, h.symm⟩

theorem elemAt_of_getElem? (xs : List Int) (i : Nat) (x : Int) (h : xs[i]? = some x) :
    elemAt xs i = Val.num x := by
  simp [elemAt, h]

theorem exists_error_of_ne_ok (x : Except Error Unit) (h : x ≠ Except.ok ()) :
    ∃ e, x = Except.error e := by
  cases x with
  | error e => exact ⟨e, rfl⟩
  | ok u => exact absurd rfl h

/-- The loop of the case `"reduce"`. -/
theorem reduce_loop_ok_iff (rank : Nat) (axes : List Int) :
    forEach (List.range axes.length) (fun i =>
      if Val.lt (elemAt axes i) (Val.num 0) ∨ Val.ge (elemAt axes i) (Val.num rank) then
        Except.error (Error.reduceAxisValue (elemAt axes i) i)
      else Except.ok ()) = .ok () ↔ ∀ a ∈ axes, 0 ≤ a ∧ a < (rank : Int) := by
  rw [forEach_eq_ok_iff]
  simp only [List.mem_range, ite_error_eq_ok_iff, and_true]
  constructor
  · intro h a ha
    obtain ⟨i, hi⟩ := List.mem_iff_getElem?.mp ha
    have hlt : i < axes.length := (List.getElem?_eq_some.mp hi).1
    have := h i hlt
    rw [elemAt_of_getElem? axes i a hi] at this
    simp only [Val.lt, Val.ge, decide_eq_true_eq] at this
    omega
  · intro h i hi
    have hx : axes[i]? = some (axes.get ⟨i, hi⟩) := List.getElem?_eq_getElem hi
    rw [elemAt_of_getElem? axes i _ hx]
    have := h _ (List.getElem?_mem hx)
    simp only [Val.lt, Val.ge, decide_eq_true_eq]
    omega

/-- The body of the loop of the case `"squeeze"` for an entry in range. -/
theorem squeeze_body_ok_iff (input : Tensor) (axis : Int) :
    squeezeCheckAxis input axis = Except.ok () ↔
    0 ≤ axis ∧ axis < (input.rank : Int) ∧ input.shape[axis.toNat]? = some 1 := by
  unfold squeezeCheckAxis
  simp only [ite_error_eq_ok_iff, and_true, strictNe_num_iff, not_not, not_or, not_lt, ge_iff_le,
    not_le]
  constructor
  · rintro ⟨⟨h0, h1⟩, hs⟩
    refine ⟨h0, h1, ?_⟩
    unfold Tensor.shapeAt at hs
    rw [if_neg (not_lt.mpr h0)] at hs
    cases hg : input.shape[axis.toNat]? with
    | none => simp [hg] at hs
    | some d =>
      simp only [hg, Val.num.injEq] at hs
      have : d = 1 := by omega
      rw [this]
  · rintro ⟨h0, h1, hs⟩
    refine ⟨⟨h0, h1⟩, ?_⟩
    unfold Tensor.shapeAt
    rw [if_neg (not_lt.mpr h0), hs]
    rfl

/-- The squeeze rule-set with an explicit list of axes. -/
theorem squeeze_some_ok_iff (input : Tensor) (axes : List Int) :
    validateInputSqueeze input { axes := some axes } = .ok () ↔
      axes.length ≤ input.rank ∧
      ∀ a ∈ axes, 0 ≤ a ∧ a < (input.rank : Int) ∧ input.shape[a.toNat]? = some 1 := by
  unfold validateInputSqueeze
  dsimp only
  rw [ite_error_eq_ok_iff, forEach_eq_ok_iff]
  simp only [squeeze_body_ok_iff, gt_iff_lt, not_lt]

theorem forEach_cons_ok {α : Type} (x : α) (xs : List α) (body : α → Except Error Unit)
    (h : body x = .ok ()) : forEach (x :: xs) body = forEach xs body := by
  rw [forEach, h]

theorem forEach_cons_error {α : Type} (x : α) (xs : List α) (body : α → Except Error Unit)
    (e : Error) (h : body x = .error e) : forEach (x :: xs) body = .error e := by
  rw [forEach, h]

/-- An entry outside `[0, rank)` is reported by the loop body of squeeze as an invalid value. -/
theorem squeezeCheckAxis_out_of_range (input : Tensor) (a : Int)
    (h : a < 0 ∨ (input.rank : Int) ≤ a) :
    squeezeCheckAxis input a = .error (.squeezeAxisValue a) := by
  unfold squeezeCheckAxis
  rw [if_pos (by omega)]

/-- An entry in range that addresses a dimension of size `d ≠ 1` is reported by the loop body
of squeeze with the size. -/
theorem squeezeCheckAxis_dim (input : Tensor) (b : Int) (d : Nat)
    (hb : 0 ≤ b ∧ b < (input.rank : Int)) (hd : input.shape[b.toNat]? = some d) (hne : d ≠ 1) :
    squeezeCheckAxis input b = .error (.squeezeDimNotOne (Val.num (d : Int)) b) := by
  have hv : input.shapeAt b = Val.num (d : Int) := by
    unfold Tensor.shapeAt
    rw [if_neg (not_lt.mpr hb.1), hd]
  unfold squeezeCheckAxis
  rw [if_neg (by omega), hv]
  have : Val.strictNe (Val.num (d : Int)) (Val.num 1) = true := by
    rw [strictNe_num_iff]
    intro h
    have := Val.num.inj h
    omega
  rw [if_pos this]

theorem forEach_append_error {α : Type} (p q : List α) (y : α)
    (body : α → Except Error Unit) (e : Error) (hp : ∀ x ∈ p, body x = .ok ())
    (hy : body y = .error e) : forEach (p ++ y :: q) body = .error e := by
  induction p with
  | nil => exact forEach_cons_error y q body e hy
  | cons x p ih =>
    rw [List.cons_append, forEach_cons_ok x _ body (hp x (List.mem_cons_self x p))]
    exact ih (fun z hz => hp z (List.mem_cons_of_mem x hz))

/-- The loop of squeeze on a list whose first entry outside `[0, rank)` is `a`: the error is
the invalid value `a` exactly when every entry before `a` addresses a dimension of size 1. -/
theorem squeeze_loop_first_out_of_range (input : Tensor) (pre post : List Int) (a : Int)
    (hpre : ∀ b ∈ pre, 0 ≤ b ∧ b < (input.rank : Int))
    (ha : a < 0 ∨ (input.rank : Int) ≤ a) :
    forEach (pre ++ a :: post) (squeezeCheckAxis input) = .error (.squeezeAxisValue a) ↔
      ∀ b ∈ pre, input.shape[b.toNat]? = some 1 := by
  induction pre with
  | nil =>
    simp only [List.nil_append, List.not_mem_nil, false_implies, implies_true, iff_true]
    exact forEach_cons_error a post _ _ (squeezeCheckAxis_out_of_range input a ha)
  | cons b pre ih =>
    have hb := hpre b (List.mem_cons_self b pre)
    have ih' := ih (fun c hc => hpre c (List.mem_cons_of_mem b hc))
    by_cases h1 : input.shape[b.toNat]? = some 1
    · have hok : squeezeCheckAxis input b = .ok () :=
        (squeeze_body_ok_iff input b).mpr ⟨hb.1, hb.2, h1⟩
      rw [List.cons_append, forEach_cons_ok b _ _ hok, ih']
      simp only [List.mem_cons, forall_eq_or_imp, h1, true_and]
    · have hlt : b.toNat < input.shape.length := by
        have := hb.2
        unfold Tensor.rank at this
        omega
      have hd : input.shape[b.toNat]? = some (input.shape.get ⟨b.toNat, hlt⟩) :=
        List.getElem?_eq_getElem hlt
      have hne : input.shape.get ⟨b.toNat, hlt⟩ ≠ 1 := by
        intro h
        rw [h] at hd
        exact h1 hd
      rw [List.cons_append,
        forEach_cons_error b _ _ _ (squeezeCheckAxis_dim input b _ hb hd hne)]
      constructor
      · intro h
        cases h
      · intro h
        exact absurd (h b (List.mem_cons_self b pre)) h1

theorem numDirections_nonneg (direction : Option String) : 0 ≤ numDirections direction := by
  unfold numDirections
  split_ifs <;> decide

/-- What `check1DTensorWithSize` can report. -/
theorem check1DTensorWithSize_error_kind (a : Option Tensor) (v : Val) (name : String)
    (e : Error) (h : check1DTensorWithSize a v name = .error e) :
    e = .notOneD name ∨ ∃ len, e = .lengthNotEqual len v name := by
  cases a with
  | none => simp [check1DTensorWithSize] at h
  | some t =>
    unfold check1DTensorWithSize at h
    dsimp only at h
    split_ifs at h
    · exact Or.inl (Except.error.inj h).symm
    · exact Or.inr ⟨_, (Except.error.inj h).symm⟩

/-- One guard of a rule-set against the first check of a list. -/
theorem chain_step (c c' : Prop) [Decidable c] [Decidable c'] (e e' : Error)
    (k : Except Error Unit) (rest : List (Option Error))
    (hc : c ↔ c') (he : e = e') (hk : ¬ c → k = firstViolation rest) :
    (if c then Except.error e else k) = firstViolation (check c' e' :: rest) := by
  by_cases h : c
  · have h' : c' := hc.mp h
    simp [h, h', check, firstViolation, he]
  · have h' : ¬ c' := fun x => h (hc.mpr x)
    simp [h, h', check, firstViolation, hk h]

theorem shape_cond_three (t : Tensor) (x y z : Int) (v : Val) (hv : v = Val.num z)
    (hr : ¬ t.rank ≠ 3) :
    (Val.strictNe (t.shapeAt 0) (Val.num x) = true ∨
      Val.strictNe (t.shapeAt 1) (Val.num y) = true ∨
      Val.strictNe (t.shapeAt 2) v = true) ↔ ¬ hasShape t [x, y, z] := by
  subst hv
  simp only [ne_eq, not_not] at hr
  simp only [strictNe_num_iff, hasShape_three_iff, hr, true_and]
  tauto

theorem shape_cond_three_mid (t : Tensor) (x y z : Int) (v : Val) (hv : v = Val.num y)
    (hr : ¬ t.rank ≠ 3) :
    (Val.strictNe (t.shapeAt 0) (Val.num x) = true ∨
      Val.strictNe (t.shapeAt 1) v = true ∨
      Val.strictNe (t.shapeAt 2) (Val.num z) = true) ↔ ¬ hasShape t [x, y, z] := by
  subst hv
  exact shape_cond_three t x y z (Val.num z) rfl hr

/-- The earliest violated check of a list decides the outcome, whatever follows it. -/
theorem firstViolation_append (pre post : List (Option Error)) (e : Error)
    (hpre : ∀ c ∈ pre, c = none) : firstViolation (pre ++ some e :: post) = .error e := by
  induction pre with
  | nil => rfl
  | cons c pre ih =>
    have hc : c = none := hpre c (List.mem_cons_self c pre)
    subst hc
    rw [List.cons_append, firstViolation]
    exact ih (fun d hd => hpre d (List.mem_cons_of_mem _ hd))

/-- The slice rule-set with `options.axes` omitted. -/
theorem slice_default_ok_iff (input : Tensor) (starts sizes : List Int) :
    validateInputSlice input starts sizes { axes := none } = .ok () ↔
      starts.length = input.rank ∧ sizes.length = input.rank ∧
      ∀ (i : Nat) (d : Nat) (s z : Int), input.shape[i]? = some d → starts[i]? = some s →
        sizes[i]? = some z → SliceOk d s z := by
  unfold validateInputSlice sliceResolveAxes
  simp only [List.length_map, List.length_range]
  by_cases hst : starts.length = input.rank
  · by_cases hsz : sizes.length = input.rank
    · simp only [hst, hsz, ne_eq, not_true_eq_false, if_false, true_and]
      have hlen : ((List.range input.rank).map Int.ofNat).length = input.rank := by simp
      have hax : ∀ a ∈ (List.range input.rank).map Int.ofNat,
          -(input.rank : Int) ≤ a ∧ a < input.rank := by
        intro a ha
        simp only [List.mem_map, List.mem_range] at ha
        obtain ⟨j, hj, rfl⟩ := ha
        simp only [Int.ofNat_eq_coe]
        omega
      have key := slice_loop_ok_iff input ((List.range input.rank).map Int.ofNat) starts sizes
        (by rw [hlen]; exact hst) (by rw [hlen]; exact hsz) hax
      rw [hlen] at key
      rw [key]
      constructor
      · intro h i d s z hd hs hz
        have hi : i < input.rank := by
          obtain ⟨hi, -⟩ := List.getElem?_eq_some.mp hd
          exact hi
        refine h i (i : Int) s z d ?_ hs hz ?_
        · simp [List.getElem?_map, List.getElem?_range hi]
        · simpa [normAxis] using hd
      · intro h i a s z d ha hs hz hd
        have hi : i < input.rank := by
          obtain ⟨hi, -⟩ := List.getElem?_eq_some.mp hs
          omega
        have hai : a = (i : Int) := by
          simpa [List.getElem?_map, List.getElem?_range hi] using ha.symm
        subst hai
        refine h i d s z ?_ hs hz
        simpa [normAxis] using hd
    · simp [hst, hsz]
  · simp [hst]

/-- The reduce rule-set with an explicit list of axes. -/
theorem reduce_some_ok_iff (input : Tensor) (axes : List Int) :
    validateInputReduce input { axes := some axes } = .ok () ↔
      axes.length ≤ input.rank ∧ ∀ a ∈ axes, 0 ≤ a ∧ a < (input.rank : Int) := by
  unfold validateInputReduce
  simp only [ite_error_eq_ok_iff, gt_iff_lt, not_lt, reduce_loop_ok_iff]

/-- Pairwise distinct integers of `[0, r)` are at most `r` in number. -/
theorem nodup_in_range_length_le (axes : List Int) (r : Nat) (hnd : axes.Nodup)
    (hr : ∀ a ∈ axes, 0 ≤ a ∧ a < (r : Int)) : axes.length ≤ r := by
  have hmap : (axes.map Int.toNat).Nodup := by
    apply List.Nodup.map_on _ hnd
    intro x hx y hy hxy
    have := hr x hx
    have := hr y hy
    omega
  have hsub : axes.map Int.toNat ⊆ List.range r := by
    intro n hn
    obtain ⟨a, ha, rfl⟩ := List.mem_map.mp hn
    have := hr a ha
    exact List.mem_range.mpr (by omega)
  have := (List.subperm_of_subset hmap hsub).length_le
  simpa using this

/-- The exponent found for a magnitude of at least `2 ^ 53` is at least 1 and does not
overshoot: `2 ^ (52 + e) ≤ m`. -/
theorem excessBits_lower (fuel m : Nat) (hm : 2 ^ 53 ≤ m) (hf : 1 ≤ fuel) :
    2 ^ (52 + excessBits fuel m) ≤ m ∧ 1 ≤ excessBits fuel m := by
  induction fuel generalizing m with
  | zero => omega
  | succ fuel ih =>
    rw [excessBits, if_neg (by omega)]
    refine ⟨?_, by omega⟩
    by_cases hf' : 1 ≤ fuel
    · by_cases h2 : 2 ^ 53 ≤ m / 2
      · have := (ih (m / 2) h2 hf').1
        have e : 2 ^ (52 + (excessBits fuel (m / 2) + 1)) =
            2 * 2 ^ (52 + excessBits fuel (m / 2)) := by
          rw [← Nat.add_assoc, pow_succ]
          ring
        rw [e]
        omega
      · have : excessBits fuel (m / 2) = 0 := by
          cases fuel with
          | zero => rfl
          | succ f => rw [excessBits, if_pos (by omega)]
        rw [this]
        exact hm
    · have : fuel = 0 := by omega
      subst this
      exact hm

/-- Below `2 ^ 53` in magnitude an integer is its own binary64 value. -/
theorem ofExact_of_lt (x : Int) (h : x.natAbs < 2 ^ 53) : Val.ofExact x = Val.num x := by
  have he : excessBits 1024 x.natAbs = 0 := by rw [excessBits, if_pos h]
  have hq : significand x.natAbs 0 = x.natAbs := by simp [significand, Nat.mod_one]
  unfold Val.ofExact
  simp only [he, hq]
  rw [if_neg (by omega)]
  split_ifs with hx
  · congr 1
    rw [pow_zero, mul_one]
    omega
  · congr 1
    rw [pow_zero, mul_one]
    omega

theorem significand_mul_ge (m : Nat) (h : 2 ^ 53 ≤ m) :
    2 ^ 53 ≤ significand m (excessBits 1024 m) * 2 ^ excessBits 1024 m := by
  obtain ⟨h1, h2⟩ := excessBits_lower 1024 m h (by norm_num)
  generalize excessBits 1024 m = e at h1 h2
  have hq : 2 ^ 52 ≤ m / 2 ^ e := by
    rw [Nat.le_div_iff_mul_le (by positivity), ← pow_add]
    exact h1
  have hq2 : 2 ^ 53 ≤ (m / 2 ^ e) * 2 ^ e := by
    calc 2 ^ 53 ≤ 2 ^ (52 + e) := Nat.pow_le_pow_right (by norm_num) (by omega)
      _ = 2 ^ 52 * 2 ^ e := by rw [pow_add]
      _ ≤ (m / 2 ^ e) * 2 ^ e := Nat.mul_le_mul_right _ hq
  unfold significand
  dsimp only
  split_ifs
  · exact hq2
  · calc 2 ^ 53 ≤ (m / 2 ^ e) * 2 ^ e := hq2
      _ ≤ (m / 2 ^ e + 1) * 2 ^ e := Nat.mul_le_mul_right _ (by omega)

/-- The binary64 value of an exact integer: the integer itself below `2 ^ 53` in magnitude;
from `2 ^ 53` on a value of at least `2 ^ 53`, and likewise on the negative side. -/
theorem ofExact_cases (x : Int) :
    (-2 ^ 53 < x ∧ x < 2 ^ 53 ∧ Val.ofExact x = Val.num x) ∨
    (2 ^ 53 ≤ x ∧ (Val.ofExact x).IsBig) ∨ (x ≤ -2 ^ 53 ∧ (Val.ofExact x).IsBigNeg) := by
  by_cases h : x.natAbs < 2 ^ 53
  · exact Or.inl ⟨by omega, by omega, ofExact_of_lt x h⟩
  · right
    have hm : 2 ^ 53 ≤ x.natAbs := by omega
    have hr := significand_mul_ge x.natAbs hm
    have hr' : ((2 ^ 53 : Nat) : Int) ≤
        ((significand x.natAbs (excessBits 1024 x.natAbs) *
          2 ^ excessBits 1024 x.natAbs : Nat) : Int) := by
      exact_mod_cast hr
    by_cases hx : 0 ≤ x
    · left
      refine ⟨by omega, ?_⟩
      unfold Val.ofExact Val.IsBig
      dsimp only
      split_ifs
      · exact Or.inl rfl
      · exact Or.inr ⟨_, by simpa using hr', rfl⟩
    · right
      refine ⟨by omega, ?_⟩
      unfold Val.ofExact Val.IsBigNeg
      dsimp only
      split_ifs
      · exact Or.inl rfl
      · refine Or.inr ⟨_, ?_, rfl⟩
        have : (2 : Int) ^ 53 ≤ ((significand x.natAbs (excessBits 1024 x.natAbs) *
          2 ^ excessBits 1024 x.natAbs : Nat) : Int) := by simpa using hr'
        omega

theorem ofExact_eq_self (x : Int) (h1 : -2 ^ 53 < x) (h2 : x < 2 ^ 53) :
    Val.ofExact x = Val.num x :=
  ofExact_of_lt x (by omega)

theorem ofExact_isBig (x : Int) (h : 2 ^ 53 ≤ x) : (Val.ofExact x).IsBig := by
  rcases ofExact_cases x with ⟨-, h2, -⟩ | ⟨-, hb⟩ | ⟨h2, -⟩
  · omega
  · exact hb
  · omega

/-- The rounding at work just above `2 ^ 53`, where the binary64 numbers are the even
integers: an odd integer goes to the neighbour with the even significand. -/
theorem ofExact_examples :
    Val.ofExact (2 ^ 53 - 1) = Val.num (2 ^ 53 - 1) ∧
    Val.ofExact (2 ^ 53) = Val.num (2 ^ 53) ∧
    Val.ofExact (2 ^ 53 + 1) = Val.num (2 ^ 53) ∧
    Val.ofExact (2 ^ 53 + 2) = Val.num (2 ^ 53 + 2) ∧
    Val.ofExact (2 ^ 53 + 3) = Val.num (2 ^ 53 + 4) ∧
    Val.ofExact (-(2 ^ 53 + 1)) = Val.num (-(2 ^ 53)) ∧
    Val.ofExact (2 ^ 54 + 2) = Val.num (2 ^ 54) ∧
    Val.ofExact (2 ^ 54 + 6) = Val.num (2 ^ 54 + 8) ∧
    Val.ofExact (3002399751580331 * 3) = Val.num (2 ^ 53) := by
  decide

/-- Against a number below `2 ^ 53` in magnitude, a rounded sum compares as the exact sum. -/
theorem lt_ofExact (c x : Int) (h1 : -2 ^ 53 < c) (h2 : c < 2 ^ 53) :
    Val.lt (Val.num c) (Val.ofExact x) = decide (c < x) := by
  rcases ofExact_cases x with ⟨-, -, he⟩ | ⟨hx, hb | ⟨r, hr, hb⟩⟩ | ⟨hx, hb | ⟨r, hr, hb⟩⟩
  · rw [he, Val.lt]
  all_goals
    rw [hb]
    simp only [Val.lt, Bool.true_eq, Bool.false_eq, decide_eq_true_eq, decide_eq_false_iff_not,
      decide_eq_decide]
    omega

/-- What is read out of the shape of a tensor is `undefined` or one of its dimensions. -/
theorem shapeAtVal_cases (input : Tensor) (v : Val) :
    input.shapeAtVal v = Val.undefined ∨
      ∃ d : Nat, d ∈ input.shape ∧ input.shapeAtVal v = Val.num (d : Int) := by
  cases v with
  | num k =>
    simp only [Tensor.shapeAtVal, Tensor.shapeAt]
    split_ifs
    · exact Or.inl rfl
    · cases hg : input.shape[k.toNat]? with
      | none => exact Or.inl rfl
      | some d => exact Or.inr ⟨d, List.getElem?_mem hg, rfl⟩
  | undefined => exact Or.inl rfl
  | nan => exact Or.inl rfl
  | posInf => exact Or.inl rfl
  | negInf => exact Or.inl rfl

/-- The axis a loop index addresses is the same with the rounded and with the exact sum: the
sum is taken for a negative entry only, and is exact for a rank below `2 ^ 53`. -/
theorem slice_axis_eq (input : Tensor) (A : Val)
    (hrank : ∀ a : Int, A = Val.num a → a < 0 → input.rank < 2 ^ 53) :
    input.shapeAtVal (if Val.ge A (Val.num 0) = true then A
      else Val.add64 A (Val.num input.rank)) =
    input.shapeAtVal (if Val.ge A (Val.num 0) = true then A
      else Val.add A (Val.num input.rank)) := by
  by_cases hge : Val.ge A (Val.num 0) = true
  · rw [if_pos hge, if_pos hge]
  · rw [if_neg hge, if_neg hge]
    cases A with
    | num a =>
      have ha : a < 0 := by
        simp only [Val.ge, decide_eq_true_eq, not_le] at hge
        exact hge
      have hr : ((input.rank : Nat) : Int) < 2 ^ 53 := by exact_mod_cast hrank a rfl ha
      rcases ofExact_cases (a + (input.rank : Int)) with
        ⟨-, -, he⟩ | ⟨hx, -⟩ | ⟨hx, hb | ⟨r, hr', hb⟩⟩
      · rw [Val.add64, he, Val.add]
      · omega
      · rw [Val.add64, hb, Val.add]
        have : a + (input.rank : Int) < 0 := by omega
        simp [Tensor.shapeAtVal, Tensor.shapeAt, this]
      · rw [Val.add64, hb, Val.add]
        have h1 : a + (input.rank : Int) < 0 := by omega
        have h2 : r < 0 := by omega
        simp [Tensor.shapeAtVal, Tensor.shapeAt, h1, h2]
    | undefined => rfl
    | nan => rfl
    | posInf => simp [Val.ge] at hge
    | negInf => rfl

/-- The loop body of the case `"slice"` gives the same result with rounded and with exact
sums at an index whose entry of `inpAxes` is non-negative or meets a rank below `2 ^ 53`,
and whose dimension is below `2 ^ 53`. -/
theorem sliceCheckAt64_eq_of_dim (input : Tensor) (inpAxes starts sizes : List Int) (i : Nat)
    (hrank : ∀ a : Int, elemAt inpAxes i = Val.num a → a < 0 → input.rank < 2 ^ 53)
    (hdim : ∀ d : Nat,
      input.shapeAtVal (if Val.ge (elemAt inpAxes i) (Val.num 0) = true then elemAt inpAxes i
        else Val.add (elemAt inpAxes i) (Val.num input.rank)) = Val.num (d : Int) →
      d < 2 ^ 53) :
    sliceCheckAt64 input inpAxes starts sizes i = sliceCheckAt input inpAxes starts sizes i := by
  unfold sliceCheckAt64 sliceCheckAt
  dsimp only
  rw [slice_axis_eq input _ hrank]
  have hsize := shapeAtVal_cases input (if Val.ge (elemAt inpAxes i) (Val.num 0) = true
    then elemAt inpAxes i else Val.add (elemAt inpAxes i) (Val.num input.rank))
  generalize input.shapeAtVal (if Val.ge (elemAt inpAxes i) (Val.num 0) = true then
    elemAt inpAxes i else Val.add (elemAt inpAxes i) (Val.num input.rank)) = size
    at hsize hdim
  generalize elemAt starts i = start
  generalize elemAt sizes i = sliceSize
  cases start with
  | num s =>
    cases sliceSize with
    | num z =>
      have e1 : Val.gt (Val.add64 (Val.num s) (Val.num z)) size =
          Val.gt (Val.add (Val.num s) (Val.num z)) size := by
        rcases hsize with hu | ⟨d, -, hn⟩
        · rw [hu]
          rfl
        · have hd := hdim d hn
          rw [hn, Val.gt, Val.gt, Val.add64, Val.add, lt_ofExact _ _ (by omega) (by omega),
            Val.lt]
      have e2 : Val.gt (Val.add64 (Val.num s) (Val.num z)) (Val.num 0) =
          Val.gt (Val.add (Val.num s) (Val.num z)) (Val.num 0) := by
        rw [Val.gt, Val.gt, Val.add64, Val.add, lt_ofExact _ _ (by norm_num) (by norm_num),
          Val.lt]
      rw [e1, e2]
    | undefined => simp [isInteger]
    | nan => simp [isInteger]
    | posInf => simp [isInteger]
    | negInf => simp [isInteger]
  | undefined => simp [isInteger]
  | nan => simp [isInteger]
  | posInf => simp [isInteger]
  | negInf => simp [isInteger]

/-- On a tensor of rank below `2 ^ 53` whose dimensions are below `2 ^ 53`, the loop body of
the case `"slice"` gives the same result with rounded and with exact sums. -/
theorem sliceCheckAt64_eq (input : Tensor) (inpAxes starts sizes : List Int) (i : Nat)
    (hrank : input.rank < 2 ^ 53) (hdims : ∀ d ∈ input.shape, d < 2 ^ 53) :
    sliceCheckAt64 input inpAxes starts sizes i = sliceCheckAt input inpAxes starts sizes i := by
  apply sliceCheckAt64_eq_of_dim input inpAxes starts sizes i (fun _ _ _ => hrank)
  intro d hd
  rcases shapeAtVal_cases input (if Val.ge (elemAt inpAxes i) (Val.num 0) = true
    then elemAt inpAxes i else Val.add (elemAt inpAxes i) (Val.num input.rank)) with
    hu | ⟨d', hmem, hn⟩
  · rw [hu] at hd
    cases hd
  · rw [hn] at hd
    have : d' = d := by
      have := Val.num.inj hd
      omega
    rw [← this]
    exact hdims d' hmem

/-- Two loop bodies that agree on every element give the same loop. -/
theorem forEach_congr {α : Type} (xs : List α) (f g : α → Except Error Unit)
    (h : ∀ x ∈ xs, f x = g x) : forEach xs f = forEach xs g := by
  induction xs with
  | nil => rfl
  | cons x rest ih =>
    rw [forEach, forEach, h x (List.mem_cons_self x rest),
      ih (fun y hy => h y (List.mem_cons_of_mem x hy))]

/-- An explicit list of axes that is resolved is the list itself, with every entry in
`[-rank, rank)`. -/
theorem sliceResolveAxes_some_ok (rank : Nat) (axes inpAxes : List Int)
    (h : sliceResolveAxes rank (some axes) = .ok inpAxes) :
    inpAxes = axes ∧ ∀ a ∈ axes, -(rank : Int) ≤ a ∧ a < rank := by
  unfold sliceResolveAxes at h
  dsimp only at h
  split_ifs at h with hlen
  cases hf : forEach axes (fun axis =>
      if (!isInteger (Val.num axis)) = true then
        Except.error (Error.sliceAxisNotInteger axis)
      else if axis ≥ (rank : Int) ∨ axis < -(rank : Int) then
        Except.error (Error.sliceAxisInterval axis rank)
      else Except.ok ()) with
  | error e =>
    rw [hf] at h
    cases h
  | ok u =>
    rw [hf] at h
    refine ⟨(Except.ok.inj h).symm, ?_⟩
    intro a ha
    have := (forEach_eq_ok_iff _ _).mp hf a ha
    simp only [isInteger, Bool.not_true, Bool.false_eq_true, if_false] at this
    split_ifs at this with h2
    omega

/-- With an explicit list of axes, a rank below `2 ^ 53` and every dimension an entry of the
list addresses below `2 ^ 53`, the case `"slice"` gives the same result with rounded and with
exact sums. -/
theorem validateInputSlice64_eq_explicit (input : Tensor) (axes starts sizes : List Int)
    (hrank : input.rank < 2 ^ 53)
    (hdims : ∀ a ∈ axes, ∀ d : Nat,
      input.shape[(if 0 ≤ a then a else a + input.rank).toNat]? = some d → d < 2 ^ 53) :
    validateInputSlice64 input starts sizes { axes := some axes } =
      validateInputSlice input starts sizes { axes := some axes } := by
  unfold validateInputSlice64 validateInputSlice
  dsimp only
  cases hres : sliceResolveAxes input.rank (some axes) with
  | error e => rfl
  | ok inpAxes =>
    obtain ⟨rfl, hax⟩ := sliceResolveAxes_some_ok input.rank axes inpAxes hres
    dsimp only
    congr 2
    apply forEach_congr
    intro i hi
    have hi' : i < inpAxes.length := List.mem_range.mp hi
    obtain ⟨a, ha⟩ : ∃ a, inpAxes[i]? = some a := ⟨_, List.getElem?_eq_getElem hi'⟩
    have hmem := List.getElem?_mem ha
    have hin := hax a hmem
    have hel := elemAt_of_getElem? inpAxes i a ha
    apply sliceCheckAt64_eq_of_dim input inpAxes starts sizes i (fun _ _ _ => hrank)
    intro d hd
    apply hdims a hmem d
    rw [hel] at hd
    by_cases h0 : 0 ≤ a
    · simp only [Val.ge, h0, decide_True, if_true, Tensor.shapeAtVal, Tensor.shapeAt,
        not_lt.mpr h0, if_false] at hd ⊢
      cases hg : input.shape[a.toNat]? with
      | none => simp [hg] at hd
      | some d' =>
        simp only [hg, Val.num.injEq, Nat.cast_inj] at hd
        rw [hd]
    · have hk : ¬ (a + (input.rank : Int) < 0) := by omega
      simp only [Val.ge, h0, decide_False, Bool.false_eq_true, if_false, Val.add,
        Tensor.shapeAtVal, Tensor.shapeAt, hk] at hd ⊢
      cases hg : input.shape[(a + (input.rank : Int)).toNat]? with
      | none => simp [hg] at hd
      | some d' =>
        simp only [hg, Val.num.injEq, Nat.cast_inj] at hd
        rw [hd]

/-- With `axes` omitted and every dimension below `2 ^ 53`, the case `"slice"` gives the same
result with rounded and with exact sums: no entry of the resolved axes is negative. -/
theorem validateInputSlice64_eq_default (input : Tensor) (starts sizes : List Int)
    (hdims : ∀ d ∈ input.shape, d < 2 ^ 53) :
    validateInputSlice64 input starts sizes { axes := none } =
      validateInputSlice input starts sizes { axes := none } := by
  unfold validateInputSlice64 validateInputSlice sliceResolveAxes
  dsimp only
  congr 2
  apply forEach_congr
  intro i hi
  apply sliceCheckAt64_eq_of_dim
  · intro a ha hneg
    exfalso
    unfold elemAt at ha
    cases hg : (List.map Int.ofNat (List.range input.rank))[i]? with
    | none => simp [hg] at ha
    | some x =>
      simp only [hg, Val.num.injEq] at ha
      have hx := List.getElem?_mem hg
      simp only [List.mem_map, List.mem_range] at hx
      obtain ⟨j, -, hj⟩ := hx
      have : (0 : Int) ≤ x := by
        rw [← hj]
        exact Int.natCast_nonneg j
      omega
  · intro d hd
    rcases shapeAtVal_cases input (if Val.ge (elemAt (List.map Int.ofNat
        (List.range input.rank)) i) (Val.num 0) = true
      then elemAt (List.map Int.ofNat (List.range input.rank)) i
      else Val.add (elemAt (List.map Int.ofNat (List.range input.rank)) i)
        (Val.num input.rank)) with hu | ⟨d', hmem, hn⟩
    · rw [hu] at hd
      cases hd
    · rw [hn] at hd
      have : d' = d := by
        have := Val.num.inj hd
        omega
      rw [← this]
      exact hdims d' hmem

/-- On a tensor of rank below `2 ^ 53` whose dimensions are below `2 ^ 53`, the case
`"slice"` gives the same result with rounded and with exact sums. -/
theorem validateInputSlice64_eq (input : Tensor) (starts sizes : List Int)
    (options : SliceOptions) (hrank : input.rank < 2 ^ 53)
    (hdims : ∀ d ∈ input.shape, d < 2 ^ 53) :
    validateInputSlice64 input starts sizes options =
      validateInputSlice input starts sizes options := by
  unfold validateInputSlice64 validateInputSlice
  have : ∀ inpAxes, sliceCheckAt64 input inpAxes starts sizes =
      sliceCheckAt input inpAxes starts sizes :=
    fun inpAxes => funext fun i => sliceCheckAt64_eq input inpAxes starts sizes i hrank hdims
  simp only [this]

/-- The slice rule-set with exact sums and an explicit list of axes. -/
theorem slice_explicit_ok_iff (input : Tensor) (axes starts sizes : List Int) :
    validateInputSlice input starts sizes { axes := some axes } = .ok () ↔
      axes.length ≤ input.rank ∧
      (∀ a ∈ axes, -(input.rank : Int) ≤ a ∧ a < input.rank) ∧
      starts.length = axes.length ∧ sizes.length = axes.length ∧
      ∀ (i : Nat) (a s z : Int) (d : Nat), axes[i]? = some a → starts[i]? = some s →
        sizes[i]? = some z →
        input.shape[(if 0 ≤ a then a else a + input.rank).toNat]? = some d →
        SliceOk d s z := by
  unfold validateInputSlice sliceResolveAxes
  by_cases hlen : axes.length ≤ input.rank
  · simp only [gt_iff_lt, not_lt.mpr hlen, if_false, hlen, true_and]
    by_cases hax : ∀ a ∈ axes, -(input.rank : Int) ≤ a ∧ a < input.rank
    · have hok : forEach axes (fun axis =>
          if (!isInteger (Val.num axis)) = true then
            Except.error (Error.sliceAxisNotInteger axis)
          else if axis ≥ (input.rank : Int) ∨ axis < -(input.rank : Int) then
            Except.error (Error.sliceAxisInterval axis input.rank)
          else Except.ok ()) = .ok () := by
        rw [forEach_eq_ok_iff]
        intro a ha
        have := hax a ha
        have h2 : ¬ (a ≥ (input.rank : Int) ∨ a < -(input.rank : Int)) := by omega
        simp [isInteger, h2]
      simp only [hok, hax, implies_true, true_and]
      by_cases hst : starts.length = axes.length
      · by_cases hsz : sizes.length = axes.length
        · simp only [hst, hsz, ne_eq, not_true_eq_false, if_false, true_and]
          rw [slice_loop_ok_iff input axes starts sizes hst hsz hax]
          exact ⟨fun h => ⟨hax, h⟩, fun h => h.2⟩
        · simp [hst, hsz]
      · simp [hst]
    · have hbad : ∃ e, forEach axes (fun axis =>
          if (!isInteger (Val.num axis)) = true then
            Except.error (Error.sliceAxisNotInteger axis)
          else if axis ≥ (input.rank : Int) ∨ axis < -(input.rank : Int) then
            Except.error (Error.sliceAxisInterval axis input.rank)
          else Except.ok ()) = .error e := by
        cases hf : forEach axes (fun axis =>
          if (!isInteger (Val.num axis)) = true then
            Except.error (Error.sliceAxisNotInteger axis)
          else if axis ≥ (input.rank : Int) ∨ axis < -(input.rank : Int) then
            Except.error (Error.sliceAxisInterval axis input.rank)
          else Except.ok ()) with
        | error e => exact ⟨e, rfl⟩
        | ok u =>
          exfalso
          apply hax
          intro a ha
          have := (forEach_eq_ok_iff _ _).mp hf a ha
          simp only [isInteger, Bool.not_true, Bool.false_eq_true, if_false] at this
          split_ifs at this with h2
          omega
      obtain ⟨e, he⟩ := hbad
      simp only [he]
      constructor
      · intro h; cases h
      · intro h; exact absurd h.1 hax
  · simp only [gt_iff_lt, not_le.mp hlen, if_true]
    constructor
    · intro h; cases h
    · intro h; exact absurd h.1 hlen

/-- A dimension of a shape without a zero is at most the product of the shape. -/
theorem le_prod_of_mem (shape : List Nat) (h0 : 0 ∉ shape) (d : Nat) (hd : d ∈ shape) :
    d ≤ shape.prod := by
  induction shape with
  | nil => simp at hd
  | cons x rest ih =>
    have hx : x ≠ 0 := fun h => h0 (by simp [h])
    have hr : 0 ∉ rest := fun h => h0 (List.mem_cons_of_mem _ h)
    have hp : rest.prod ≠ 0 := by
      intro h
      exact hr (List.prod_eq_zero_iff.mp h)
    rw [List.prod_cons]
    rcases List.mem_cons.mp hd with rfl | hd'
    · exact Nat.le_mul_of_pos_right _ (Nat.pos_of_ne_zero hp)
    · exact le_trans (ih hr hd') (Nat.le_mul_of_pos_left _ (Nat.pos_of_ne_zero hx))

/-- The loop body of the case `"slice"` fails on a dimension of size 0 addressed by a
non-negative index of the shape. -/
theorem sliceCheckAt64_zero (input : Tensor) (starts sizes : List Int) (i : Nat)
    (hi : input.shape[i]? = some 0) :
    sliceCheckAt64 input ((List.range input.rank).map Int.ofNat) starts sizes i ≠ .ok () := by
  have hlt : i < input.rank := (List.getElem?_eq_some.mp hi).1
  have ha : elemAt ((List.range input.rank).map Int.ofNat) i = Val.num (i : Int) := by
    simp [elemAt, List.getElem?_map, List.getElem?_range hlt]
  have hsz : input.shapeAtVal (Val.num (i : Int)) = Val.num 0 := by
    simp [Tensor.shapeAtVal, Tensor.shapeAt, hi]
  unfold sliceCheckAt64
  simp only [ha, Val.ge, Int.natCast_nonneg, decide_True, if_true, hsz]
  cases elemAt starts i with
  | num s =>
    have : 0 ≤ s ∨ Val.lt (Val.num s) (Val.neg (Val.num 0)) = true := by
      simp only [Val.lt, Val.neg, decide_eq_true_eq]
      omega
    simp [isInteger, this]
  | undefined => simp [isInteger]
  | nan => simp [isInteger]
  | posInf => simp [isInteger]
  | negInf => simp [isInteger]

/-- With `axes` omitted and a tensor that has fewer than `2 ^ 53` elements, the case
`"slice"` succeeds with rounded sums exactly when it does with exact sums: a dimension of
`2 ^ 53` or more leaves room for a buffer only beside a dimension of size 0, which both
refuse. -/
theorem slice64_default_ok_iff (input : Tensor) (starts sizes : List Int)
    (hsize : input.shape.prod < 2 ^ 53) :
    validateInputSlice64 input starts sizes { axes := none } = .ok () ↔
      validateInputSlice input starts sizes { axes := none } = .ok () := by
  by_cases h0 : 0 ∈ input.shape
  · obtain ⟨i, hi⟩ := List.mem_iff_getElem?.mp h0
    have hlt : i < input.shape.length := (List.getElem?_eq_some.mp hi).1
    constructor
    · intro hok
      exfalso
      unfold validateInputSlice64 sliceResolveAxes at hok
      simp only [List.length_map, List.length_range, ite_error_eq_ok_iff,
        forEach_eq_ok_iff, List.mem_range] at hok
      exact sliceCheckAt64_zero input starts sizes i hi (hok.2.2 i hlt)
    · intro hok
      exfalso
      obtain ⟨hst, hsz, hall⟩ := (slice_default_ok_iff input starts sizes).mp hok
      have hs : starts[i]? = some (starts.get ⟨i, by rw [hst]; exact hlt⟩) :=
        List.getElem?_eq_getElem _
      have hz : sizes[i]? = some (sizes.get ⟨i, by rw [hsz]; exact hlt⟩) :=
        List.getElem?_eq_getElem _
      have := hall i 0 _ _ hi hs hz
      unfold SliceOk at this
      omega
  · rw [validateInputSlice64_eq_default input starts sizes
      (fun d hd => lt_of_le_of_lt (le_prod_of_mem input.shape h0 d hd) hsize)]

theorem isBig_add64_pos (v : Val) (hv : v.IsBig) (b : Int) (hb : 0 < b) :
    (Val.add64 v (Val.num b)).IsBig := by
  rcases hv with rfl | ⟨r, hr, rfl⟩
  · exact Or.inl rfl
  · rw [Val.add64]
    exact ofExact_isBig _ (by omega)

/-- Positive entries added to a value of at least `2 ^ 53` leave such a value. -/
theorem foldl_add64_isBig (rest : List Int) (hpos : ∀ v ∈ rest, 0 < v) (v : Val)
    (hv : v.IsBig) : (rest.foldl (fun a b => Val.add64 a (Val.num b)) v).IsBig := by
  induction rest generalizing v with
  | nil => exact hv
  | cons b rest ih =>
    rw [List.foldl_cons]
    exact ih (fun w hw => hpos w (List.mem_cons_of_mem _ hw)) _
      (isBig_add64_pos v hv b (hpos b (List.mem_cons_self b rest)))

/-- The binary64 sum of positive entries from the left: the exact sum as long as it stays
below `2 ^ 53`, a value of at least `2 ^ 53` otherwise. -/
theorem foldl_add64_cases (rest : List Int) (hpos : ∀ v ∈ rest, 0 < v) (a : Int) (ha : 0 < a) :
    (a + rest.sum < 2 ^ 53 ∧
      rest.foldl (fun a b => Val.add64 a (Val.num b)) (Val.num a) = Val.num (a + rest.sum)) ∨
    (2 ^ 53 ≤ a + rest.sum ∧
      (rest.foldl (fun a b => Val.add64 a (Val.num b)) (Val.num a)).IsBig) := by
  induction rest generalizing a with
  | nil =>
    rw [List.sum_nil, add_zero, List.foldl_nil]
    by_cases h : a < 2 ^ 53
    · exact Or.inl ⟨h, rfl⟩
    · exact Or.inr ⟨by omega, Or.inr ⟨a, by omega, rfl⟩⟩
  | cons b rest ih =>
    have hb : 0 < b := hpos b (List.mem_cons_self b rest)
    have hrest : ∀ v ∈ rest, 0 < v := fun w hw => hpos w (List.mem_cons_of_mem _ hw)
    have hs : 0 ≤ rest.sum := List.sum_nonneg (fun w hw => le_of_lt (hrest w hw))
    rw [List.foldl_cons, List.sum_cons, ← add_assoc]
    by_cases h : a + b < 2 ^ 53
    · rw [Val.add64, ofExact_eq_self (a + b) (by omega) h]
      exact ih hrest (a + b) (by omega)
    · right
      refine ⟨by omega, ?_⟩
      apply foldl_add64_isBig rest hrest
      rw [Val.add64]
      exact ofExact_isBig _ (by omega)

/-- The sum `splits.reduce((a, b) => a + b)` of a non-empty array of positive integers. -/
theorem reduceSum_cases (xs : List Int) (hne : xs ≠ []) (hpos : ∀ v ∈ xs, 0 < v) :
    (xs.sum < 2 ^ 53 ∧ reduceSum xs = .ok (Val.num xs.sum)) ∨
    (2 ^ 53 ≤ xs.sum ∧ ∃ v : Val, v.IsBig ∧ reduceSum xs = .ok v) := by
  cases xs with
  | nil => exact absurd rfl hne
  | cons x rest =>
    rw [List.sum_cons, reduceSum]
    rcases foldl_add64_cases rest (fun w hw => hpos w (List.mem_cons_of_mem _ hw)) x
      (hpos x (List.mem_cons_self x rest)) with ⟨h1, h2⟩ | ⟨h1, h2⟩
    · exact Or.inl ⟨h1, by rw [h2]⟩
    · exact Or.inr ⟨h1, _, h2, rfl⟩

theorem isBig_ne_num (v : Val) (hv : v.IsBig) (d : Int) (hd : d < 2 ^ 53) :
    Val.strictNe v (Val.num d) = true := by
  rcases hv with rfl | ⟨r, hr, rfl⟩
  · rfl
  · simp only [Val.strictNe, Val.strictEq, Bool.not_eq_true', decide_eq_false_iff_not]
    omega

/-- Against a number below `2 ^ 53` in magnitude, a rounded product is equal exactly when the
exact product is. -/
theorem strictNe_ofExact (c x : Int) (h1 : -2 ^ 53 < c) (h2 : c < 2 ^ 53) :
    Val.strictNe (Val.num c) (Val.ofExact x) = true ↔ c ≠ x := by
  rcases ofExact_cases x with ⟨-, -, he⟩ | ⟨hx, hb | ⟨r, hr, hb⟩⟩ | ⟨hx, hb | ⟨r, hr, hb⟩⟩
  · rw [he]
    simp [Val.strictNe, Val.strictEq]
  all_goals
    rw [hb]
    simp only [Val.strictNe, Val.strictEq, Bool.not_false, Bool.not_eq_true',
      decide_eq_false_iff_not, true_iff, ne_eq]
    omega

theorem isBig_mul64_pos (v : Val) (hv : v.IsBig) (h : Int) (hh : 1 ≤ h) :
    (Val.mul64 v (Val.num h)).IsBig := by
  rcases hv with rfl | ⟨r, hr, rfl⟩
  · rw [Val.mul64, if_neg (by omega), if_pos (by omega)]
    exact Or.inl rfl
  · rw [Val.mul64]
    apply ofExact_isBig
    nlinarith

theorem newArrayFill_isBig (v : Val) (hv : v.IsBig) (x : Int) :
    newArrayFill v x = .error .rangeError := by
  rcases hv with rfl | ⟨r, hr, rfl⟩
  · rfl
  · simp only [newArrayFill]
    rw [if_neg (by omega)]

/-- The size of the shape of the default hidden state: the exact product below `2 ^ 32`. -/
theorem sizeOfShape_default_small (n : Int) (b : Nat) (h : Int) (hn : 1 ≤ n ∧ n ≤ 2)
    (hh : 1 ≤ h) (hsmall : n * (b : Int) * h < 2 ^ 32) :
    sizeOfShape [Val.num n, Val.num (b : Int), Val.num h] = Val.num (n * (b : Int) * h) := by
  have hb : (0 : Int) ≤ b := Int.natCast_nonneg b
  have hnb : 0 ≤ n * (b : Int) := mul_nonneg (by omega) hb
  have hnb2 : n * (b : Int) ≤ n * (b : Int) * h := by nlinarith
  simp only [sizeOfShape, List.foldl_cons, List.foldl_nil, Val.mul64, one_mul]
  rw [ofExact_eq_self n (by omega) (by omega)]
  simp only [Val.mul64]
  rw [ofExact_eq_self (n * (b : Int)) (by omega) (by omega)]
  simp only [Val.mul64]
  rw [ofExact_eq_self (n * (b : Int) * h) (by omega) (by omega)]

/-- The size of the shape of the default hidden state from `2 ^ 32` on: a number of at least
`2 ^ 32`, or the positive infinity. -/
theorem sizeOfShape_default_large (n : Int) (b : Nat) (h : Int) (hn : 1 ≤ n ∧ n ≤ 2)
    (hh : 1 ≤ h) (hlarge : 2 ^ 32 ≤ n * (b : Int) * h) :
    newArrayFill (sizeOfShape [Val.num n, Val.num (b : Int), Val.num h]) 0 =
      .error .rangeError := by
  have hb : (0 : Int) ≤ b := Int.natCast_nonneg b
  have hnb : 0 ≤ n * (b : Int) := mul_nonneg (by omega) hb
  simp only [sizeOfShape, List.foldl_cons, List.foldl_nil, Val.mul64, one_mul]
  rw [ofExact_eq_self n (by omega) (by omega)]
  simp only [Val.mul64]
  by_cases h1 : n * (b : Int) < 2 ^ 53
  · rw [ofExact_eq_self (n * (b : Int)) (by omega) h1]
    simp only [Val.mul64]
    by_cases h2 : n * (b : Int) * h < 2 ^ 53
    · rw [ofExact_eq_self (n * (b : Int) * h) (by omega) h2]
      simp only [newArrayFill]
      rw [if_neg (by omega)]
    · exact newArrayFill_isBig _ (ofExact_isBig _ (by omega)) 0
  · exact newArrayFill_isBig _ (isBig_mul64_pos _ (ofExact_isBig _ (by omega)) h hh) 0

/-- The default hidden state of the gru case for at most `2 ^ 32 - 1` elements: the
zero-filled descriptor of its shape. -/
theorem gruDefaultHiddenState_small (n : Int) (b : Nat) (h : Int) (hn : 1 ≤ n ∧ n ≤ 2)
    (hh : 1 ≤ h) (hsmall : n * (b : Int) * h < 2 ^ 32) :
    gruDefaultHiddenState (Val.num n) (Val.num (b : Int)) (Val.num h) =
      .ok (zeroTensor [n.toNat, b, h.toNat]) := by
  have hb : (0 : Int) ≤ b := Int.natCast_nonneg b
  have hp : 0 ≤ n * (b : Int) * h := mul_nonneg (mul_nonneg (by omega) hb) (by omega)
  have hsz := sizeOfShape_default_small n b h hn hh hsmall
  have hlen : (n * (b : Int) * h).toNat = [n.toNat, b, h.toNat].prod := by
    obtain ⟨hn1, hn2⟩ := hn
    lift n to ℕ using (by omega)
    lift h to ℕ using (by omega)
    simp only [Int.toNat_ofNat, List.prod_cons, List.prod_nil, mul_one]
    have : ((n : Int) * (b : Int) * (h : Int)) = ((n * (b * h) : ℕ) : Int) := by
      push_cast
      ring
    rw [this, Int.toNat_ofNat]
  unfold gruDefaultHiddenState
  dsimp only
  rw [hsz]
  simp only [newArrayFill, hp, hsmall, and_self, if_true, Except.bind, Tensor.new, hsz,
    List.length_replicate, Val.strictNe, Val.strictEq, Int.toNat_of_nonneg hp, decide_True,
    Bool.not_true, Bool.false_eq_true, if_false, List.map_cons, List.map_nil, Val.toDim,
    Int.toNat_ofNat]
  rw [hlen]
  rfl

/-- The default hidden state of the gru case for `2 ^ 32` elements or more: the allocation
of the buffer is refused. -/
theorem gruDefaultHiddenState_large (n : Int) (b : Nat) (h : Int) (hn : 1 ≤ n ∧ n ≤ 2)
    (hh : 1 ≤ h) (hlarge : 2 ^ 32 ≤ n * (b : Int) * h) :
    gruDefaultHiddenState (Val.num n) (Val.num (b : Int)) (Val.num h) =
      .error .rangeError := by
  unfold gruDefaultHiddenState
  dsimp only
  rw [sizeOfShape_default_large n b h hn hh hlarge]
  rfl

theorem strictNe_num_left (a : Int) (v : Val) :
    Val.strictNe (Val.num a) v = true ↔ Val.num a ≠ v := by
  cases v <;> simp [Val.strictNe, Val.strictEq]

theorem hasShapeVal_two_iff (t : Tensor) (x y : Val) (hr : t.rank = 2) :
    hasShapeVal t [x, y] ↔ t.shapeAt 0 = x ∧ t.shapeAt 1 = y := by
  obtain ⟨shape, data⟩ := t
  rcases shape with _ | ⟨a, _ | ⟨b, _ | ⟨c, rest⟩⟩⟩ <;>
    simp [hasShapeVal, Tensor.rank, Tensor.shapeAt] at hr ⊢

theorem hasShapeVal_three_iff (t : Tensor) (x y z : Val) (hr : t.rank = 3) :
    hasShapeVal t [x, y, z] ↔ t.shapeAt 0 = x ∧ t.shapeAt 1 = y ∧ t.shapeAt 2 = z := by
  obtain ⟨shape, data⟩ := t
  rcases shape with _ | ⟨a, _ | ⟨b, _ | ⟨c, _ | ⟨d, rest⟩⟩⟩⟩ <;>
    simp [hasShapeVal, Tensor.rank, Tensor.shapeAt] at hr ⊢

theorem shape_cond_three_val (t : Tensor) (x y z : Val) (hr : ¬ t.rank ≠ 3) :
    (Val.strictNe (t.shapeAt 0) x = true ∨ Val.strictNe (t.shapeAt 1) y = true ∨
      Val.strictNe (t.shapeAt 2) z = true) ↔ ¬ hasShapeVal t [x, y, z] := by
  simp only [ne_eq, not_not] at hr
  obtain ⟨a, b, c, -, h0, h1, h2⟩ := shape_of_rank_three t hr
  rw [hasShapeVal_three_iff t x y z hr, h0, h1, h2]
  simp only [strictNe_num_left]
  tauto

theorem shape_cond_two_val (t : Tensor) (x y : Val) (hr : ¬ t.rank ≠ 2) :
    (Val.strictNe (t.shapeAt 0) x = true ∨ Val.strictNe (t.shapeAt 1) y = true) ↔
      ¬ hasShapeVal t [x, y] := by
  simp only [ne_eq, not_not] at hr
  obtain ⟨a, b, -, h0, h1⟩ := shape_of_rank_two t hr
  rw [hasShapeVal_two_iff t x y hr, h0, h1]
  simp only [strictNe_num_left]
  tauto

/-- One guard of a rule-set against the first check of a list, with a continuation. -/
theorem chain_step_bind {α : Type} (c c' : Prop) [Decidable c] [Decidable c'] (e e' : Error)
    (k : Except Error α) (rest : List (Option Error)) (F : Except Error α)
    (hc : c ↔ c') (he : e = e') (hk : ¬ c → k = (firstViolation rest).bind fun _ => F) :
    (if c then Except.error e else k) =
      (firstViolation (check c' e' :: rest)).bind fun _ => F := by
  by_cases h : c
  · have h' : c' := hc.mp h
    simp [h, h', check, firstViolation, he, Except.bind]
  · have h' : ¬ c' := fun x => h (hc.mpr x)
    simp [h, h', check, firstViolation, hk h]

/-- The two guards on an optional tensor against two checks of a list, with a continuation. -/
theorem opt_block_step_bind {α : Type} (o : Option Tensor) (c₁ c₂ c₁' c₂' : Tensor → Prop)
    [DecidablePred c₁] [DecidablePred c₂] [DecidablePred c₁'] [DecidablePred c₂']
    (e₁ e₂ : Tensor → Error) (k : Except Error α) (rest : List (Option Error))
    (F : Except Error α)
    (h₁ : ∀ t, c₁ t ↔ c₁' t) (h₂ : ∀ t, ¬ c₁ t → (c₂ t ↔ c₂' t))
    (hk : k = (firstViolation rest).bind fun _ => F) :
    (match o with
      | some t =>
        if c₁ t then Except.error (e₁ t) else if c₂ t then Except.error (e₂ t)
        else Except.ok ()
      | none => (Except.ok () : Except Error Unit)).bind (fun _ => k) =
    (firstViolation ((o.bind fun t => check (c₁' t) (e₁ t)) ::
      (o.bind fun t => check (c₂' t) (e₂ t)) :: rest)).bind fun _ => F := by
  cases o with
  | none => simp [Except.bind, firstViolation, hk]
  | some t =>
    by_cases a : c₁ t
    · have a' := (h₁ t).mp a
      simp [a, a', Except.bind, firstViolation, check]
    · have a' : ¬ c₁' t := fun x => a ((h₁ t).mpr x)
      by_cases b : c₂ t
      · have b' := (h₂ t a).mp b
        simp [a, a', b, b', Except.bind, firstViolation, check]
      · have b' : ¬ c₂' t := fun x => b ((h₂ t a).mpr x)
        simp [a, a', b, b', Except.bind, firstViolation, check, hk]

/-- The binding of the local `hiddenState` of the gru case against the two checks of a given
initial hidden state. -/
theorem hiddenState_block_step (o : Option Tensor) (c₁ c₂ c₁' c₂' : Tensor → Prop)
    [DecidablePred c₁] [DecidablePred c₂] [DecidablePred c₁'] [DecidablePred c₂']
    (e₁ e₂ : Tensor → Error) (dflt : Except Error Tensor)
    (h₁ : ∀ t, c₁ t ↔ c₁' t) (h₂ : ∀ t, ¬ c₁ t → (c₂ t ↔ c₂' t)) :
    (match o with
      | some t =>
        if c₁ t then Except.error (e₁ t) else if c₂ t then Except.error (e₂ t)
        else Except.ok t
      | none => dflt) =
    (firstViolation [o.bind fun t => check (c₁' t) (e₁ t),
      o.bind fun t => check (c₂' t) (e₂ t)]).bind fun _ =>
        match o with
        | some t => Except.ok t
        | none => dflt := by
  cases o with
  | none => simp [Except.bind, firstViolation]
  | some t =>
    by_cases a : c₁ t
    · have a' := (h₁ t).mp a
      simp [a, a', Except.bind, firstViolation, check]
    · have a' : ¬ c₁' t := fun x => a ((h₁ t).mpr x)
      by_cases b : c₂ t
      · have b' := (h₂ t a).mp b
        simp [a, a', b, b', Except.bind, firstViolation, check]
      · have b' : ¬ c₂' t := fun x => b ((h₂ t a).mpr x)
        simp [a, a', b, b', Except.bind, firstViolation, check]

/-- The case `"gru"` up to the binding of `hiddenState`: the error of the earliest violated
check among the first fifteen, and otherwise the given initial hidden state or the default. -/
theorem gruHiddenState_eq (input weight recurrentWeight : Tensor) (steps h : Int)
    (options : GruOptions) :
    gruHiddenState input weight recurrentWeight steps h options =
      (firstViolation (gruChecksBefore input weight recurrentWeight steps h options)).bind
        fun _ =>
          match options.initialHiddenState with
          | some t => Except.ok t
          | none => gruDefaultHiddenState (Val.num (numDirections options.direction))
              (input.shapeAt 1) (Val.num h) := by
  unfold gruHiddenState gruChecksBefore numDirections
  dsimp only
  refine chain_step_bind _ _ _ _ _ _ _ ?_ rfl ?_
  · simp [isInteger]
  intro hs
  refine chain_step_bind _ _ _ _ _ _ _ ?_ rfl ?_
  · simp [isInteger]
  intro hh
  refine chain_step_bind _ _ _ _ _ _ _ Iff.rfl rfl ?_
  intro hr
  obtain ⟨s, b, i, hshape, h0, h1, h2⟩ := shape_of_rank_three input (by simpa using hr)
  have hb : (((input.shape[1]?).getD 0 : Nat) : Int) = (b : Int) := by simp [hshape]
  have hi : (((input.shape[2]?).getD 0 : Nat) : Int) = (i : Int) := by simp [hshape]
  rw [hb, hi]
  refine chain_step_bind _ _ _ _ _ _ _ ?_ rfl ?_
  · rw [strictNe_num_iff, h0]
    simp [hshape]
  intro hs0
  refine chain_step_bind _ _ _ _ _ _ _ ?_ rfl ?_
  · tauto
  intro hdir
  refine chain_step_bind _ _ _ _ _ _ _ Iff.rfl rfl ?_
  intro hwr
  rw [h2]
  refine chain_step_bind _ _ _ _ _ _ _ (shape_cond_three_val weight _ _ _ hwr) rfl ?_
  intro hws
  refine chain_step_bind _ _ _ _ _ _ _ Iff.rfl rfl ?_
  intro hrr
  refine chain_step_bind _ _ _ _ _ _ _ (shape_cond_three_val recurrentWeight _ _ _ hrr) rfl ?_
  intro hrs
  refine opt_block_step_bind _ _ _ _ _ _ _ _ _ _ (fun t => Iff.rfl)
    (fun t ht => shape_cond_two_val t _ _ ht) ?_
  refine opt_block_step_bind _ _ _ _ _ _ _ _ _ _ (fun t => Iff.rfl)
    (fun t ht => shape_cond_two_val t _ _ ht) ?_
  exact hiddenState_block_step _ _ _ _ _ _ _ _ (fun t => Iff.rfl)
    (fun t ht => shape_cond_three_mid t _ _ _ _ h1 ht)

/-- The checks of a list followed by those of another: the first list decides first. -/
theorem firstViolation_append_bind (pre post : List (Option Error)) :
    firstViolation (pre ++ post) = (firstViolation pre).bind fun _ => firstViolation post := by
  induction pre with
  | nil => rfl
  | cons c pre ih =>
    cases c with
    | none => simpa [firstViolation] using ih
    | some e => rfl

theorem firstViolation_ok_iff (l : List (Option Error)) :
    firstViolation l = .ok () ↔ ∀ c ∈ l, c = none := by
  induction l with
  | nil => simp [firstViolation]
  | cons c l ih =>
    cases c with
    | none => simp [firstViolation, ih]
    | some e => simp [firstViolation]

/-- What the first fifteen checks of a gru request, all unviolated, say of the shape of the
default hidden state. -/
theorem gruChecksBefore_none (input weight recurrentWeight : Tensor) (steps h : Int)
    (options : GruOptions)
    (hall : ∀ c ∈ gruChecksBefore input weight recurrentWeight steps h options, c = none) :
    1 ≤ h ∧ ∃ b : Nat, input.shape[1]? = some b ∧ input.shapeAt 1 = Val.num (b : Int) := by
  have h2 := hall (check (¬ 0 < h) (.hiddenSizeInvalid h)) (by simp [gruChecksBefore])
  have h3 := hall (check (input.rank ≠ 3) (.notRank "input" input.rank 3))
    (by simp [gruChecksBefore])
  simp only [check, ite_eq_right_iff, reduceCtorEq, imp_false, not_not] at h2 h3
  obtain ⟨s, b, i, hshape, -, h1, -⟩ := shape_of_rank_three input h3
  exact ⟨by omega, b, by simp [hshape], h1⟩

theorem numDirections_range (direction : Option String) :
    1 ≤ numDirections direction ∧ numDirections direction ≤ 2 := by
  unfold numDirections
  split_ifs <;> decide

/-- The gru rule-set raises the error of the earliest step of `gruSteps` that fails, and
succeeds when none does. -/
theorem gru_eq_firstViolation (input weight recurrentWeight : Tensor) (steps h : Int)
    (options : GruOptions) :
    validateInputGru input weight recurrentWeight steps h options =
      firstViolation (gruSteps input weight recurrentWeight steps h options) := by
  unfold validateInputGru gruSteps
  rw [gruHiddenState_eq, firstViolation_append_bind]
  cases hpre : firstViolation (gruChecksBefore input weight recurrentWeight steps h options) with
  | error e => rfl
  | ok u =>
    obtain ⟨hh, b, hb, hbv⟩ := gruChecksBefore_none input weight recurrentWeight steps h options
      ((firstViolation_ok_iff _).mp hpre)
    have hlayout : (if options.layout ≠ some "zrn" ∧ options.layout ≠ some "rzn" then
        Except.error (Error.layoutInvalid options.layout) else Except.ok ()) =
        firstViolation [gruLayoutCheck options] := by
      unfold gruLayoutCheck
      exact chain_step _ _ _ _ _ _ (by tauto) rfl (fun _ => rfl)
    simp only [Except.bind]
    rw [hlayout]
    unfold gruDefaultCheck
    rw [hb, hbv]
    cases hihs : options.initialHiddenState with
    | some t => simp [firstViolation, check]
    | none =>
      simp only [Option.getD_some, true_and]
      by_cases hsmall : numDirections options.direction * (b : Int) * h < 2 ^ 32
      · rw [gruDefaultHiddenState_small _ b h (numDirections_range _) hh hsmall]
        simp only [check, if_neg (not_le.mpr hsmall), firstViolation]
      · rw [gruDefaultHiddenState_large _ b h (numDirections_range _) hh (by omega)]
        simp only [check, if_pos (not_lt.mp hsmall), firstViolation]

theorem check_eq_none_iff (P : Prop) [Decidable P] (e : Error) : check P e = none ↔ ¬ P := by
  unfold check
  split_ifs with h <;> simp [h]

theorem opt_check_eq_none_iff (o : Option Tensor) (P : Tensor → Prop) [DecidablePred P]
    (e : Tensor → Error) :
    (o.bind fun t => check (P t) (e t)) = none ↔ ∀ t, o = some t → ¬ P t := by
  cases o <;> simp [check_eq_none_iff]

theorem hasShapeVal_num_three (t : Tensor) (x y z : Int) :
    hasShapeVal t [Val.num x, Val.num y, Val.num z] ↔ hasShape t [x, y, z] := by
  obtain ⟨shape, data⟩ := t
  rcases shape with _ | ⟨a, _ | ⟨b, _ | ⟨c, _ | ⟨d, rest⟩⟩⟩⟩ <;> simp [hasShapeVal, hasShape]

theorem hasShapeVal_num_two (t : Tensor) (x y : Int) :
    hasShapeVal t [Val.num x, Val.num y] ↔ hasShape t [x, y] := by
  obtain ⟨shape, data⟩ := t
  rcases shape with _ | ⟨a, _ | ⟨b, _ | ⟨c, rest⟩⟩⟩ <;> simp [hasShapeVal, hasShape]

/-- A tensor of shape `[n, 3 * h, h]`, the product as the host computes it, has `2 ^ 53`
elements or more as soon as `3 * h` reaches `2 ^ 53`. -/
theorem prod_big_of_hasShapeVal (t : Tensor) (n h : Int) (hn : 1 ≤ n)
    (h3 : 2 ^ 53 ≤ 3 * h)
    (hs : hasShapeVal t [Val.num n, Val.mul64 (Val.num 3) (Val.num h), Val.num h]) :
    2 ^ 53 ≤ t.shape.prod := by
  obtain ⟨shape, data⟩ := t
  rcases shape with _ | ⟨a, _ | ⟨b, _ | ⟨c, _ | ⟨d, rest⟩⟩⟩⟩ <;>
    simp only [hasShapeVal, List.map_cons, List.map_nil, List.cons.injEq, and_true,
      reduceCtorEq, false_and, and_false] at hs
  obtain ⟨ha, hb, hc⟩ := hs
  have hbig := ofExact_isBig (3 * h) h3
  simp only [Val.mul64] at hb
  rw [← hb] at hbig
  have hb2 : (2 : Int) ^ 53 ≤ (b : Int) := by
    rcases hbig with hinf | ⟨r, hr, hnum⟩
    · cases hinf
    · cases hnum
      exact hr
  have ha1 : 1 ≤ a := by
    have := Val.num.inj ha
    omega
  have hc1 : 1 ≤ c := by
    have := Val.num.inj hc
    omega
  have hb3 : 2 ^ 53 ≤ b := by exact_mod_cast hb2
  simp only [List.prod_cons, List.prod_nil, mul_one]
  calc 2 ^ 53 ≤ b := hb3
    _ ≤ b * c := Nat.le_mul_of_pos_right _ hc1
    _ ≤ a * (b * c) := Nat.le_mul_of_pos_left _ ha1

theorem prod_big_of_hasShape (t : Tensor) (n h : Int) (hn : 1 ≤ n)
    (h3 : 2 ^ 53 ≤ 3 * h) (hs : hasShape t [n, 3 * h, h]) : 2 ^ 53 ≤ t.shape.prod := by
  obtain ⟨shape, data⟩ := t
  rcases shape with _ | ⟨a, _ | ⟨b, _ | ⟨c, _ | ⟨d, rest⟩⟩⟩⟩ <;>
    simp only [hasShape, List.map_cons, List.map_nil, List.cons.injEq, and_true,
      reduceCtorEq, false_and, and_false, Int.ofNat_eq_coe] at hs
  obtain ⟨ha, hb, hc⟩ := hs
  have ha1 : 1 ≤ a := by omega
  have hc1 : 1 ≤ c := by omega
  have hb3 : 2 ^ 53 ≤ b := by
    have : (2 : Int) ^ 53 ≤ (b : Int) := by omega
    exact_mod_cast this
  simp only [List.prod_cons, List.prod_nil, mul_one]
  calc 2 ^ 53 ≤ b := hb3
    _ ≤ b * c := Nat.le_mul_of_pos_right _ hc1
    _ ≤ a * (b * c) := Nat.le_mul_of_pos_left _ ha1

/-- A recurrentWeight of the gruCell case with fewer than `2 ^ 53` elements and the shape
`[3 * hiddenSize, hiddenSize]`, the product taken as the host computes it or exactly, has
`3 * hiddenSize` below `2 ^ 53`: the binary64 product is the exact one. -/
theorem gruCell_product_exact (t : Tensor) (h : Int) (hh : 1 ≤ h)
    (hsize : t.shape.prod < 2 ^ 53)
    (hs : hasShapeVal t [Val.mul64 (Val.num 3) (Val.num h), Val.num h] ∨
      hasShape t [3 * h, h]) :
    Val.mul64 (Val.num 3) (Val.num h) = Val.num (3 * h) := by
  by_cases h3 : 3 * h < 2 ^ 53
  · simp only [Val.mul64]
    exact ofExact_eq_self _ (by omega) h3
  · exfalso
    obtain ⟨shape, data⟩ := t
    rcases hs with hs | hs
    · rcases shape with _ | ⟨a, _ | ⟨b, _ | ⟨c, rest⟩⟩⟩ <;>
        simp only [hasShapeVal, List.map_cons, List.map_nil, List.cons.injEq, and_true,
          reduceCtorEq, false_and, and_false] at hs
      obtain ⟨ha, hb⟩ := hs
      have hbig := ofExact_isBig (3 * h) (by omega)
      simp only [Val.mul64] at ha
      rw [← ha] at hbig
      have ha2 : (2 : Int) ^ 53 ≤ (a : Int) := by
        rcases hbig with hinf | ⟨r, hr, hnum⟩
        · cases hinf
        · cases hnum
          exact hr
      have hb1 : 1 ≤ b := by
        have := Val.num.inj hb
        omega
      have ha3 : 2 ^ 53 ≤ a := by exact_mod_cast ha2
      simp only [List.prod_cons, List.prod_nil, mul_one] at hsize
      have : a ≤ a * b := Nat.le_mul_of_pos_right _ hb1
      omega
    · rcases shape with _ | ⟨a, _ | ⟨b, _ | ⟨c, rest⟩⟩⟩ <;>
        simp only [hasShape, List.map_cons, List.map_nil, List.cons.injEq, and_true,
          reduceCtorEq, false_and, and_false, Int.ofNat_eq_coe] at hs
      obtain ⟨ha, hb⟩ := hs
      have hb1 : 1 ≤ b := by omega
      have ha3 : 2 ^ 53 ≤ a := by
        have : (2 : Int) ^ 53 ≤ (a : Int) := by omega
        exact_mod_cast this
      simp only [List.prod_cons, List.prod_nil, mul_one] at hsize
      have : a ≤ a * b := Nat.le_mul_of_pos_right _ hb1
      omega

/-- The gru rule-set succeeds exactly when none of its steps fails, each step written out. -/
theorem gru_ok_iff_steps (input weight recurrentWeight : Tensor) (steps h : Int)
    (options : GruOptions) :
    validateInputGru input weight recurrentWeight steps h options = .ok () ↔
      ∀ c ∈ gruSteps input weight recurrentWeight steps h options, c = none := by
  rw [gru_eq_firstViolation, firstViolation_ok_iff]

/-! ## Theorems -/

/-- Claim C1. For a non-empty list of inputs and an integer axis, the concat rule-set succeeds
exactly when `0 ≤ axis < rank` of the first input, every input has the rank of the first, and
every input agrees with the first on every dimension other than `axis`.  Shapes `[2,3]`,
`[2,4]` with axis 1 succeed; shapes `[2,3]`, `[3,4]` with axis 1 fail with the same-shape
error. -/
theorem concat_succeeds_iff (first : Tensor) (rest : List Tensor) (axis : Int)
    (d₁ d₂ : List Int) :
    (validateInputConcat (first :: rest) axis = .ok () ↔
      (0 ≤ axis ∧ axis < (first.rank : Int)) ∧
      (∀ t ∈ first :: rest, t.rank = first.rank) ∧
      (∀ t ∈ first :: rest, ∀ j : Nat, j < first.rank → (j : Int) ≠ axis →
        t.shape[j]? = first.shape[j]?)) ∧
    validateInputConcat [⟨[2, 3], d₁⟩, ⟨[2, 4], d₂⟩] 1 = .ok () ∧
    validateInputConcat [⟨[2, 3], d₁⟩, ⟨[3, 4], d₂⟩] 1 = .error .sameShape := by
  refine ⟨?_, rfl, rfl⟩
  unfold validateInputConcat
  simp only [isInteger, Bool.not_true, Bool.false_eq_true, if_false, List.drop_one,
    List.tail_cons]
  by_cases hax : axis < 0 ∨ axis ≥ (first.rank : Int)
  · rw [if_pos hax]
    constructor
    · intro h; cases h
    · rintro ⟨⟨h0, h1⟩, -⟩
      omega
  · rw [if_neg hax, forEach_eq_ok_iff]
    have hax' : 0 ≤ axis ∧ axis < (first.rank : Int) := by omega
    simp only [hax', true_and, List.mem_cons, forall_eq_or_imp, true_and, implies_true]
    rw [← forall₂_and]
    refine forall₂_congr fun t _ => ?_
    exact concat_body_ok_iff first t axis

/-- Claim C2. With `options.axes` omitted, the slice rule-set succeeds exactly when `starts`
and `sizes` both have the length of the rank and, on every axis `i` of size `d`, the start
lies in `[-d, d)` and the size is `-1`, or non-negative with wrapped start plus size at most
`d`.  Shape `[10]` with starts `[-3]` succeeds for sizes `[-1]` and fails for sizes `[5]`. -/
theorem slice_default_axes_succeeds_iff (input : Tensor) (starts sizes : List Int)
    (dat : List Int) :
    (validateInputSlice input starts sizes { axes := none } = .ok () ↔
      starts.length = input.rank ∧ sizes.length = input.rank ∧
      ∀ (i : Nat) (d : Nat) (s z : Int), input.shape[i]? = some d → starts[i]? = some s →
        sizes[i]? = some z → SliceOk d s z) ∧
    validateInputSlice ⟨[10], dat⟩ [-3] [-1] { axes := none } = .ok () ∧
    validateInputSlice ⟨[10], dat⟩ [-3] [5] { axes := none } =
      .error (.sizeSum (Val.num 5) (Val.num (-3)) (Val.num 10)) := by
  exact ⟨slice_default_ok_iff input starts sizes, rfl, rfl⟩

/-- Counterexample to C3: on the tensor of shape `[2 ^ 53, 0]` with axes `[0]`, starts
`[2 ^ 53 - 1]` and sizes `[2]` the slice rule-set succeeds, the sum `2 ^ 53 + 1` being
rounded to `2 ^ 53`; the start and size condition of the claim fails at position 0, the exact
sum exceeding the dimension. -/
theorem slice_explicit_axes_counterexample :
    validateInputSlice64 ⟨[2 ^ 53, 0], []⟩ [2 ^ 53 - 1] [2] { axes := some [0] } = .ok () ∧
    Val.add64 (Val.num (2 ^ 53 - 1)) (Val.num 2) = Val.num (2 ^ 53) ∧
    ¬ SliceOk (2 ^ 53) (2 ^ 53 - 1) 2 ∧
    ¬ (∀ (i : Nat) (a s z : Int) (d : Nat), ([0] : List Int)[i]? = some a →
      ([2 ^ 53 - 1] : List Int)[i]? = some s → ([2] : List Int)[i]? = some z →
      ([2 ^ 53, 0] : List Nat)[(if 0 ≤ a then a
        else a + (Tensor.mk [2 ^ 53, 0] []).rank).toNat]? = some d →
      SliceOk d s z) := by
  have hno : ¬ SliceOk (2 ^ 53) (2 ^ 53 - 1) 2 := by
    unfold SliceOk
    decide
  refine ⟨by decide, by decide, hno, ?_⟩
  intro h
  exact hno (h 0 0 (2 ^ 53 - 1) 2 (2 ^ 53) (by decide) (by decide) (by decide) (by decide))

/-- Claim C3, amended. For an input tensor of rank below `2 ^ 53`, and an explicit list `axes`
such that every dimension addressed by an entry of `axes` is below `2 ^ 53`, the slice
rule-set succeeds exactly when `axes` has length at most the rank, every entry lies in
`[-rank, rank)`, `starts` and `sizes` have the length of `axes`, and at every position the
start and size conditions hold against the dimension addressed by the entry (`shape[a]` for
`a ≥ 0`, `shape[a + rank]` for `a < 0`). -/
theorem slice_explicit_axes_safe_succeeds_iff (input : Tensor) (axes starts sizes : List Int)
    (hrank : input.rank < 2 ^ 53)
    (hdims : ∀ a ∈ axes, ∀ d : Nat,
      input.shape[(if 0 ≤ a then a else a + input.rank).toNat]? = some d → d < 2 ^ 53) :
    validateInputSlice64 input starts sizes { axes := some axes } = .ok () ↔
      axes.length ≤ input.rank ∧
      (∀ a ∈ axes, -(input.rank : Int) ≤ a ∧ a < input.rank) ∧
      starts.length = axes.length ∧ sizes.length = axes.length ∧
      ∀ (i : Nat) (a s z : Int) (d : Nat), axes[i]? = some a → starts[i]? = some s →
        sizes[i]? = some z →
        input.shape[(if 0 ≤ a then a else a + input.rank).toNat]? = some d →
        SliceOk d s z := by
  rw [validateInputSlice64_eq_explicit input axes starts sizes hrank hdims]
  exact slice_explicit_ok_iff input axes starts sizes

/-- Witness for C3: the amended theorem applied to a tensor of shape `[2 ^ 53, 0, 4]`, axes
`[-1]`, starts `[1]` and sizes `[2]`. -/
theorem slice_explicit_axes_safe_succeeds_iff_witness :
    (Tensor.mk [2 ^ 53, 0, 4] []).rank < 2 ^ 53 ∧
    (∀ a ∈ ([-1] : List Int), ∀ d : Nat,
      ([2 ^ 53, 0, 4] : List Nat)[(if 0 ≤ a then a
        else a + (Tensor.mk [2 ^ 53, 0, 4] []).rank).toNat]? = some d → d < 2 ^ 53) ∧
    validateInputSlice64 ⟨[2 ^ 53, 0, 4], []⟩ [1] [2] { axes := some [-1] } = .ok () ∧
    (([-1] : List Int).length ≤ (Tensor.mk [2 ^ 53, 0, 4] []).rank ∧
      ∀ (i : Nat) (a s z : Int) (d : Nat), ([-1] : List Int)[i]? = some a →
        ([1] : List Int)[i]? = some s → ([2] : List Int)[i]? = some z →
        ([2 ^ 53, 0, 4] : List Nat)[(if 0 ≤ a then a
          else a + (Tensor.mk [2 ^ 53, 0, 4] []).rank).toNat]? = some d →
        SliceOk d s z) :=
  have hd : ∀ a ∈ ([-1] : List Int), ∀ d : Nat,
      ([2 ^ 53, 0, 4] : List Nat)[(if 0 ≤ a then a
        else a + (Tensor.mk [2 ^ 53, 0, 4] []).rank).toNat]? = some d → d < 2 ^ 53 := by
    intro a ha d hd
    simp only [List.mem_singleton] at ha
    subst ha
    have h4 : d = 4 := by
      have : ([2 ^ 53, 0, 4] : List Nat)[2]? = some d := hd
      simpa using this.symm
    omega
  ⟨by decide, hd, by decide,
    have h := (slice_explicit_axes_safe_succeeds_iff ⟨[2 ^ 53, 0, 4], []⟩ [-1] [1] [2]
      (by decide) hd).mp (by decide)
    ⟨h.1, h.2.2.2.2⟩⟩

/-- Claim C4. With an integer `splits = n`, the split rule-set succeeds exactly when the axis
(0 when omitted) lies in `[-rank, rank)`, `n > 0`, and `n` divides the size of the dimension
the normalized axis addresses; the remainder is only ever taken by a positive `n`.  A
dimension of size 9 along axis 0 with `n = 4` fails. -/
theorem split_number_succeeds_iff (input : Tensor) (axisOpt : Option Int) (n : Int)
    (rest : List Nat) (dat : List Int) :
    (validateInputSplit input (.number n) { axis := axisOpt } = .ok () ↔
      (-(input.rank : Int) ≤ axisOpt.getD 0 ∧ axisOpt.getD 0 < input.rank) ∧ 0 < n ∧
      ∃ d : Nat,
        input.shape[(if 0 ≤ axisOpt.getD 0 then axisOpt.getD 0
          else axisOpt.getD 0 + input.rank).toNat]? = some d ∧ n ∣ (d : Int)) ∧
    (∀ dim k, validateInputSplit input (.number n) { axis := axisOpt } =
      .error (.splitsNotDivide n dim k) → 0 < n) ∧
    validateInputSplit ⟨9 :: rest, dat⟩ (.number 4) { axis := some 0 } =
      .error (.splitsNotDivide 4 (Val.num 9) 0) ∧
    validateInputSplit ⟨9 :: rest, dat⟩ (.number 4) { axis := none } =
      .error (.splitsNotDivide 4 (Val.num 9) 0) := by
  refine ⟨?_, ?_, ?_, ?_⟩
  · unfold validateInputSplit
    simp only [isInteger, Bool.not_true, Bool.false_eq_true, if_false, false_or]
    by_cases hax : -(input.rank : Int) ≤ axisOpt.getD 0 ∧ axisOpt.getD 0 < input.rank
    · have h2 : ¬ (axisOpt.getD 0 ≥ (input.rank : Int) ∨
          axisOpt.getD 0 < -(input.rank : Int)) := by
        omega
      obtain ⟨d, hd, hv⟩ := shapeAt_normAxis input (axisOpt.getD 0) hax
      have hnorm : (if axisOpt.getD 0 ≥ 0 then axisOpt.getD 0
          else (input.rank : Int) + axisOpt.getD 0) = normAxis input.rank (axisOpt.getD 0) := by
        unfold normAxis
        split_ifs <;> omega
      simp only [if_neg h2, hnorm, hv, hax, true_and]
      unfold normAxis at hd
      simp only [hd, Option.some.injEq, exists_eq_left']
      by_cases hn : n ≤ 0
      · simp only [hn, if_true]
        constructor
        · intro h; cases h
        · intro h; omega
      · have hn0 : n ≠ 0 := by omega
        simp only [hn, if_false, Val.rem, hn0, Val.strictNe, Val.strictEq,
          ← Int.dvd_iff_tmod_eq_zero]
        by_cases hdv : n ∣ (d : Int)
        · simp only [hdv, decide_True, Bool.not_true, Bool.false_eq_true, if_false, true_iff,
            and_true]
          omega
        · simp [hdv]
    · have h2 : axisOpt.getD 0 ≥ (input.rank : Int) ∨
          axisOpt.getD 0 < -(input.rank : Int) := by
        omega
      simp only [if_pos h2, hax, false_and]
      constructor
      · intro h; cases h
      · intro h; exact h.elim
  · intro dim k h
    unfold validateInputSplit at h
    simp only [isInteger, Bool.not_true, Bool.false_eq_true, if_false, false_or] at h
    split_ifs at h
    all_goals first | omega | cases h
  · have h1 : ¬ ((0 : Int) ≥ ((rest.length + 1 : Nat) : Int) ∨
        (0 : Int) < -((rest.length + 1 : Nat) : Int)) := by omega
    simp [validateInputSplit, isInteger, Tensor.rank, Tensor.shapeAt, Val.rem, Val.strictNe,
      Val.strictEq, h1]
    rw [if_neg (by omega)]
    decide
  · have h1 : ¬ ((0 : Int) ≥ ((rest.length + 1 : Nat) : Int) ∨
        (0 : Int) < -((rest.length + 1 : Nat) : Int)) := by omega
    simp [validateInputSplit, isInteger, Tensor.rank, Tensor.shapeAt, Val.rem, Val.strictNe,
      Val.strictEq, h1]
    rw [if_neg (by omega)]
    decide

/-- Counterexample to C5: on the tensor of shape `[2 ^ 53, 0]` with axis 0 the split rule-set
accepts the splits `[2 ^ 53, 1]`, whose sum `2 ^ 53 + 1` is rounded to `2 ^ 53`; the exact sum
of the entries is not the size of the dimension. -/
theorem split_array_counterexample :
    validateInputSplit ⟨[2 ^ 53, 0], []⟩ (.array [2 ^ 53, 1]) { axis := some 0 } = .ok () ∧
    reduceSum [2 ^ 53, 1] = .ok (Val.num (2 ^ 53)) ∧
    ([2 ^ 53, 1] : List Int).sum ≠ ((2 ^ 53 : Nat) : Int) := by
  decide

/-- Claim C5, amended. For a non-empty sequence `splits` and an axis in `[-rank, rank)` whose
normalized form addresses a dimension below `2 ^ 53`, the split rule-set succeeds exactly
when every entry is positive and the entries sum to the size of that dimension.  A dimension
of size 9 with splits `[4, 5]` succeeds. -/
theorem split_array_safe_succeeds_iff (input : Tensor) (axisOpt : Option Int)
    (splits : List Int) (rest : List Nat) (dat : List Int)
    (hax : -(input.rank : Int) ≤ axisOpt.getD 0 ∧ axisOpt.getD 0 < input.rank)
    (hne : splits ≠ [])
    (hdim : ∀ d : Nat,
      input.shape[(if 0 ≤ axisOpt.getD 0 then axisOpt.getD 0
        else axisOpt.getD 0 + input.rank).toNat]? = some d → d < 2 ^ 53) :
    (validateInputSplit input (.array splits) { axis := axisOpt } = .ok () ↔
      (∀ v ∈ splits, 0 < v) ∧
      ∃ d : Nat,
        input.shape[(if 0 ≤ axisOpt.getD 0 then axisOpt.getD 0
          else axisOpt.getD 0 + input.rank).toNat]? = some d ∧ splits.sum = (d : Int)) ∧
    validateInputSplit ⟨9 :: rest, dat⟩ (.array [4, 5]) { axis := some 0 } = .ok () := by
  refine ⟨?_, ?_⟩
  swap
  · have h1 : ¬ ((0 : Int) ≥ ((rest.length + 1 : Nat) : Int) ∨
        (0 : Int) < -((rest.length + 1 : Nat) : Int)) := by omega
    have e : reduceSum [4, 5] = .ok (Val.num 9) := by decide
    simp [validateInputSplit, isInteger, Tensor.rank, Tensor.shapeAt, e, Val.strictNe,
      Val.strictEq, h1]
    omega
  unfold validateInputSplit
  have h2 : ¬ (axisOpt.getD 0 ≥ (input.rank : Int) ∨
      axisOpt.getD 0 < -(input.rank : Int)) := by
    omega
  obtain ⟨d, hd, hv⟩ := shapeAt_normAxis input (axisOpt.getD 0) hax
  have hdlt : (d : Int) < 2 ^ 53 := by
    have := hdim d (by unfold normAxis at hd; exact hd)
    exact_mod_cast this
  have hnorm : (if axisOpt.getD 0 ≥ 0 then axisOpt.getD 0
      else (input.rank : Int) + axisOpt.getD 0) = normAxis input.rank (axisOpt.getD 0) := by
    unfold normAxis
    split_ifs <;> omega
  simp only [isInteger, Bool.not_true, Bool.false_eq_true, if_false, if_neg h2, hnorm, hv,
    Bool.true_and]
  unfold normAxis at hd
  simp only [hd, Option.some.injEq, exists_eq_left']
  by_cases hall : ∀ v ∈ splits, 0 < v
  · have hall' : (splits.all fun v => decide (v > 0)) = true := by
      simpa [List.all_eq_true] using hall
    simp only [hall', Bool.not_true, Bool.false_eq_true, if_false, hall, implies_true,
      true_and]
    rcases reduceSum_cases splits hne hall with ⟨h1, hr⟩ | ⟨h1, v, hb, hr⟩
    · rw [hr]
      simp only [Val.strictNe, Val.strictEq]
      by_cases hs : splits.sum = (d : Int)
      · simpa [hs] using hall
      · simp [hs]
    · rw [hr]
      simp only [isBig_ne_num v hb d hdlt, if_true]
      constructor
      · intro h; cases h
      · intro h; omega
  · have hall' : ¬ (splits.all fun v => decide (v > 0)) = true := by
      simpa [List.all_eq_true] using hall
    simp only [Bool.not_eq_true] at hall'
    simp only [hall', Bool.not_false, if_true]
    constructor
    · intro h; cases h
    · intro h; exact absurd h.1 hall

/-- Witness for C5: the amended theorem applied to a tensor of shape `[9, 2 ^ 53, 0]`, axis 0
and splits `[4, 5]`. -/
theorem split_array_safe_succeeds_iff_witness :
    (-((Tensor.mk [9, 2 ^ 53, 0] []).rank : Int) ≤ (some (0 : Int)).getD 0 ∧
      (some (0 : Int)).getD 0 < (Tensor.mk [9, 2 ^ 53, 0] []).rank) ∧
    ([4, 5] : List Int) ≠ [] ∧
    (∀ d : Nat,
      ([9, 2 ^ 53, 0] : List Nat)[(if 0 ≤ (some (0 : Int)).getD 0 then (some (0 : Int)).getD 0
        else (some (0 : Int)).getD 0 + (Tensor.mk [9, 2 ^ 53, 0] []).rank).toNat]? = some d →
      d < 2 ^ 53) ∧
    (validateInputSplit ⟨[9, 2 ^ 53, 0], []⟩ (.array [4, 5]) { axis := some 0 } = .ok () ↔
      (∀ v ∈ ([4, 5] : List Int), 0 < v) ∧
      ∃ d : Nat,
        ([9, 2 ^ 53, 0] : List Nat)[(if 0 ≤ (some (0 : Int)).getD 0 then
          (some (0 : Int)).getD 0
          else (some (0 : Int)).getD 0 + (Tensor.mk [9, 2 ^ 53, 0] []).rank).toNat]? =
            some d ∧
        ([4, 5] : List Int).sum = (d : Int)) :=
  have hd : ∀ d : Nat,
      ([9, 2 ^ 53, 0] : List Nat)[(if 0 ≤ (some (0 : Int)).getD 0 then (some (0 : Int)).getD 0
        else (some (0 : Int)).getD 0 + (Tensor.mk [9, 2 ^ 53, 0] []).rank).toNat]? = some d →
      d < 2 ^ 53 := by
    intro d hd
    have h9 : d = 9 := by
      have : ([9, 2 ^ 53, 0] : List Nat)[0]? = some d := hd
      simpa using this.symm
    omega
  ⟨by decide, by decide, hd,
    (split_array_safe_succeeds_iff ⟨[9, 2 ^ 53, 0], []⟩ (some 0) [4, 5] [] [] (by decide)
      (by decide) hd).1⟩

/-- Claim C6. For `a` of rank at least 1 and `b` of rank at least 2, the matmul rule-set
succeeds exactly when the last dimension of `a` equals the second-to-last dimension of `b`;
the outcome is the same for any other pair of operands with these two dimensions.  Shapes
`[2,3,4]`, `[2,4,5]` succeed and shapes `[2,3,4]`, `[2,5,5]` fail. -/
theorem matmul_succeeds_iff (a b : Tensor) (d₁ d₂ : List Int) (ha : 1 ≤ a.rank)
    (hb : 2 ≤ b.rank) :
    (validateInputMatmul a b = .ok () ↔ a.shape[a.rank - 1]? = b.shape[b.rank - 2]?) ∧
    (∀ a' b' : Tensor, 1 ≤ a'.rank → 2 ≤ b'.rank →
      a'.shape[a'.rank - 1]? = a.shape[a.rank - 1]? →
      b'.shape[b'.rank - 2]? = b.shape[b.rank - 2]? →
      validateInputMatmul a' b' = validateInputMatmul a b) ∧
    validateInputMatmul ⟨[2, 3, 4], d₁⟩ ⟨[2, 4, 5], d₂⟩ = .ok () ∧
    validateInputMatmul ⟨[2, 3, 4], d₁⟩ ⟨[2, 5, 5], d₂⟩ =
      .error (.colsNotRows (Val.num 4) (Val.num 5)) := by
  obtain ⟨da, hda, hva⟩ := shapeAt_rank_sub a 1 (le_refl 1) ha
  obtain ⟨db, hdb, hvb⟩ := shapeAt_rank_sub b 2 (by omega) hb
  refine ⟨?_, ?_, rfl, rfl⟩
  · unfold validateInputMatmul
    simp only [Nat.cast_one, Nat.cast_ofNat] at hva hvb
    simp only [hva, hvb, hda, hdb, Val.strictNe, Val.strictEq, Option.some.injEq]
    by_cases h : da = db
    · simp [h]
    · have h' : ¬ ((da : Int) = (db : Int)) := by omega
      simp [h, h']
  · intro a' b' ha' hb' hea heb
    obtain ⟨da', hda', hva'⟩ := shapeAt_rank_sub a' 1 (le_refl 1) ha'
    obtain ⟨db', hdb', hvb'⟩ := shapeAt_rank_sub b' 2 (by omega) hb'
    have e1 : da' = da := by
      rw [hda', hda] at hea
      exact Option.some.inj hea
    have e2 : db' = db := by
      rw [hdb', hdb] at heb
      exact Option.some.inj heb
    unfold validateInputMatmul
    simp only [Nat.cast_one, Nat.cast_ofNat] at hva hvb hva' hvb'
    simp only [hva, hvb, hva', hvb', e1, e2]

/-- Witness for C6: the theorem applied to operands of shapes `[2,3,4]` and `[2,4,5]`. -/
theorem matmul_succeeds_iff_witness :
    1 ≤ (Tensor.mk [2, 3, 4] []).rank ∧ 2 ≤ (Tensor.mk [2, 4, 5] []).rank ∧
    (validateInputMatmul ⟨[2, 3, 4], []⟩ ⟨[2, 4, 5], []⟩ = .ok () ↔
      ([2, 3, 4] : List Nat)[(Tensor.mk [2, 3, 4] []).rank - 1]? =
        ([2, 4, 5] : List Nat)[(Tensor.mk [2, 4, 5] []).rank - 2]?) :=
  ⟨by decide, by decide,
    (matmul_succeeds_iff ⟨[2, 3, 4], []⟩ ⟨[2, 4, 5], []⟩ [] [] (by decide) (by decide)).1⟩

/-- Counterexample to C7: the request with input `[1, 2 ^ 32, 0]`, weight `[1, 3, 0]`,
recurrentWeight `[1, 3, 1]`, steps 1, hiddenSize 1, direction `forward`, layout `zrn` and no
bias, recurrentBias or initial hidden state meets every condition of the claim, yet the gru
rule-set fails: the buffer of `2 ^ 32` zeros of the default hidden state is refused. -/
theorem gru_succeeds_counterexample :
    validateInputGru ⟨[1, 2 ^ 32, 0], []⟩ ⟨[1, 3, 0], []⟩ ⟨[1, 3, 1], []⟩ 1 1
        { direction := some "forward", layout := some "zrn" } = .error .rangeError ∧
    ((0 : Int) < 1 ∧ (0 : Int) < 1 ∧
      ∃ batchSize inputSize : Nat,
        hasShape ⟨[1, 2 ^ 32, 0], []⟩ [1, (batchSize : Int), (inputSize : Int)] ∧
        (({ direction := some "forward", layout := some "zrn" } : GruOptions).direction =
            some "forward" ∨
          ({ direction := some "forward", layout := some "zrn" } : GruOptions).direction =
            some "backward" ∨
          ({ direction := some "forward", layout := some "zrn" } : GruOptions).direction =
            some "both") ∧
        hasShape ⟨[1, 3, 0], []⟩ [numDirections (some "forward"), 3 * 1, (inputSize : Int)] ∧
        hasShape ⟨[1, 3, 1], []⟩ [numDirections (some "forward"), 3 * 1, 1] ∧
        (∀ bias, ({ direction := some "forward", layout := some "zrn" } : GruOptions).bias =
          some bias → hasShape bias [numDirections (some "forward"), 3 * 1]) ∧
        (∀ recurrentBias,
          ({ direction := some "forward", layout := some "zrn" } : GruOptions).recurrentBias =
            some recurrentBias →
          hasShape recurrentBias [numDirections (some "forward"), 3 * 1]) ∧
        (∀ initialHiddenState,
          ({ direction := some "forward", layout := some "zrn" } :
            GruOptions).initialHiddenState = some initialHiddenState →
          hasShape initialHiddenState
            [numDirections (some "forward"), (batchSize : Int), 1]) ∧
        (({ direction := some "forward", layout := some "zrn" } : GruOptions).layout =
            some "zrn" ∨
          ({ direction := some "forward", layout := some "zrn" } : GruOptions).layout =
            some "rzn")) := by
  refine ⟨by decide, by decide, by decide, 2 ^ 32, 0, by decide, by decide, by decide,
    by decide, ?_, ?_, ?_, by decide⟩
  · intro bias hb
    cases hb
  · intro recurrentBias hb
    cases hb
  · intro initialHiddenState hb
    cases hb

/-- Claim C7, amended. For a gru request whose recurrentWeight has fewer than `2 ^ 53`
elements, the gru rule-set succeeds exactly when `steps > 0`, `hiddenSize = h > 0`, the input
has shape `[steps, batchSize, inputSize]`, the direction is `forward`, `backward` or `both`,
the weight has shape `[n, 3h, inputSize]`, the recurrent weight `[n, 3h, h]`, each of bias and
recurrentBias that is present has shape `[n, 3h]`, the initial hidden state, if present, has
shape `[n, batchSize, h]` and, if absent, `n * batchSize * h` is below `2 ^ 32`, and the
layout is `zrn` or `rzn`, with `n = 2` for direction `both` and 1 otherwise.  With steps 5,
hiddenSize 8 and direction `both`, a weight of shape `[1, 24, inputSize]` fails with the
weight-shape error. -/
theorem gru_succeeds_iff_of_size (input weight recurrentWeight : Tensor) (steps h : Int)
    (options : GruOptions) (batch inSize : Nat) (d₁ d₂ : List Int)
    (hrw : recurrentWeight.shape.prod < 2 ^ 53) :
    (validateInputGru input weight recurrentWeight steps h options = .ok () ↔
      0 < steps ∧ 0 < h ∧
      ∃ batchSize inputSize : Nat,
        hasShape input [steps, (batchSize : Int), (inputSize : Int)] ∧
        (options.direction = some "forward" ∨ options.direction = some "backward" ∨
          options.direction = some "both") ∧
        hasShape weight [numDirections options.direction, 3 * h, (inputSize : Int)] ∧
        hasShape recurrentWeight [numDirections options.direction, 3 * h, h] ∧
        (∀ bias, options.bias = some bias →
          hasShape bias [numDirections options.direction, 3 * h]) ∧
        (∀ recurrentBias, options.recurrentBias = some recurrentBias →
          hasShape recurrentBias [numDirections options.direction, 3 * h]) ∧
        (∀ initialHiddenState, options.initialHiddenState = some initialHiddenState →
          hasShape initialHiddenState
            [numDirections options.direction, (batchSize : Int), h]) ∧
        (options.initialHiddenState = none →
          numDirections options.direction * (batchSize : Int) * h < 2 ^ 32) ∧
        (options.layout = some "zrn" ∨ options.layout = some "rzn")) ∧
    validateInputGru ⟨[5, batch, inSize], d₁⟩ ⟨[1, 24, inSize], d₂⟩ recurrentWeight 5 8
        { options with direction := some "both" } =
      .error (.shapeInvalid "weight" [Val.num 1, Val.num 24, Val.num (inSize : Int)]) := by
  constructor
  · rw [gru_ok_iff_steps]
    unfold gruSteps gruChecksBefore gruDefaultCheck gruLayoutCheck
    simp only [List.cons_append, List.nil_append, List.mem_cons, List.not_mem_nil, or_false,
      forall_eq_or_imp, forall_eq, check_eq_none_iff, opt_check_eq_none_iff, not_not]
    have hn := numDirections_range options.direction
    by_cases hh : 0 < h
    · by_cases h3 : 3 * h < 2 ^ 53
      · have e3 : Val.mul64 (Val.num 3) (Val.num h) = Val.num (3 * h) := by
          simp only [Val.mul64]
          exact ofExact_eq_self _ (by omega) h3
        rw [e3]
        simp only [hasShapeVal_num_three, hasShapeVal_num_two]
        constructor
        · rintro ⟨hs, -, hr, hs0, hdir, -, hw, -, hrw', -, hb, -, hrb, -, hihs, halloc, hlay⟩
          obtain ⟨s, b, i, hshape, -⟩ := shape_of_rank_three input hr
          simp only [hshape, List.getElem?_cons_zero, List.getElem?_cons_succ, Option.map_some',
            Option.some.injEq, Option.getD_some, Int.ofNat_eq_coe] at hs0 hw hihs halloc
          refine ⟨hs, hh, b, i, ?_, hdir, hw, hrw', hb, hrb, hihs, ?_, hlay⟩
          · simp [hasShape, hshape, hs0]
          · intro hnone
            by_contra hcon
            exact halloc ⟨hnone, not_lt.mp hcon⟩
        · rintro ⟨hs, -, b, i, hin, hdir, hw, hrw', hb, hrb, hihs, halloc, hlay⟩
          have hr := ((hasShape_three_iff _ _ _ _).mp hin).1
          obtain ⟨s', b', i', hshape, -⟩ := shape_of_rank_three input hr
          simp only [hasShape, hshape, List.map_cons, List.map_nil, Int.ofNat_eq_coe,
            List.cons.injEq, Nat.cast_inj, and_true] at hin
          obtain ⟨hs0, rfl, rfl⟩ := hin
          simp only [hshape, List.getElem?_cons_zero, List.getElem?_cons_succ, Option.map_some',
            Option.some.injEq, Option.getD_some, Int.ofNat_eq_coe]
          refine ⟨hs, hh, hr, hs0, hdir, ((hasShape_three_iff _ _ _ _).mp hw).1, hw,
            ((hasShape_three_iff _ _ _ _).mp hrw').1, hrw',
            fun t ht => ((hasShape_two_iff _ _ _).mp (hb t ht)).1, hb,
            fun t ht => ((hasShape_two_iff _ _ _).mp (hrb t ht)).1, hrb,
            fun t ht => ((hasShape_three_iff _ _ _ _).mp (hihs t ht)).1, hihs, ?_, hlay⟩
          rintro ⟨hnone, hle⟩
          exact absurd (halloc hnone) (not_lt.mpr hle)
      · constructor
        · rintro ⟨-, -, -, -, -, -, -, -, hrw', -⟩
          have := prod_big_of_hasShapeVal recurrentWeight _ h hn.1 (by omega) hrw'
          omega
        · rintro ⟨-, -, b, i, -, -, -, hrw', -⟩
          have := prod_big_of_hasShape recurrentWeight _ h hn.1 (by omega) hrw'
          omega
    · constructor
      · rintro ⟨-, h2, -⟩
        exact absurd h2 hh
      · rintro ⟨-, h2, -⟩
        exact absurd h2 hh
  · simp [validateInputGru, gruHiddenState, isInteger, Tensor.rank, Tensor.shapeAt,
      Val.strictNe, Val.strictEq, Except.bind]

/-- Witness for C7: the amended theorem applied to a request with input `[5, 2, 3]`, weight
`[2, 24, 3]`, recurrentWeight `[2, 24, 8]`, steps 5, hiddenSize 8, direction `both` and layout
`zrn`. -/
theorem gru_succeeds_iff_of_size_witness :
    (Tensor.mk [2, 24, 8] []).shape.prod < 2 ^ 53 ∧
    validateInputGru ⟨[5, 2, 3], []⟩ ⟨[2, 24, 3], []⟩ ⟨[2, 24, 8], []⟩ 5 8
        { direction := some "both", layout := some "zrn" } = .ok () ∧
    ∃ batchSize inputSize : Nat,
      hasShape ⟨[5, 2, 3], []⟩ [5, (batchSize : Int), (inputSize : Int)] ∧
      hasShape ⟨[2, 24, 3], []⟩ [numDirections (some "both"), 3 * 8, (inputSize : Int)] ∧
      numDirections (some "both") * (batchSize : Int) * 8 < 2 ^ 32 :=
  ⟨by decide, by decide,
    have ⟨_, _, b, i, h1, _, h2, _, _, _, _, h3, _⟩ :=
      (gru_succeeds_iff_of_size ⟨[5, 2, 3], []⟩ ⟨[2, 24, 3], []⟩ ⟨[2, 24, 8], []⟩ 5 8
        { direction := some "both", layout := some "zrn" } 0 0 [] [] (by decide)).1.mp
        (by decide)
    ⟨b, i, h1, h2, h3 rfl⟩⟩

/-- Claim C8. The gruCell rule-set succeeds exactly when `hiddenSize = h > 0`, the input has
rank 2 (shape `[batchSize, inputSize]`), the weight has shape `[3h, inputSize]`, the
recurrent weight `[3h, h]`, the hidden state `[batchSize, h]`, each of bias and recurrentBias
that is present has shape `[3h]`, and the layout (`zrn` when omitted) is `zrn` or `rzn`. -/
theorem gruCell_succeeds_iff (input weight recurrentWeight hiddenState : Tensor) (h : Int)
    (options : GruCellOptions) :
    validateInputGruCell input weight recurrentWeight hiddenState h options = .ok () ↔
      0 < h ∧
      ∃ batchSize inputSize : Nat,
        hasShape input [(batchSize : Int), (inputSize : Int)] ∧
        hasShape weight [3 * h, (inputSize : Int)] ∧
        hasShape recurrentWeight [3 * h, h] ∧
        hasShape hiddenState [(batchSize : Int), h] ∧
        (∀ bias, options.bias = some bias → hasShape bias [3 * h]) ∧
        (∀ recurrentBias, options.recurrentBias = some recurrentBias →
          hasShape recurrentBias [3 * h]) ∧
        (options.layout.getD "zrn" = "zrn" ∨ options.layout.getD "zrn" = "rzn") := by
  by_cases hr : input.rank = 2
  · obtain ⟨b, i, hshape, h0, h1⟩ := shape_of_rank_two input hr
    have hspec : ∀ (Q : Nat → Nat → Prop),
        (∃ batchSize inputSize : Nat,
          hasShape input [(batchSize : Int), (inputSize : Int)] ∧ Q batchSize inputSize) ↔
        Q b i := by
      intro Q
      constructor
      · rintro ⟨b', i', hs, hq⟩
        simp only [hasShape, hshape, List.map_cons, List.map_nil, Int.ofNat_eq_coe,
          List.cons.injEq, Nat.cast_inj, and_true] at hs
        obtain ⟨rfl, rfl⟩ := hs
        exact hq
      · intro hq
        exact ⟨b, i, by simp [hasShape, hshape], hq⟩
    rw [hspec]
    unfold validateInputGruCell
    simp only [hasShape_two_iff, hasShape_one_iff, isInteger, hr, h0, h1, strictNe_num_iff]
    rcases options with ⟨_ | bias, _ | recurrentBias, layout⟩ <;>
      simp only [ite_error_eq_ok_iff, bind_eq_ok_iff, Bool.not_true, Bool.false_eq_true,
        false_or, not_le, ne_eq, not_not, not_or, not_and, true_and, and_true]
    all_goals
      simp only [Option.some.injEq, forall_eq', reduceCtorEq, false_implies, implies_true,
        true_and, and_assoc]
      tauto
  · constructor
    · intro hok
      unfold validateInputGruCell at hok
      simp only [ite_error_eq_ok_iff] at hok
      exact absurd hok.2.1 (by simpa using hr)
    · rintro ⟨-, b, i, hs, -⟩
      exact absurd ((hasShape_two_iff _ _ _).mp hs).1 hr

/-- Counterexample to C9: with an input of shape `[0, 2 ^ 53, 0, 0]`, a filter of shape
`[0, 3002399751580331, 0, 0]` and `groups = 3` the conv2 rule-set succeeds, the product
`2 ^ 53 + 1` being rounded to `2 ^ 53`; `input.shape[1]` is not the exact product. -/
theorem conv2_counterexample :
    validateInputConv2 ⟨[0, 2 ^ 53, 0, 0], []⟩ ⟨[0, 3002399751580331, 0, 0], []⟩
      { groups := some 3 } = .ok () ∧
    Val.mul64 (Val.num 3002399751580331) (Val.num 3) = Val.num (2 ^ 53) ∧
    ((2 ^ 53 : Nat) : Int) ≠ ((3002399751580331 : Nat) : Int) * 3 := by
  decide

/-- Claim C9, amended. For an input tensor with `input.shape[1]` below `2 ^ 53` and an integer
`groups`, the conv2 rule-set succeeds exactly when the input has rank 4, the filter has rank
4, `input.shape[1] = filter.shape[1] * groups`, and the bias is absent or a rank-1 tensor of
length `filter.shape[0]`. -/
theorem conv2_safe_succeeds_iff (input filter : Tensor) (bias : Option Tensor) (groups : Int)
    (hdim : ∀ d : Nat, input.shape[1]? = some d → d < 2 ^ 53) :
    validateInputConv2 input filter { bias := bias, groups := some groups } = .ok () ↔
      input.rank = 4 ∧ filter.rank = 4 ∧
      (∃ inputChannels filterInputChannels : Nat,
        input.shape[1]? = some inputChannels ∧
        filter.shape[1]? = some filterInputChannels ∧
        (inputChannels : Int) = (filterInputChannels : Int) * groups) ∧
      (∀ b, bias = some b → b.rank = 1 ∧ b.shape[0]? = filter.shape[0]?) := by
  unfold validateInputConv2
  by_cases hi : input.rank = 4
  · by_cases hf : filter.rank = 4
    · obtain ⟨i0, i1, i2, i3, his⟩ := shape_of_rank_four input hi
      obtain ⟨f0, f1, f2, f3, hfs⟩ := shape_of_rank_four filter hf
      have hlt : (i1 : Int) < 2 ^ 53 := by
        have := hdim i1 (by simp [his])
        exact_mod_cast this
      have e1 : input.shapeAt 1 = Val.num (i1 : Int) := by simp [Tensor.shapeAt, his]
      have e2 : filter.shapeAt 1 = Val.num (f1 : Int) := by simp [Tensor.shapeAt, hfs]
      have e3 : filter.shapeAt 0 = Val.num (f0 : Int) := by simp [Tensor.shapeAt, hfs]
      simp only [hi, hf, ne_eq, not_true_eq_false, if_false, true_and, e1, e2, e3, fieldVal,
        Val.mul64, strictNe_ofExact _ _ (show -2 ^ 53 < (i1 : Int) by omega) hlt,
        strictNe_num_iff, ite_error_eq_ok_iff, not_not, Val.num.injEq, his, hfs,
        List.getElem?_cons_zero, List.getElem?_cons_succ, Option.some.injEq, exists_eq_left']
      cases bias with
      | none => simp
      | some b =>
        simp only [Option.some.injEq, forall_eq', ite_error_eq_ok_iff, not_or, not_not, and_true]
        by_cases hb : b.rank = 1
        · obtain ⟨b0, hbs⟩ := shape_of_rank_one b hb
          have e4 : b.shapeAt 0 = Val.num (b0 : Int) := by simp [Tensor.shapeAt, hbs]
          simp [hb, e4, hbs]
        · simp [hb]
    · simp [hi, hf]
  · simp [hi]

/-- Witness for C9: the amended theorem applied to an input of shape `[1, 4, 5, 5]`, a filter
of shape `[2, 2, 3, 3]`, no bias and `groups = 2`. -/
theorem conv2_safe_succeeds_iff_witness :
    (∀ d : Nat, ([1, 4, 5, 5] : List Nat)[1]? = some d → d < 2 ^ 53) ∧
    validateInputConv2 ⟨[1, 4, 5, 5], []⟩ ⟨[2, 2, 3, 3], []⟩ { groups := some 2 } = .ok () ∧
    (∃ inputChannels filterInputChannels : Nat,
      ([1, 4, 5, 5] : List Nat)[1]? = some inputChannels ∧
      ([2, 2, 3, 3] : List Nat)[1]? = some filterInputChannels ∧
      (inputChannels : Int) = (filterInputChannels : Int) * 2) :=
  have hd : ∀ d : Nat, ([1, 4, 5, 5] : List Nat)[1]? = some d → d < 2 ^ 53 := by
    intro d hd
    have h4 : d = 4 := by simpa using hd.symm
    omega
  ⟨hd, by decide,
    ((conv2_safe_succeeds_iff ⟨[1, 4, 5, 5], []⟩ ⟨[2, 2, 3, 3], []⟩ none 2 hd).mp
      (by decide)).2.2.1⟩

/-- Claim C10. For an axis (1 when omitted) with `0 ≤ axis < rank`, and `C` the size of the
input along it, the batchNormalization rule-set succeeds exactly when each of mean, variance,
scale and bias that is present has shape `[C]`.  A present tensor of rank other than 1 is
reported by the helper as not 1-D, and a failure of the rule-set names a present tensor and is
the not-1-D error when its rank is not 1, the length mismatch when it is a rank-1 tensor of
another length. -/
theorem batchNormalization_succeeds_iff (input : Tensor) (mean variance : Option Tensor)
    (options : BatchNormalizationOptions) (C : Nat)
    (hax : 0 ≤ options.axis.getD 1 ∧ options.axis.getD 1 < (input.rank : Int))
    (hC : input.shape[(options.axis.getD 1).toNat]? = some C) :
    (validateInputBatchNormalization input mean variance options = .ok () ↔
      ∀ a ∈ [mean, variance, options.scale, options.bias],
        ∀ t, a = some t → t.shape = [C]) ∧
    (∀ (t : Tensor) (name : String), t.rank ≠ 1 →
      check1DTensorWithSize (some t) (input.shapeAt (options.axis.getD 1)) name =
        .error (.notOneD name)) ∧
    (∀ e, validateInputBatchNormalization input mean variance options = .error e →
      ∃ name t, batchNormalizationNamed mean variance options name = some t ∧
        ((t.rank ≠ 1 ∧ e = .notOneD name) ∨
          (∃ len : Nat, t.shape = [len] ∧ len ≠ C ∧
            e = .lengthNotEqual (Val.num (len : Int)) (Val.num (C : Int)) name))) := by
  have hdim : input.shapeAt (options.axis.getD 1) = Val.num (C : Int) := by
    unfold Tensor.shapeAt
    rw [if_neg (not_lt.mpr hax.1), hC]
  refine ⟨?_, ?_, ?_⟩
  · unfold validateInputBatchNormalization
    simp only [isInteger, Bool.not_true, Bool.false_eq_true, if_false, hdim, bind_eq_ok_iff,
      check1DTensorWithSize_ok_iff, List.mem_cons, List.mem_singleton, List.not_mem_nil,
      or_false, forall_eq_or_imp, forall_eq]
  · intro t name hr
    simp [check1DTensorWithSize, hr]
  · intro e he
    unfold validateInputBatchNormalization at he
    simp only [isInteger, Bool.not_true, Bool.false_eq_true, if_false, hdim,
      bind_eq_error_iff] at he
    rcases he with he | ⟨-, he | ⟨-, he | ⟨-, he⟩⟩⟩
    · obtain ⟨t, ht, h⟩ := check1DTensorWithSize_error _ _ _ _ he
      exact ⟨"mean", t, by simp [batchNormalizationNamed, ht], h⟩
    · obtain ⟨t, ht, h⟩ := check1DTensorWithSize_error _ _ _ _ he
      exact ⟨"variance", t, by simp [batchNormalizationNamed, ht], h⟩
    · obtain ⟨t, ht, h⟩ := check1DTensorWithSize_error _ _ _ _ he
      exact ⟨"scale", t, by simp [batchNormalizationNamed, ht], h⟩
    · obtain ⟨t, ht, h⟩ := check1DTensorWithSize_error _ _ _ _ he
      exact ⟨"bias", t, by simp [batchNormalizationNamed, ht], h⟩

/-- Witness for C10: the theorem applied to an input of shape `[2,3]`, the axis omitted, and a
mean of shape `[3]`. -/
theorem batchNormalization_succeeds_iff_witness :
    (0 ≤ (({} : BatchNormalizationOptions).axis.getD 1) ∧
      (({} : BatchNormalizationOptions).axis.getD 1) < ((Tensor.mk [2, 3] []).rank : Int)) ∧
    ([2, 3] : List Nat)[(({} : BatchNormalizationOptions).axis.getD 1).toNat]? = some 3 ∧
    (validateInputBatchNormalization ⟨[2, 3], []⟩ (some ⟨[3], []⟩) none {} = .ok () ↔
      ∀ a ∈ [some (Tensor.mk [3] []), none, ({} : BatchNormalizationOptions).scale,
          ({} : BatchNormalizationOptions).bias],
        ∀ t, a = some t → t.shape = [3]) :=
  ⟨by decide, by decide,
    (batchNormalization_succeeds_iff ⟨[2, 3], []⟩ (some ⟨[3], []⟩) none {} 3 (by decide)
      (by decide)).1⟩

/-- Claim C11. With a list `axes` of integers, the reduce rule-set succeeds exactly when the
length of `axes` is at most the rank and every entry lies in `[0, rank)`; a list with a
negative entry is rejected. -/
theorem reduce_succeeds_iff (input : Tensor) (axes : List Int) :
    (validateInputReduce input { axes := some axes } = .ok () ↔
      axes.length ≤ input.rank ∧ ∀ a ∈ axes, 0 ≤ a ∧ a < (input.rank : Int)) ∧
    ((∃ a ∈ axes, a < 0) →
      ∃ e, validateInputReduce input { axes := some axes } = .error e) := by
  have key : validateInputReduce input { axes := some axes } = .ok () ↔
      axes.length ≤ input.rank ∧ ∀ a ∈ axes, 0 ≤ a ∧ a < (input.rank : Int) := by
    unfold validateInputReduce
    simp only [ite_error_eq_ok_iff, gt_iff_lt, not_lt, reduce_loop_ok_iff]
  refine ⟨key, ?_⟩
  rintro ⟨a, ha, hneg⟩
  apply exists_error_of_ne_ok
  intro hok
  have := (key.mp hok).2 a ha
  omega

/-- Claim C12. The squeeze rule-set succeeds when `axes` is omitted; with a list `axes` of
integers it succeeds exactly when the length of `axes` is at most the rank and every entry
`a` lies in `[0, rank)` and addresses a dimension of size 1. -/
theorem squeeze_succeeds_iff (input : Tensor) (axes : List Int) :
    validateInputSqueeze input { axes := none } = .ok () ∧
    (validateInputSqueeze input { axes := some axes } = .ok () ↔
      axes.length ≤ input.rank ∧
      ∀ a ∈ axes, 0 ≤ a ∧ a < (input.rank : Int) ∧ input.shape[a.toNat]? = some 1) := by
  exact ⟨rfl, squeeze_some_ok_iff input axes⟩

/-- Claim C13. The gemm rule-set succeeds exactly when `a` and `b` both have rank 2, and when
the rank of `a` is not 2 the failure is the rank error about `a`.  Shapes `[3,4]`, `[4,5]`
succeed; an `a` of shape `[3,4,1]` fails with the rank error about `a`. -/
theorem gemm_succeeds_iff (a b : Tensor) (d₁ d₂ : List Int) :
    (validateInputGemm a b = .ok () ↔ a.rank = 2 ∧ b.rank = 2) ∧
    (a.rank ≠ 2 → validateInputGemm a b = .error .gemmANot2D) ∧
    validateInputGemm ⟨[3, 4], d₁⟩ ⟨[4, 5], d₂⟩ = .ok () ∧
    validateInputGemm ⟨[3, 4, 1], d₁⟩ b = .error .gemmANot2D := by
  refine ⟨?_, ?_, rfl, rfl⟩
  · unfold validateInputGemm
    simp only [ite_error_eq_ok_iff, ne_eq, not_not, and_true]
  · intro h
    unfold validateInputGemm
    rw [if_pos h]

/-- Counterexample to C14: on an input of shape `[2,1]` the axes list `[-1]` is rejected with
the invalid-value error, while the list `[-1 + 2]` is accepted. -/
theorem squeeze_negative_axis_counterexample :
    validateInputSqueeze ⟨[2, 1], []⟩ { axes := some [-1] } = .error (.squeezeAxisValue (-1)) ∧
    validateInputSqueeze ⟨[2, 1], []⟩ { axes := some [-1 + 2] } = .ok () ∧
    ¬ (validateInputSqueeze ⟨[2, 1], []⟩ { axes := some [-1] } = .ok () ↔
      validateInputSqueeze ⟨[2, 1], []⟩ { axes := some [-1 + 2] } = .ok ()) := by
  decide

/-- Claim C14, amended. Squeeze does not normalize negative axes against the rank: every
request whose axes list contains a negative entry is rejected. -/
theorem squeeze_rejects_negative_axis (input : Tensor) (axes : List Int)
    (h : ∃ a ∈ axes, a < 0) :
    ∃ e, validateInputSqueeze input { axes := some axes } = .error e := by
  obtain ⟨a, ha, hneg⟩ := h
  apply exists_error_of_ne_ok
  intro hok
  have := ((squeeze_some_ok_iff input axes).mp hok).2 a ha
  omega

/-- Witness for C14: the amended theorem applied to an input of shape `[2,1]` and the axes
list `[-1]`. -/
theorem squeeze_rejects_negative_axis_witness :
    (∃ a ∈ ([-1] : List Int), a < 0) ∧
    ∃ e, validateInputSqueeze ⟨[2, 1], []⟩ { axes := some [-1] } = .error e :=
  ⟨⟨-1, by simp, by decide⟩,
    squeeze_rejects_negative_axis ⟨[2, 1], []⟩ [-1] ⟨-1, by simp, by decide⟩⟩

/-- Claim C15, the code at the failing inputs. With an input of shape `[2,3]` and mean and
variance of shape `[3]`, an axis of 5 or of -1 gives the length-mismatch error about the mean,
the expected size being `undefined`; with no optional tensor present the request is accepted.
For no request is the invalid-axis error raised. -/
theorem batchNormalization_axis_out_of_range_eval :
    validateInputBatchNormalization ⟨[2, 3], []⟩ (some ⟨[3], []⟩) (some ⟨[3], []⟩)
        { axis := some 5 } =
      .error (.lengthNotEqual (Val.num 3) Val.undefined "mean") ∧
    validateInputBatchNormalization ⟨[2, 3], []⟩ (some ⟨[3], []⟩) (some ⟨[3], []⟩)
        { axis := some (-1) } =
      .error (.lengthNotEqual (Val.num 3) Val.undefined "mean") ∧
    validateInputBatchNormalization ⟨[2, 3], []⟩ (some ⟨[3, 1], []⟩) none { axis := some 5 } =
      .error (.notOneD "mean") ∧
    validateInputBatchNormalization ⟨[2, 3], []⟩ none none { axis := some 5 } = .ok () ∧
    (∀ (input : Tensor) (mean variance : Option Tensor) (options : BatchNormalizationOptions)
      (axis : Int),
      validateInputBatchNormalization input mean variance options ≠
        .error (.axisNotInteger axis)) := by
  refine ⟨by decide, by decide, by decide, by decide, ?_⟩
  intro input mean variance options axis he
  unfold validateInputBatchNormalization at he
  simp only [isInteger, Bool.not_true, Bool.false_eq_true, if_false, bind_eq_error_iff] at he
  rcases he with he | ⟨-, he | ⟨-, he | ⟨-, he⟩⟩⟩ <;>
    rcases check1DTensorWithSize_error_kind _ _ _ _ he with h | ⟨len, h⟩ <;> cases h

/-- Counterexample to C16: two gru requests that pass every check and omit
`initialHiddenState`, one with batch size 2 and one with batch size 3, bind the local
`hiddenState` to different zero-filled descriptors, of shapes `[2, 2, 8]` and `[2, 3, 8]`,
and return the same value, the unit: what `validateInput` returns does not carry the
descriptor. -/
theorem gru_default_hiddenState_counterexample :
    gruHiddenState ⟨[5, 2, 3], []⟩ ⟨[2, 24, 3], []⟩ ⟨[2, 24, 8], []⟩ 5 8
        { direction := some "both", layout := some "zrn" } = .ok (zeroTensor [2, 2, 8]) ∧
    gruHiddenState ⟨[5, 3, 3], []⟩ ⟨[2, 24, 3], []⟩ ⟨[2, 24, 8], []⟩ 5 8
        { direction := some "both", layout := some "zrn" } = .ok (zeroTensor [2, 3, 8]) ∧
    validateInput "gru" (.gru ⟨[5, 2, 3], []⟩ ⟨[2, 24, 3], []⟩ ⟨[2, 24, 8], []⟩ 5 8
        { direction := some "both", layout := some "zrn" }) = some (.ok ()) ∧
    validateInput "gru" (.gru ⟨[5, 3, 3], []⟩ ⟨[2, 24, 3], []⟩ ⟨[2, 24, 8], []⟩ 5 8
        { direction := some "both", layout := some "zrn" }) = some (.ok ()) ∧
    zeroTensor [2, 2, 8] ≠ zeroTensor [2, 3, 8] ∧
    ¬ ∃ f : Option (Except Error Unit) → Tensor,
      f (validateInput "gru" (.gru ⟨[5, 2, 3], []⟩ ⟨[2, 24, 3], []⟩ ⟨[2, 24, 8], []⟩ 5 8
        { direction := some "both", layout := some "zrn" })) = zeroTensor [2, 2, 8] ∧
      f (validateInput "gru" (.gru ⟨[5, 3, 3], []⟩ ⟨[2, 24, 3], []⟩ ⟨[2, 24, 8], []⟩ 5 8
        { direction := some "both", layout := some "zrn" })) = zeroTensor [2, 3, 8] := by
  have hA : validateInput "gru" (.gru ⟨[5, 2, 3], []⟩ ⟨[2, 24, 3], []⟩ ⟨[2, 24, 8], []⟩ 5 8
      { direction := some "both", layout := some "zrn" }) = some (.ok ()) := by decide
  have hB : validateInput "gru" (.gru ⟨[5, 3, 3], []⟩ ⟨[2, 24, 3], []⟩ ⟨[2, 24, 8], []⟩ 5 8
      { direction := some "both", layout := some "zrn" }) = some (.ok ()) := by decide
  have hne : zeroTensor [2, 2, 8] ≠ zeroTensor [2, 3, 8] := by decide
  refine ⟨by decide, by decide, hA, hB, hne, ?_⟩
  rintro ⟨f, h1, h2⟩
  rw [hA] at h1
  rw [hB] at h2
  exact hne (h1.symm.trans h2)

/-- Claim C16, amended. For a gru request that omits `initialHiddenState` and passes the
sixteen checks, the case binds its local `hiddenState` to the zero-filled descriptor of shape
`[numDirections, batchSize, hiddenSize]` when `numDirections * batchSize * hiddenSize` is
below `2 ^ 32` and then succeeds with the unit value, which carries no descriptor; from
`2 ^ 32` on, the allocation of the descriptor fails and the request is refused with a
`RangeError`. -/
theorem gru_default_hiddenState_local (input weight recurrentWeight : Tensor)
    (steps h : Int) (options : GruOptions)
    (hpass : ∀ c ∈ gruChecks input weight recurrentWeight steps h
      { options with initialHiddenState := none }, c = none) :
    ∃ batchSize : Nat, input.shape[1]? = some batchSize ∧
      (numDirections options.direction * (batchSize : Int) * h < 2 ^ 32 →
        gruHiddenState input weight recurrentWeight steps h
            { options with initialHiddenState := none } =
          .ok (zeroTensor [(numDirections options.direction).toNat, batchSize, h.toNat]) ∧
        validateInputGru input weight recurrentWeight steps h
          { options with initialHiddenState := none } = .ok ()) ∧
      (2 ^ 32 ≤ numDirections options.direction * (batchSize : Int) * h →
        gruHiddenState input weight recurrentWeight steps h
            { options with initialHiddenState := none } = .error .rangeError ∧
        validateInputGru input weight recurrentWeight steps h
          { options with initialHiddenState := none } = .error .rangeError) := by
  have hbefore : ∀ c ∈ gruChecksBefore input weight recurrentWeight steps h
      { options with initialHiddenState := none }, c = none := by
    intro c hc
    exact hpass c (by unfold gruChecks; exact List.mem_append_left _ hc)
  have hlayout : gruLayoutCheck { options with initialHiddenState := none } = none :=
    hpass _ (by unfold gruChecks; simp)
  obtain ⟨hh, b, hb, hbv⟩ := gruChecksBefore_none _ _ _ _ _ _ hbefore
  have hstate : gruHiddenState input weight recurrentWeight steps h
      { options with initialHiddenState := none } =
      gruDefaultHiddenState (Val.num (numDirections options.direction)) (Val.num (b : Int))
        (Val.num h) := by
    rw [gruHiddenState_eq, (firstViolation_ok_iff _).mpr hbefore]
    simp only [Except.bind]
    rw [hbv]
  have hlay : ¬ (options.layout ≠ some "zrn" ∧ options.layout ≠ some "rzn") := by
    unfold gruLayoutCheck check at hlayout
    simp only [ite_eq_right_iff, reduceCtorEq, imp_false, not_not] at hlayout
    tauto
  refine ⟨b, hb, ?_, ?_⟩
  · intro hsmall
    have hd := gruDefaultHiddenState_small _ b h (numDirections_range options.direction) hh
      hsmall
    refine ⟨by rw [hstate, hd], ?_⟩
    unfold validateInputGru
    rw [hstate, hd]
    simp only [Except.bind]
    rw [if_neg hlay]
  · intro hlarge
    have hd := gruDefaultHiddenState_large _ b h (numDirections_range options.direction) hh
      hlarge
    refine ⟨by rw [hstate, hd], ?_⟩
    unfold validateInputGru
    rw [hstate, hd]
    rfl

/-- Witness for C16: the amended theorem applied to a request with steps 5, hiddenSize 8,
batch size 2 and direction `both` that omits `initialHiddenState`. -/
theorem gru_default_hiddenState_local_witness :
    (∀ c ∈ gruChecks ⟨[5, 2, 3], []⟩ ⟨[2, 24, 3], []⟩ ⟨[2, 24, 8], []⟩ 5 8
      { direction := some "both", layout := some "zrn" }, c = none) ∧
    ∃ batchSize : Nat, ([5, 2, 3] : List Nat)[1]? = some batchSize ∧
      (numDirections (some "both") * (batchSize : Int) * 8 < 2 ^ 32 →
        gruHiddenState ⟨[5, 2, 3], []⟩ ⟨[2, 24, 3], []⟩ ⟨[2, 24, 8], []⟩ 5 8
            { direction := some "both", layout := some "zrn" } =
          .ok (zeroTensor [(numDirections (some "both")).toNat, batchSize, (8 : Int).toNat]) ∧
        validateInputGru ⟨[5, 2, 3], []⟩ ⟨[2, 24, 3], []⟩ ⟨[2, 24, 8], []⟩ 5 8
          { direction := some "both", layout := some "zrn" } = .ok ()) :=
  ⟨by decide,
    have ⟨b, hb, h1, _⟩ := gru_default_hiddenState_local ⟨[5, 2, 3], []⟩ ⟨[2, 24, 3], []⟩
      ⟨[2, 24, 8], []⟩ 5 8 { direction := some "both", layout := some "zrn" } (by decide)
    ⟨b, hb, h1⟩⟩

/-- Claim C17, the code at the failing inputs. A gruCell request that passes all earlier
checks and has a recurrentBias of rank 2 fails with a `TypeError` when bias is absent, and
with a message that reports the rank 1 of bias when bias is present. -/
theorem gruCell_recurrentBias_rank_eval :
    (Tensor.mk [2, 3] []).rank = 2 ∧
    validateInputGruCell ⟨[2, 3], []⟩ ⟨[24, 3], []⟩ ⟨[24, 8], []⟩ ⟨[2, 8], []⟩ 8
        { recurrentBias := some ⟨[2, 3], []⟩ } = .error .typeError ∧
    validateInputGruCell ⟨[2, 3], []⟩ ⟨[24, 3], []⟩ ⟨[24, 8], []⟩ ⟨[2, 8], []⟩ 8
        { bias := some ⟨[24], []⟩, recurrentBias := some ⟨[2, 3], []⟩ } =
      .error (.notRank "recurrentBias" 1 1) := by
  decide

/-- Counterexample to C18: the request with input `[1, 2 ^ 32, 0]`, weight `[1, 3, 0]`,
recurrentWeight `[1, 3, 1]`, steps 1, hiddenSize 1, direction `forward`, no initial hidden
state and layout `abc` violates the layout check alone of the sixteen checks of the claim,
yet the error raised is the `RangeError` of the allocation of the default hidden state. -/
theorem gru_error_order_counterexample :
    validateInputGru ⟨[1, 2 ^ 32, 0], []⟩ ⟨[1, 3, 0], []⟩ ⟨[1, 3, 1], []⟩ 1 1
        { direction := some "forward", layout := some "abc" } = .error .rangeError ∧
    firstViolation (gruChecks ⟨[1, 2 ^ 32, 0], []⟩ ⟨[1, 3, 0], []⟩ ⟨[1, 3, 1], []⟩ 1 1
        { direction := some "forward", layout := some "abc" }) =
      .error (.layoutInvalid (some "abc")) ∧
    (∀ c ∈ gruChecksBefore ⟨[1, 2 ^ 32, 0], []⟩ ⟨[1, 3, 0], []⟩ ⟨[1, 3, 1], []⟩ 1 1
        { direction := some "forward", layout := some "abc" }, c = none) := by
  decide

/-- Claim C18, amended. The gru rule-set raises the error of the earliest failing step in the
order steps, hiddenSize, input rank, `input.shape[0] = steps`, direction, weight rank, weight
shape, recurrentWeight rank, recurrentWeight shape, bias rank, bias shape, recurrentBias rank,
recurrentBias shape, initialHiddenState rank, initialHiddenState shape, allocation of the
default hidden state (a `RangeError` when `initialHiddenState` is omitted and
`numDirections * batchSize * hiddenSize` is `2 ^ 32` or more), layout: when a step fails and
none before it does, its error is the one raised, whatever the later steps say.  Where the
allocation does not fail, this is the order of the sixteen checks.  A non-positive steps
together with an invalid layout reports the steps error. -/
theorem gru_reports_earliest_failing_step (input weight recurrentWeight : Tensor)
    (steps h : Int) (options : GruOptions) (k : Nat) :
    validateInputGru input weight recurrentWeight steps h options =
      firstViolation (gruSteps input weight recurrentWeight steps h options) ∧
    (∀ (pre post : List (Option Error)) (e : Error),
      gruSteps input weight recurrentWeight steps h options = pre ++ some e :: post →
      (∀ c ∈ pre, c = none) →
      validateInputGru input weight recurrentWeight steps h options = .error e) ∧
    (gruDefaultCheck input h options = none →
      validateInputGru input weight recurrentWeight steps h options =
        firstViolation (gruChecks input weight recurrentWeight steps h options)) ∧
    (gruSteps input weight recurrentWeight steps h options).length = 17 ∧
    (gruChecks input weight recurrentWeight steps h options).length = 16 ∧
    validateInputGru input weight recurrentWeight (-(k : Int)) h
        { options with layout := some "abc" } = .error (.stepsInvalid (-(k : Int))) := by
  refine ⟨gru_eq_firstViolation _ _ _ _ _ _, ?_, ?_, rfl, rfl, ?_⟩
  · intro pre post e hsplit hpre
    rw [gru_eq_firstViolation, hsplit]
    exact firstViolation_append pre post e hpre
  · intro hnone
    rw [gru_eq_firstViolation]
    unfold gruSteps gruChecks
    rw [firstViolation_append_bind, firstViolation_append_bind, hnone]
    rfl
  · unfold validateInputGru gruHiddenState
    rw [if_pos (Or.inr (by omega))]
    rfl

/-- Counterexample to C19: on an input of shape `[2,1]` the axes list `[0, 5]` has length at
most the rank and contains the entry 5 outside `[0, 2)`, yet the failure is the size-not-1
error of the earlier entry 0, not the invalid-value error. -/
theorem squeeze_check_order_counterexample :
    ([0, 5] : List Int).length ≤ (Tensor.mk [2, 1] []).rank ∧
    validateInputSqueeze ⟨[2, 1], []⟩ { axes := some [0, 5] } =
      .error (.squeezeDimNotOne (Val.num 2) 0) ∧
    validateInputSqueeze ⟨[2, 1], []⟩ { axes := some [0, 5] } ≠
      .error (.squeezeAxisValue 5) := by
  decide

/-- Claim C19, amended. Squeeze checks the length of `axes` first and then, entry by entry in
order, the range of the entry and the size of the dimension it addresses.  For an axes list of
length at most the rank whose first entry outside `[0, rank)` is `a`, validation fails; the
error is the invalid-value error for `a` exactly when every entry before `a` addresses a
dimension of size 1, and otherwise the size-not-1 error of the first earlier entry whose
dimension is not of size 1. -/
theorem squeeze_first_out_of_range_error (input : Tensor) (pre post : List Int) (a : Int)
    (hlen : (pre ++ a :: post).length ≤ input.rank)
    (hpre : ∀ b ∈ pre, 0 ≤ b ∧ b < (input.rank : Int))
    (ha : a < 0 ∨ (input.rank : Int) ≤ a) :
    (∃ e, validateInputSqueeze input { axes := some (pre ++ a :: post) } = .error e) ∧
    (validateInputSqueeze input { axes := some (pre ++ a :: post) } =
        .error (.squeezeAxisValue a) ↔
      ∀ b ∈ pre, input.shape[b.toNat]? = some 1) ∧
    (∀ (p₁ p₂ : List Int) (b : Int) (d : Nat), pre = p₁ ++ b :: p₂ →
      (∀ c ∈ p₁, input.shape[c.toNat]? = some 1) → input.shape[b.toNat]? = some d → d ≠ 1 →
      validateInputSqueeze input { axes := some (pre ++ a :: post) } =
        .error (.squeezeDimNotOne (Val.num (d : Int)) b)) := by
  have hrun : validateInputSqueeze input { axes := some (pre ++ a :: post) } =
      forEach (pre ++ a :: post) (squeezeCheckAxis input) := by
    unfold validateInputSqueeze
    dsimp only
    rw [if_neg (not_lt.mpr hlen)]
  refine ⟨?_, ?_, ?_⟩
  · apply exists_error_of_ne_ok
    intro hok
    have := ((squeeze_some_ok_iff input _).mp hok).2 a (by simp)
    omega
  · rw [hrun]
    exact squeeze_loop_first_out_of_range input pre post a hpre ha
  · intro p₁ p₂ b d hsplit h₁ hd hne
    rw [hrun, hsplit, List.append_assoc, List.cons_append]
    have hb : 0 ≤ b ∧ b < (input.rank : Int) := hpre b (by simp [hsplit])
    refine forEach_append_error p₁ _ b _ _ ?_ (squeezeCheckAxis_dim input b d hb hd hne)
    intro c hc
    have hcr := hpre c (by simp [hsplit, hc])
    exact (squeeze_body_ok_iff input c).mpr ⟨hcr.1, hcr.2, h₁ c hc⟩

/-- Witness for C19: the amended theorem applied to an input of shape `[1,1,2]` and the axes
list `[0, 5]`, whose first out-of-range entry 5 follows an entry addressing a dimension of
size 1. -/
theorem squeeze_first_out_of_range_error_witness :
    (([0] : List Int) ++ 5 :: []).length ≤ (Tensor.mk [1, 1, 2] []).rank ∧
    (∀ b ∈ ([0] : List Int), 0 ≤ b ∧ b < ((Tensor.mk [1, 1, 2] []).rank : Int)) ∧
    ((5 : Int) < 0 ∨ ((Tensor.mk [1, 1, 2] []).rank : Int) ≤ 5) ∧
    (validateInputSqueeze ⟨[1, 1, 2], []⟩ { axes := some ([0] ++ 5 :: []) } =
        .error (.squeezeAxisValue 5) ↔
      ∀ b ∈ ([0] : List Int), ([1, 1, 2] : List Nat)[b.toNat]? = some 1) :=
  ⟨by decide, by decide, by decide,
    (squeeze_first_out_of_range_error ⟨[1, 1, 2], []⟩ [0] [] 5 (by decide) (by decide)
      (by decide)).2.1⟩

/-- Counterexample to C20: for the request with input `[1, 2 ^ 32, 0]`, weight `[1, 3, 0]`,
recurrentWeight `[1, 3, 1]`, steps 1, hiddenSize 1, direction `forward` and layout `zrn`,
omitting `initialHiddenState` fails with a `RangeError`, the construction of the default
failing, while supplying the zero-filled tensor of shape `[1, 2 ^ 32, 1]` succeeds. -/
theorem gru_default_counterexample :
    validateInputGru ⟨[1, 2 ^ 32, 0], []⟩ ⟨[1, 3, 0], []⟩ ⟨[1, 3, 1], []⟩ 1 1
        { direction := some "forward", layout := some "zrn" } = .error .rangeError ∧
    gruDefaultHiddenState (Val.num 1) (Val.num (2 ^ 32)) (Val.num 1) = .error .rangeError ∧
    validateInputGru ⟨[1, 2 ^ 32, 0], []⟩ ⟨[1, 3, 0], []⟩ ⟨[1, 3, 1], []⟩ 1 1
        { direction := some "forward", layout := some "zrn",
          initialHiddenState := some (zeroTensor [1, 2 ^ 32, 1]) } = .ok () := by
  refine ⟨by decide, by decide, ?_⟩
  rw [gru_eq_firstViolation, firstViolation_ok_iff]
  decide

/-- Claim C20, amended. For a gru request with `numDirections * batchSize * hiddenSize` below
`2 ^ 32`, omitting `initialHiddenState` gives the same result (success, or the same error) as
supplying the zero-filled tensor of shape `[numDirections, batchSize, hiddenSize]`, and the
default, once the checks before it are passed, is constructed without failure as that tensor,
the zero buffer having the product of the shape as its length. -/
theorem gru_default_same_as_zero_tensor_of_small (input weight recurrentWeight : Tensor)
    (steps h : Int) (options : GruOptions)
    (hsmall : numDirections options.direction * (((input.shape[1]?).getD 0 : Nat) : Int) * h <
      2 ^ 32) :
    validateInputGru input weight recurrentWeight steps h
        { options with initialHiddenState := none } =
      validateInputGru input weight recurrentWeight steps h
        { options with initialHiddenState := some (zeroTensor
          [(numDirections options.direction).toNat, (input.shape[1]?).getD 0, h.toNat]) } ∧
    ((∀ c ∈ gruChecksBefore input weight recurrentWeight steps h
        { options with initialHiddenState := none }, c = none) →
      gruHiddenState input weight recurrentWeight steps h
          { options with initialHiddenState := none } =
        .ok (zeroTensor
          [(numDirections options.direction).toNat, (input.shape[1]?).getD 0, h.toNat])) ∧
    (zeroTensor [(numDirections options.direction).toNat, (input.shape[1]?).getD 0,
        h.toNat]).data.length =
      [(numDirections options.direction).toNat, (input.shape[1]?).getD 0, h.toNat].prod := by
  refine ⟨?_, ?_, ?_⟩
  · have hd1 : gruDefaultCheck input h { options with initialHiddenState := none } = none := by
      unfold gruDefaultCheck check
      rw [if_neg]
      rintro ⟨-, hle⟩
      exact absurd hsmall (not_lt.mpr hle)
    have hd2 : gruDefaultCheck input h { options with initialHiddenState := some (zeroTensor
        [(numDirections options.direction).toNat, (input.shape[1]?).getD 0, h.toNat]) } =
        none := by
      unfold gruDefaultCheck check
      rw [if_neg]
      rintro ⟨hnone, -⟩
      cases hnone
    rw [gru_eq_firstViolation, gru_eq_firstViolation]
    unfold gruSteps
    rw [hd1, hd2]
    unfold gruChecksBefore gruLayoutCheck
    dsimp only
    by_cases hh : 0 < h
    · have hn0 := numDirections_nonneg options.direction
      simp [check, hasShape, zeroTensor, Tensor.rank, Int.toNat_of_nonneg hn0,
        Int.toNat_of_nonneg (le_of_lt hh)]
    · by_cases hs : 0 < steps <;> simp [check, firstViolation, hs, hh]
  · intro hall
    obtain ⟨hh, b, hb, hbv⟩ := gruChecksBefore_none _ _ _ _ _ _ hall
    rw [gruHiddenState_eq, (firstViolation_ok_iff _).mpr hall]
    simp only [Except.bind]
    rw [hb] at hsmall ⊢
    rw [hbv]
    exact gruDefaultHiddenState_small _ b h (numDirections_range _) hh hsmall
  · simp [zeroTensor]

/-- Witness for C20: the amended theorem applied to a request with steps 5, hiddenSize 8,
batchSize 2 and direction `both`. -/
theorem gru_default_same_as_zero_tensor_of_small_witness :
    numDirections (some "both") * ((([5, 2, 3] : List Nat)[1]?.getD 0 : Nat) : Int) * 8 <
      2 ^ 32 ∧
    validateInputGru ⟨[5, 2, 3], []⟩ ⟨[2, 24, 3], []⟩ ⟨[2, 24, 8], []⟩ 5 8
        { direction := some "both", layout := some "zrn" } =
      validateInputGru ⟨[5, 2, 3], []⟩ ⟨[2, 24, 3], []⟩ ⟨[2, 24, 8], []⟩ 5 8
        { direction := some "both", layout := some "zrn",
          initialHiddenState := some (zeroTensor [2, 2, 8]) } :=
  ⟨by decide,
    (gru_default_same_as_zero_tensor_of_small ⟨[5, 2, 3], []⟩ ⟨[2, 24, 3], []⟩
      ⟨[2, 24, 8], []⟩ 5 8 { direction := some "both", layout := some "zrn" }
      (by decide)).1⟩

/-- Claim C21. For an operation identifier that is none of the fourteen handled names,
`validateInput` succeeds whatever the argument list: no check is made.  The identifier
`conv2d` is accepted for any arguments, also for those the case `conv2` rejects. -/
theorem validateInput_unhandled_succeeds (op : String) (args : Args)
    (h : op ∉ handledOperations) :
    validateInput op args = some (.ok ()) ∧
    validateInput "conv2d" args = some (.ok ()) ∧
    validateInput "conv2" (.conv2 ⟨[1], []⟩ ⟨[1], []⟩ {}) = some (.error .inputNot4D) ∧
    validateInput "conv2d" (.conv2 ⟨[1], []⟩ ⟨[1], []⟩ {}) = some (.ok ()) := by
  refine ⟨?_, rfl, rfl, rfl⟩
  simp only [handledOperations, List.mem_cons, List.mem_singleton, List.not_mem_nil, or_false,
    not_or] at h
  obtain ⟨h1, h2, h3, h4, h5, h6, h7, h8, h9, h10, h11, h12, h13, h14⟩ := h
  unfold validateInput
  rw [if_neg h1, if_neg h2, if_neg h3, if_neg h4, if_neg h5, if_neg h6, if_neg h7, if_neg h8,
    if_neg h9, if_neg h10, if_neg h11, if_neg h12, if_neg h13, if_neg h14]

/-- Witness for C21: the theorem applied to the identifier `conv2d` and the arguments of a
conv2 call. -/
theorem validateInput_unhandled_succeeds_witness :
    "conv2d" ∉ handledOperations ∧
    validateInput "conv2d" (.conv2 ⟨[1], []⟩ ⟨[1], []⟩ {}) = some (.ok ()) :=
  ⟨by decide,
    (validateInput_unhandled_succeeds "conv2d" (.conv2 ⟨[1], []⟩ ⟨[1], []⟩ {}) (by decide)).1⟩

/-- Claim C22. For every input tensor and every axis in `[-rank, rank)` (0 when omitted), the
split rule-set with an empty sequence `splits` fails: the entries are summed without initial
value, which the host refuses for an empty sequence.  This is so also when the target
dimension has size 0. -/
theorem split_empty_fails (input : Tensor) (axisOpt : Option Int) (rest : List Nat)
    (dat : List Int)
    (hax : -(input.rank : Int) ≤ axisOpt.getD 0 ∧ axisOpt.getD 0 < input.rank) :
    validateInputSplit input (.array []) { axis := axisOpt } = .error .typeError ∧
    validateInputSplit ⟨0 :: rest, dat⟩ (.array []) { axis := some 0 } = .error .typeError := by
  constructor
  · unfold validateInputSplit
    have h2 : ¬ (axisOpt.getD 0 ≥ (input.rank : Int) ∨
        axisOpt.getD 0 < -(input.rank : Int)) := by
      omega
    simp only [isInteger, Bool.not_true, Bool.false_eq_true, if_false, if_neg h2, List.all_nil,
      reduceSum]
  · have h1 : ¬ ((0 : Int) ≥ ((rest.length + 1 : Nat) : Int) ∨
        (0 : Int) < -((rest.length + 1 : Nat) : Int)) := by omega
    simp [validateInputSplit, isInteger, Tensor.rank, reduceSum, h1]
    omega

/-- Witness for C22: the theorem applied to an input of shape `[0]` and axis 0. -/
theorem split_empty_fails_witness :
    (-((Tensor.mk [0] []).rank : Int) ≤ (some (0 : Int)).getD 0 ∧
      (some (0 : Int)).getD 0 < (Tensor.mk [0] []).rank) ∧
    validateInputSplit ⟨[0], []⟩ (.array []) { axis := some 0 } = .error .typeError :=
  ⟨by decide, (split_empty_fails ⟨[0], []⟩ (some 0) [] [] (by decide)).1⟩

/-- Claim C23. For every input tensor with a dimension of size 0 (hence of rank at least 1)
and all integer lists `starts` and `sizes`, the slice rule-set with `options.axes` omitted
fails: no start lies in the empty interval `[-0, 0)`. -/
theorem slice_zero_dimension_fails (input : Tensor) (starts sizes : List Int)
    (h0 : 0 ∈ input.shape) :
    1 ≤ input.rank ∧
    (∃ e, validateInputSlice input starts sizes { axes := none } = .error e) ∧
    (∀ s z : Int, ¬ SliceOk 0 s z) := by
  have hno : ∀ s z : Int, ¬ SliceOk 0 s z := by
    intro s z h
    unfold SliceOk at h
    omega
  obtain ⟨i, hi⟩ := List.mem_iff_getElem?.mp h0
  have hlt : i < input.shape.length := (List.getElem?_eq_some.mp hi).1
  refine ⟨?_, ?_, hno⟩
  · unfold Tensor.rank
    omega
  · apply exists_error_of_ne_ok
    intro hok
    obtain ⟨hst, hsz, hall⟩ := (slice_default_ok_iff input starts sizes).mp hok
    have hs : starts[i]? = some (starts.get ⟨i, by rw [hst]; exact hlt⟩) :=
      List.getElem?_eq_getElem _
    have hz : sizes[i]? = some (sizes.get ⟨i, by rw [hsz]; exact hlt⟩) :=
      List.getElem?_eq_getElem _
    exact hno _ _ (by simpa using hall i 0 _ _ hi hs hz)

/-- Witness for C23: the theorem applied to an input of shape `[2,0]`. -/
theorem slice_zero_dimension_fails_witness :
    0 ∈ (Tensor.mk [2, 0] []).shape ∧
    ∃ e, validateInputSlice ⟨[2, 0], []⟩ [0, 0] [1, 0] { axes := none } = .error e :=
  ⟨by decide, (slice_zero_dimension_fails ⟨[2, 0], []⟩ [0, 0] [1, 0] (by decide)).2.1⟩

/-- Claim C24. For an axes list of pairwise distinct integers each in `[0, rank)`, the reduce
rule-set succeeds, the length of such a list being at most the rank; so the length check
fires only for a list with a duplicate or with an entry outside `[0, rank)`. -/
theorem reduce_distinct_in_range_succeeds (input : Tensor) (axes : List Int)
    (hnd : axes.Nodup) (hr : ∀ a ∈ axes, 0 ≤ a ∧ a < (input.rank : Int)) :
    validateInputReduce input { axes := some axes } = .ok () ∧
    axes.length ≤ input.rank ∧
    (∀ axes' : List Int,
      validateInputReduce input { axes := some axes' } =
        .error (.reduceAxesLength axes'.length input.rank) →
      ¬ axes'.Nodup ∨ ∃ a ∈ axes', ¬ (0 ≤ a ∧ a < (input.rank : Int))) := by
  have hlen := nodup_in_range_length_le axes input.rank hnd hr
  refine ⟨(reduce_some_ok_iff input axes).mpr ⟨hlen, hr⟩, hlen, ?_⟩
  intro axes' herr
  by_contra hcon
  rw [not_or, not_not] at hcon
  have hin : ∀ a ∈ axes', 0 ≤ a ∧ a < (input.rank : Int) := by
    intro a ha
    by_contra hna
    exact hcon.2 ⟨a, ha, hna⟩
  have hok := (reduce_some_ok_iff input axes').mpr
    ⟨nodup_in_range_length_le axes' input.rank hcon.1 hin, hin⟩
  rw [hok] at herr
  cases herr

/-- Witness for C24: the theorem applied to an input of shape `[2,3,4]` and axes `[2, 0]`. -/
theorem reduce_distinct_in_range_succeeds_witness :
    ([2, 0] : List Int).Nodup ∧
    (∀ a ∈ ([2, 0] : List Int), 0 ≤ a ∧ a < ((Tensor.mk [2, 3, 4] []).rank : Int)) ∧
    validateInputReduce ⟨[2, 3, 4], []⟩ { axes := some [2, 0] } = .ok () :=
  ⟨by decide, by decide,
    (reduce_distinct_in_range_succeeds ⟨[2, 3, 4], []⟩ [2, 0] (by decide) (by decide)).1⟩

end ValidateInput
